import Mathlib

/-!
Skill Kit: link store, status and detail-page diff.

A shallow embedding of `lib/link.go`, the status loop of `cmd/main.go`,
`GetLinkStatus` of `lib/module.go` and the detail page of `lib/ui.go`,
over an explicit model of the filesystem calls they make.

Conventions of the embedding.

* A `Path` is the list of components of a clean absolute path (`/a/b` is
  `["a", "b"]`, `/` is `[]`).  Components are plain names: non-empty, without
  `/`, and different from `.` and `..`.  On such a path `filepath.Abs` and
  `filepath.Clean` return their argument, and the path has no leading `~`, so
  `ResolvePath` of a single already-resolved path is that path.
* A path string as a caller writes it is a `RawPath`: the pieces between its
  slashes, read from the root, from the working directory or from an already
  resolved directory.  `ResolvePathRaw` and `RawPath.clean` clean it the way
  `ResolvePath` and `filepath.Join` do; `lookupRaw` resolves it the way the
  kernel does, with its empty pieces, `.`, `..` and trailing slash.
* The loops that read a link target are given twice: on the path `targetPath`,
  with the link name as one component, and, with the suffix `Raw`, on the
  string `targetDir + "/" + name` that the call sites build.  The two agree
  when the link name is a plain file name (`linkHealthRaw_plain`,
  `detailPlatformsRaw_plain`, `applyDiffRaw_plain`).
* The filesystem is a finite table from physical paths to nodes.  A call that
  takes a path resolves it component by component from the root, following
  symbolic links the way `path_resolution(7)` describes, with the kernel's
  limit of 40 followed links.  There are no permissions, no hard links and no
  resource limits.
* A Go `error` is an `Option`: `none` is `nil`.
-/

namespace SkillKit

/-! ## Definitions -/

/-- Components of a clean absolute path. -/
abbrev Path := List String

/-- What a directory entry is: a regular file with its bytes, a directory,
or a symbolic link with the destination stored in it. -/
inductive Node where
  | file (content : String)
  | dir
  | symlink (dest : Path)
  deriving DecidableEq, Repr

/-- The error numbers the modelled calls can return. -/
inductive Errno where
  | ENOENT
  | ENOTDIR
  | ELOOP
  | EEXIST
  | ENOTEMPTY
  | EINVAL
  | EBUSY
  | EISDIR
  deriving DecidableEq, Repr

deriving instance DecidableEq for Except

/-- The filesystem: a table from physical paths to nodes.  The root directory
`[]` always exists and has no entry of its own.  The first entry for a path is
the one in force. -/
abbrev FS := List (Path × Node)

/-- The node stored at a physical path, if any. -/
def entryAt : FS → Path → Option Node
  | [], _ => none
  | (k, v) :: rest, p => if k = p then some v else entryAt rest p

/-- The table without any entry for the physical path `q`. -/
def unlinkAt : FS → Path → FS
  | [], _ => []
  | (k, v) :: rest, q => if k = q then unlinkAt rest q else (k, v) :: unlinkAt rest q

/-- Result of a path resolution: link-follow budget left, physical path of
the node reached, and the node. -/
abbrev Resolved := Nat × Path × Node

/-- The kernel limit on symbolic links followed during one resolution. -/
def maxSymlinks : Nat := 40

/-- Walk the components `rest` starting in the directory at physical path
`cur`.  A missing entry is `ENOENT`; a regular file that is not the last
component is `ENOTDIR`; a symbolic link is followed through `onLink` (its
destination, then the remaining components) unless it is the last component
and `followLast` is off. -/
def walkFrom (fs : FS) (followLast : Bool) (fuel : Nat)
    (onLink : Path → Except Errno Resolved) : Path → List String → Except Errno Resolved
  | cur, [] => .ok (fuel, cur, .dir)
  | cur, c :: rest =>
    match entryAt fs (cur ++ [c]) with
    | none => .error .ENOENT
    | some .dir => walkFrom fs followLast fuel onLink (cur ++ [c]) rest
    | some (.file s) =>
      if rest = [] then .ok (fuel, cur ++ [c], .file s) else .error .ENOTDIR
    | some (.symlink d) =>
      if rest = [] ∧ followLast = false then .ok (fuel, cur ++ [c], .symlink d)
      else onLink (d ++ rest)

/-- Following one more symbolic link with `n` follows left: `ELOOP` when the
budget is spent, otherwise the walk restarts from the root. -/
def followLink (fs : FS) (followLast : Bool) : Nat → Path → Except Errno Resolved
  | 0, _ => .error .ELOOP
  | n + 1, p => walkFrom fs followLast n (followLink fs followLast n) [] p

/-- Path resolution from the root with a budget of `n` link follows. -/
def resolve (fs : FS) (followLast : Bool) (n : Nat) (p : Path) : Except Errno Resolved :=
  walkFrom fs followLast n (followLink fs followLast n) [] p

/-- The call `os.Stat`: resolves the path, following a final symbolic link. -/
def Stat (fs : FS) (p : Path) : Except Errno Node :=
  match resolve fs true maxSymlinks p with
  | .ok r => .ok r.2.2
  | .error e => .error e

/-- The call `os.Lstat`: resolves the path without following a final symbolic link. -/
def Lstat (fs : FS) (p : Path) : Except Errno Node :=
  match resolve fs false maxSymlinks p with
  | .ok r => .ok r.2.2
  | .error e => .error e

/-- The call `os.Readlink`: the stored destination of a symbolic link, `EINVAL`
for any other entry. -/
def Readlink (fs : FS) (p : Path) : Except Errno Path :=
  match resolve fs false maxSymlinks p with
  | .ok (_, _, .symlink d) => .ok d
  | .ok _ => .error .EINVAL
  | .error e => .error e

/-- The call `os.ReadFile`: the bytes of the regular file the path resolves to. -/
def ReadFile (fs : FS) (p : Path) : Except Errno String :=
  match resolve fs true maxSymlinks p with
  | .ok (_, _, .file content) => .ok content
  | .ok _ => .error .EISDIR
  | .error e => .error e

/-- Physical path of the directory a path names (the lookup a creating or
removing call does for the parent of its argument). -/
def dirAt (fs : FS) (p : Path) : Except Errno Path :=
  match resolve fs true maxSymlinks p with
  | .ok (_, q, .dir) => .ok q
  | .ok _ => .error .ENOTDIR
  | .error e => .error e

/-- Create a new entry `node` named by `p`: the parent must resolve to a
directory and the name must be free (`EEXIST` otherwise, also for the root). -/
def createEntry (fs : FS) (p : Path) (node : Node) : Except Errno FS :=
  match p.getLast? with
  | none => .error .EEXIST
  | some c =>
    match dirAt fs p.dropLast with
    | .error e => .error e
    | .ok q =>
      match entryAt fs (q ++ [c]) with
      | some _ => .error .EEXIST
      | none => .ok ((q ++ [c], node) :: fs)

/-- The call `os.Mkdir`. -/
def Mkdir (fs : FS) (p : Path) : Except Errno FS :=
  createEntry fs p .dir

/-- The call `os.Symlink(oldname, newname)`: the new link stores `oldname`. -/
def Symlink (fs : FS) (oldname newname : Path) : Except Errno FS :=
  createEntry fs newname (.symlink oldname)

/-- The call `os.Remove`: unlinks a file or symbolic link, removes an empty
directory. -/
def Remove (fs : FS) (p : Path) : Except Errno FS :=
  match p.getLast? with
  | none => .error .EBUSY
  | some c =>
    match dirAt fs p.dropLast with
    | .error e => .error e
    | .ok q =>
      match entryAt fs (q ++ [c]) with
      | none => .error .ENOENT
      | some .dir =>
        if fs.any (fun e => decide (e.1.dropLast = q ++ [c])) then .error .ENOTEMPTY
        else .ok (unlinkAt fs (q ++ [c]))
      | some _ => .ok (unlinkAt fs (q ++ [c]))

/-- The library function `os.MkdirAll`, on the reversed path.  Fast path: a
path that stats as a directory is left alone, one that stats as anything else
is `ENOTDIR`.  Slow path: make the parent, then `Mkdir`; when `Mkdir` fails the
path is accepted if `Lstat` shows a directory.  The state is returned also on
failure, since parents may have been created by then. -/
def MkdirAllRev (fs : FS) : List String → FS × Option Errno
  | [] => (fs, none)
  | c :: rp =>
    match Stat fs (c :: rp).reverse with
    | .ok .dir => (fs, none)
    | .ok _ => (fs, some .ENOTDIR)
    | .error _ =>
      match MkdirAllRev fs rp with
      | (fs1, some e) => (fs1, some e)
      | (fs1, none) =>
        match Mkdir fs1 (c :: rp).reverse with
        | .ok fs2 => (fs2, none)
        | .error e =>
          match Lstat fs1 (c :: rp).reverse with
          | .ok .dir => (fs1, none)
          | _ => (fs1, some e)

/-- The library function `os.MkdirAll`. -/
def MkdirAll (fs : FS) (p : Path) : FS × Option Errno :=
  MkdirAllRev fs p.reverse

/-- The error half of a call result (`nil` when the call succeeded). -/
def errOf {α : Type} : Except Errno α → Option Errno
  | .ok _ => none
  | .error e => some e

/-- The predicate `os.IsNotExist`: true for `ENOENT` only (false for `nil` and
for every other error number, `ENOTDIR` and `ELOOP` included). -/
def IsNotExist : Option Errno → Bool
  | some .ENOENT => true
  | _ => false

/-- Split a string at every `/`; `cur` holds the current piece, reversed. -/
def splitSlashAux : List Char → List Char → List String
  | [], cur => [String.mk cur.reverse]
  | c :: cs, cur =>
    if c = '/' then String.mk cur.reverse :: splitSlashAux cs [] else splitSlashAux cs (c :: cur)

/-- The pieces of a string between its `/` separators. -/
def splitSlash (s : String) : List String :=
  splitSlashAux s.data []

/-- One step of `filepath.Join` followed by `filepath.Clean` on an absolute
path: append the components of `part`, dropping empty and `.` components and
letting `..` remove the last component. -/
def joinClean (base : Path) (part : String) : Path :=
  (splitSlash part).foldl
    (fun acc c => if c = "" ∨ c = "." then acc else if c = ".." then acc.dropLast else acc ++ [c])
    base

/-- The function `ResolvePath(parts...)` of `link.go`, for a first part that is
an already-resolved absolute path: the remaining parts are joined onto it.
With no further parts the path is returned as it is. -/
def ResolvePath (first : Path) (parts : List String) : Path :=
  parts.foldl joinClean first

/-- The function `filepath.Dir` on a clean absolute path. -/
def Dir (p : Path) : Path :=
  p.dropLast

/-- The errors of `link.go`, one constructor per `fmt.Errorf` format, and
`os` for an error of a filesystem call returned as it is. -/
inductive LinkError where
  | sourceNotFound (source : Path)
  | failedToCreateDirectory (e : Errno)
  | failedToRemoveExistingSymlink (e : Errno)
  | targetIsRealDirectory (target : Path)
  | targetIsRealFile (target : Path)
  | targetIsNotASymlink (target : Path)
  | os (e : Errno)
  deriving DecidableEq, Repr

/-- The test `info.Mode()&os.ModeSymlink != 0`. -/
def Node.isSymlink : Node → Bool
  | .symlink _ => true
  | _ => false

/-- The method `info.IsDir()`. -/
def Node.isDir : Node → Bool
  | .dir => true
  | _ => false

/-- The function `CreateSymlink` of `link.go`: the filesystem after the call
and the error returned. -/
def CreateSymlink (fs : FS) (source target : Path) (_isProject : Bool) : FS × Option LinkError :=
  let source := ResolvePath source []
  let target := ResolvePath target []
  if IsNotExist (errOf (Stat fs source)) then (fs, some (.sourceNotFound source))
  else
    let targetDir := Dir target
    match MkdirAll fs targetDir with
    | (fs1, some e) => (fs1, some (.failedToCreateDirectory e))
    | (fs1, none) =>
      match Lstat fs1 target with
      | .ok info =>
        if info.isSymlink then
          match Remove fs1 target with
          | .error e => (fs1, some (.failedToRemoveExistingSymlink e))
          | .ok fs2 =>
            match Symlink fs2 source target with
            | .ok fs3 => (fs3, none)
            | .error e => (fs2, some (.os e))
        else if info.isDir then (fs1, some (.targetIsRealDirectory target))
        else (fs1, some (.targetIsRealFile target))
      | .error _ =>
        match Symlink fs1 source target with
        | .ok fs3 => (fs3, none)
        | .error e => (fs1, some (.os e))

/-- The function `RemoveSymlink` of `link.go`. -/
def RemoveSymlink (fs : FS) (target : Path) : FS × Option LinkError :=
  let target := ResolvePath target []
  if IsNotExist (errOf (Lstat fs target)) then (fs, none)
  else
    match Lstat fs target with
    | .error e => (fs, some (.os e))
    | .ok info =>
      if info.isSymlink = false then (fs, some (.targetIsNotASymlink target))
      else
        match Remove fs target with
        | .ok fs1 => (fs1, none)
        | .error e => (fs, some (.os e))

/-- The function `IsSymlink` of `link.go`. -/
def IsSymlink (fs : FS) (path : Path) : Bool :=
  match Lstat fs path with
  | .error _ => false
  | .ok info => info.isSymlink

/-- The function `ReadSymlink` of `link.go`. -/
def ReadSymlink (fs : FS) (path : Path) : Except Errno Path :=
  Readlink fs path

/-! ### Path strings as the callers write them -/

/-- One step of `filepath.Clean` on an absolute path: an empty or `.` piece is
dropped and `..` removes the last component. -/
def cleanStep (acc : Path) (c : String) : Path :=
  if c = "" ∨ c = "." then acc else if c = ".." then acc.dropLast else acc ++ [c]

/-- A path string as it is written, before any cleaning.  `tail` holds the
pieces of the string between its slashes and `dir` the directory they are read
from: the root for an absolute string (`/a/b/` is the pieces `a`, `b` and an
empty piece read from `/`), the working directory for a relative string, and,
for the string `targetDir + "/" + name` of a link target, the already resolved
`targetDir` with the pieces of `name`. -/
structure RawPath where
  dir : Path
  tail : List String
  relative : Bool
  deriving DecidableEq, Repr

/-- The string cleaned by `filepath.Clean` and made absolute by `filepath.Abs`:
the pieces are joined onto `dir` one by one. -/
def RawPath.clean (r : RawPath) : Path :=
  r.tail.foldl cleanStep r.dir

/-- The kernel's walk over the pieces of a string from the directory at the
physical path `cur`, with `fuel` link follows left.  An empty piece and `.`
stay in the directory, `..` goes to the physical parent (the root is its own
parent).  Any other piece is looked up: the last piece of the string as
`walkFrom` does; a piece with something after it, a trailing slash included,
must lead to a directory, and a symbolic link there is followed. -/
def walkTail (fs : FS) (followLast : Bool) : Nat → Path → List String → Except Errno Resolved
  | fuel, cur, [] => .ok (fuel, cur, .dir)
  | fuel, cur, c :: rest =>
    if c = "" ∨ c = "." then walkTail fs followLast fuel cur rest
    else if c = ".." then walkTail fs followLast fuel cur.dropLast rest
    else if rest = [] then walkFrom fs followLast fuel (followLink fs followLast fuel) cur [c]
    else
      match walkFrom fs true fuel (followLink fs true fuel) cur [c] with
      | .ok (m, q, .dir) => walkTail fs followLast m q rest
      | .ok _ => .error .ENOTDIR
      | .error e => .error e

/-- Path resolution of a string as written: `dir` is resolved to a directory,
then the pieces are walked.  For a relative string the walk starts in the
working directory with the full budget of link follows; for an absolute string
`dir` is part of the string, so the follows made in it count.  The empty string
names nothing. -/
def lookupRaw (fs : FS) (followLast : Bool) (r : RawPath) : Except Errno Resolved :=
  if r.relative = true ∧ r.tail = [""] then .error .ENOENT
  else
    match resolve fs true maxSymlinks r.dir with
    | .ok (m, q, .dir) =>
      walkTail fs followLast (if r.relative = true then maxSymlinks else m) q r.tail
    | .ok _ => .error .ENOTDIR
    | .error e => .error e

/-- The call `os.Stat` on a string as written. -/
def StatRaw (fs : FS) (r : RawPath) : Except Errno Node :=
  match lookupRaw fs true r with
  | .ok x => .ok x.2.2
  | .error e => .error e

/-- The call `os.Lstat` on a string as written. -/
def LstatRaw (fs : FS) (r : RawPath) : Except Errno Node :=
  match lookupRaw fs false r with
  | .ok x => .ok x.2.2
  | .error e => .error e

/-- The call `os.Readlink` on a string as written. -/
def ReadlinkRaw (fs : FS) (r : RawPath) : Except Errno Path :=
  match lookupRaw fs false r with
  | .ok (_, _, .symlink d) => .ok d
  | .ok _ => .error .EINVAL
  | .error e => .error e

/-- The function `IsSymlink` of `link.go` on the string it is given: the string
goes to `os.Lstat` as it is. -/
def IsSymlinkRaw (fs : FS) (path : RawPath) : Bool :=
  match LstatRaw fs path with
  | .error _ => false
  | .ok info => info.isSymlink

/-- The function `ReadSymlink` of `link.go` on the string it is given. -/
def ReadSymlinkRaw (fs : FS) (path : RawPath) : Except Errno Path :=
  ReadlinkRaw fs path

/-! ### Configuration and modules (`config.go`, `module.go`) -/

/-- The struct `Platform` of `config.go`.  The two roots are held resolved. -/
structure Platform where
  Name : String
  Project : Path
  Global : Path
  SkillDir : String
  AgentDir : String
  deriving DecidableEq, Repr

/-- The method `Platform.GetCategoryDir`. -/
def Platform.GetCategoryDir (p : Platform) (category : String) : String :=
  if category = "agent" then p.AgentDir else p.SkillDir

/-- A Go `map[string]V`: keys are unique by construction.  The order of the
entries stands for the order in which a `range` loop visits the map. -/
abbrev GoMap (V : Type) := AList (fun _ : String => V)

/-- The struct `Config` of `config.go`. -/
structure Config where
  RepoPath : Path
  Platforms : GoMap Platform
  DefaultPlatforms : List String
  PlatformOrder : List String

/-- The struct `Module` of `module.go`. -/
structure Module where
  Name : String
  Category : String
  Aliases : GoMap String
  Description : String
  Path : Path

/-- The method `Module.GetLinkName`. -/
def Module.GetLinkName (m : Module) (platform : String) : String :=
  match m.Aliases.lookup platform with
  | some name => name
  | none => m.Name

/-- The link target of a module on a platform, as every call site computes it:
`targetDir := ResolvePath(p.Global, p.GetCategoryDir(mod.Category))` and then
`targetPath := targetDir + "/" + mod.GetLinkName(key)`.  The link name is one
path component: this is the path the string names when the link name is a
plain file name.  `rawTargetPath` keeps the string for every link name. -/
def targetPath (mod : Module) (key : String) (p : Platform) : Path :=
  let ln := mod.GetLinkName key
  let targetDir := ResolvePath p.Global [p.GetCategoryDir mod.Category]
  targetDir ++ [ln]

/-- The string `targetDir + "/" + mod.GetLinkName(key)` that the call sites
build for a module on a platform, with
`targetDir := ResolvePath(p.Global, p.GetCategoryDir(mod.Category))`: the link
name is not cleaned, so it is kept as its pieces. -/
def rawTargetPath (mod : Module) (key : String) (p : Platform) : RawPath :=
  { dir := ResolvePath p.Global [p.GetCategoryDir mod.Category],
    tail := splitSlash (mod.GetLinkName key), relative := false }

/-- A Go string that holds the result of `realPath, _ := ReadSymlink(...)`:
the destination read, or the empty string (`none`) when the read failed. -/
def realPathOf (r : Except Errno Path) : Option Path :=
  match r with
  | .ok d => some d
  | .error _ => none

/-- One entry of the list `GetLinkStatus` builds: `"<name> ✓"` or
`"<name> ✗ (broken)"`. -/
inductive LinkMark where
  | ok (name : String)
  | broken (name : String)
  deriving DecidableEq, Repr

/-- The body of the loop of `GetLinkStatus` for one platform: the entry it
appends, if any.  The path is built with `filepath.Join(targetDir, ln)`, which
cleans it. -/
def linkMark (fs : FS) (mod : Module) (name : String) (p : Platform) : Option LinkMark :=
  let tp := (rawTargetPath mod name p).clean
  if IsSymlink fs tp then
    let realPath := realPathOf (ReadSymlink fs tp)
    if realPath = some mod.Path then some (.ok name) else some (.broken name)
  else none

/-- The function `GetLinkStatus` of `module.go`. -/
def GetLinkStatus (fs : FS) (cfg : Config) (mod : Module) : List LinkMark :=
  cfg.Platforms.entries.filterMap (fun e => linkMark fs mod e.1 e.2)

/-- The function `GetSyncedPlatformKeys` of `module.go`: the path is the
string `targetDir + "/" + mod.GetLinkName(key)`. -/
def GetSyncedPlatformKeys (fs : FS) (cfg : Config) (mod : Module) : List String :=
  (cfg.Platforms.entries.filter (fun e => IsSymlinkRaw fs (rawTargetPath mod e.1 e.2))).map
    (fun e => e.1)

/-! ### Health check (`handleStatus` of `main.go`) -/

/-- The branch the status loop takes for one (module, platform) pair.
`broken` carries the destination read from the link. -/
inductive LinkHealth where
  | healthy
  | broken (realPath : Option Path)
  | blocked
  | missing
  deriving DecidableEq, Repr

/-- The branch structure of the body of the status loop (lines 660 to 679),
as a function of what is found at the path `targetPath`. -/
def linkHealth (fs : FS) (mod : Module) (name : String) (p : Platform) : LinkHealth :=
  let tp := targetPath mod name p
  if IsSymlink fs tp then
    let realPath := realPathOf (ReadSymlink fs tp)
    if realPath = some mod.Path then .healthy else .broken realPath
  else if errOf (Stat fs tp) = none then .blocked
  else .missing

/-- The body of the status loop (lines 660 to 679) on the string it builds:
`IsSymlink`, `ReadSymlink` and `os.Stat` get the string as it is. -/
def linkHealthRaw (fs : FS) (mod : Module) (name : String) (p : Platform) : LinkHealth :=
  let tp := rawTargetPath mod name p
  if IsSymlinkRaw fs tp then
    let realPath := realPathOf (ReadSymlinkRaw fs tp)
    if realPath = some mod.Path then .healthy else .broken realPath
  else if errOf (StatRaw fs tp) = none then .blocked
  else .missing

/-- A line the status loop prints. -/
inductive StatusLine where
  | brokenPointsTo (modName platform : String) (realPath : Option Path)
  | blockedByRealFileOrDir (modName platform : String)
  deriving DecidableEq, Repr

/-- The counters of `handleStatus` and the lines printed so far. -/
structure StatusReport where
  healthy : Nat
  broken : Nat
  missing : Nat
  lines : List StatusLine
  deriving DecidableEq, Repr

/-- The effect of one iteration of the status loop on counters and output,
for the branch `linkHealth` finds. -/
def statusStep (fs : FS) (mod : Module) (acc : StatusReport) (name : String) (p : Platform) :
    StatusReport :=
  match linkHealth fs mod name p with
  | .healthy => { acc with healthy := acc.healthy + 1 }
  | .broken realPath =>
    { acc with lines := acc.lines ++ [.brokenPointsTo mod.Name name realPath],
               broken := acc.broken + 1 }
  | .blocked =>
    { acc with lines := acc.lines ++ [.blockedByRealFileOrDir mod.Name name],
               broken := acc.broken + 1 }
  | .missing => { acc with missing := acc.missing + 1 }

/-- The nested loop of `handleStatus` over modules and platforms. -/
def handleStatus (fs : FS) (cfg : Config) (modules : List Module) : StatusReport :=
  modules.foldl
    (fun acc mod => cfg.Platforms.entries.foldl (fun acc e => statusStep fs mod acc e.1 e.2) acc)
    { healthy := 0, broken := 0, missing := 0, lines := [] }

/-! ### Detail page (`ModuleDetailMenu` of `ui.go`) -/

/-- The local struct `platformState` of `ModuleDetailMenu`. -/
structure platformState where
  key : String
  name : String
  selected : Bool
  synced : Bool
  deriving DecidableEq, Repr

/-- The struct `ModuleDetailResult`. -/
structure ModuleDetailResult where
  Action : String
  ToSync : List String
  ToRemove : List String
  deriving DecidableEq, Repr

/-- The list built on entry (lines 690 to 701): one state per platform, the
toggle preset to whether a symbolic link occupies the link target, the path
`targetPath`. -/
def detailPlatforms (fs : FS) (cfg : Config) (mod : Module) : List platformState :=
  cfg.Platforms.entries.map (fun e =>
    let synced := IsSymlink fs (targetPath mod e.1 e.2)
    { key := e.1, name := e.2.Name, selected := synced, synced := synced })

/-- The body of the loop run on `LEFT` (lines 765 to 771): where one platform
goes, given the two lists built so far. -/
def diffStep (acc : List String × List String) (p : platformState) : List String × List String :=
  if p.selected && !p.synced then (acc.1 ++ [p.key], acc.2)
  else if !p.selected && p.synced then (acc.1, acc.2 ++ [p.key])
  else acc

/-- The loop run on `LEFT` (lines 764 to 771): the pair `(toSync, toRemove)`. -/
def detailDiff (platforms : List platformState) : List String × List String :=
  platforms.foldl diffStep ([], [])

/-- The assignment `platforms[i].selected = !platforms[i].selected`. -/
def toggleAt : List platformState → Nat → List platformState
  | [], _ => []
  | p :: ps, 0 => { p with selected := !p.selected } :: ps
  | p :: ps, i + 1 => p :: toggleAt ps i

/-- How a run of the detail page on a finite stream of keys ends. -/
inductive DetailRun where
  | returned (r : ModuleDetailResult)
  | indexOutOfRange
  | awaitingKey (platforms : List platformState) (selected : Int)
  deriving DecidableEq, Repr

/-- The key loop of `ModuleDetailMenu` (lines 749 to 775) on the keys that
`ReadKey` delivers. -/
def detailLoop : List platformState → Int → List String → DetailRun
  | platforms, selected, [] => .awaitingKey platforms selected
  | platforms, selected, key :: keys =>
    if key = "UP" then
      detailLoop platforms (if selected > 0 then selected - 1 else selected) keys
    else if key = "DOWN" then
      detailLoop platforms
        (if selected < (platforms.length : Int) - 1 then selected + 1 else selected) keys
    else if key = "SPACE" ∨ key = "ENTER" then
      if 0 ≤ selected ∧ selected < (platforms.length : Int) then
        detailLoop (toggleAt platforms selected.toNat) selected keys
      else .indexOutOfRange
    else if key = "LEFT" then
      let d := detailDiff platforms
      .returned { Action := "apply", ToSync := d.1, ToRemove := d.2 }
    else if key = "QUIT" then
      .returned { Action := "quit", ToSync := [], ToRemove := [] }
    else detailLoop platforms selected keys

/-- The function `ModuleDetailMenu` of `ui.go`. -/
def ModuleDetailMenu (fs : FS) (cfg : Config) (mod : Module) (keys : List String) : DetailRun :=
  detailLoop (detailPlatforms fs cfg mod) 0 keys

/-- The list `ModuleDetailMenu` builds on entry (lines 690 to 701), with
`IsSymlink` on the string the loop builds. -/
def detailPlatformsRaw (fs : FS) (cfg : Config) (mod : Module) : List platformState :=
  cfg.Platforms.entries.map (fun e =>
    let synced := IsSymlinkRaw fs (rawTargetPath mod e.1 e.2)
    { key := e.1, name := e.2.Name, selected := synced, synced := synced })

/-- The function `ModuleDetailMenu` of `ui.go` on the strings it builds. -/
def ModuleDetailMenuRaw (fs : FS) (cfg : Config) (mod : Module) (keys : List String) : DetailRun :=
  detailLoop (detailPlatformsRaw fs cfg mod) 0 keys

/-! ### Platform order and default targets (`config.go`, `main.go`) -/

/-- One iteration of the first loop of `GetOrderedPlatformKeys` (lines 94 to
99): the pair is `(ordered, seen)`, the set `seen` held as the list of its keys. -/
def orderStep (platforms : GoMap Platform) (acc : List String × List String) (key : String) :
    List String × List String :=
  if (platforms.lookup key).isSome ∧ key ∉ acc.2 then (acc.1 ++ [key], key :: acc.2) else acc

/-- The method `Config.GetOrderedPlatformKeys` of `config.go`. -/
def Config.GetOrderedPlatformKeys (cfg : Config) : List String :=
  if cfg.PlatformOrder.length > 0 then
    let acc := cfg.PlatformOrder.foldl (orderStep cfg.Platforms) ([], [])
    cfg.Platforms.keys.foldl
      (fun ordered key => if key ∉ acc.2 then ordered ++ [key] else ordered) acc.1
  else
    cfg.Platforms.keys.foldl (fun keys key => keys ++ [key]) []

/-- The body of the loop of `getTargetPlatforms` (lines 211 to 215): a default
key that is configured is copied into the result, any other is skipped. -/
def targetStep (all : GoMap Platform) (platforms : GoMap Platform) (key : String) :
    GoMap Platform :=
  match all.lookup key with
  | some p => platforms.insert key p
  | none => platforms

/-- The function `getTargetPlatforms` of `main.go`. -/
def getTargetPlatforms (cfg : Config) : GoMap Platform :=
  if cfg.DefaultPlatforms.length > 0 then
    cfg.DefaultPlatforms.foldl (targetStep cfg.Platforms) ∅
  else cfg.Platforms

/-! ### Errors (`errors.go`) -/

/-- The error types of `errors.go`. -/
inductive GoError where
  | ModuleNotFoundError (Name : String)
  | PlatformNotFoundError (Name : String)
  | ConfigNotFoundError (Path : String)
  | SymlinkError (Op Path Reason : String)
  deriving DecidableEq, Repr

/-- The function `IsModuleNotFound`: the type assertion succeeds on a
`ModuleNotFoundError` only. -/
def IsModuleNotFound : Option GoError → Bool
  | some (.ModuleNotFoundError _) => true
  | _ => false

/-- The function `IsPlatformNotFound`. -/
def IsPlatformNotFound : Option GoError → Bool
  | some (.PlatformNotFoundError _) => true
  | _ => false

/-! ### Finding and loading modules (`module.go`) -/

/-- The section `[link]` of the struct `ModuleConfig`. -/
structure LinkSection where
  Default : String
  Overrides : GoMap String

/-- The struct `ModuleConfig` (the file `skillkit.toml`). -/
structure ModuleConfig where
  Link : LinkSection

/-- The function `filepath.Join` on a clean absolute first element. -/
def filepathJoin (first : Path) (parts : List String) : Path :=
  parts.foldl joinClean first

/-- The function `splitLines`, on characters; `cur` holds the current line,
reversed.  A last line without a line feed is kept unless it is empty. -/
def splitLinesAux : List Char → List Char → List String
  | [], cur => if cur = [] then [] else [String.mk cur.reverse]
  | c :: cs, cur =>
    if c = '\n' then String.mk cur.reverse :: splitLinesAux cs [] else splitLinesAux cs (c :: cur)

/-- The function `splitLines` of `module.go`. -/
def splitLines (s : String) : List String :=
  splitLinesAux s.data []

/-- Drop leading blanks and tabs. -/
def dropBlanks : List Char → List Char
  | [] => []
  | c :: cs => if c = ' ' ∨ c = '\t' then dropBlanks cs else c :: cs

/-- The function `trimSpace` of `module.go`, on characters. -/
def trimSpace (s : List Char) : List Char :=
  (dropBlanks (dropBlanks s).reverse).reverse

/-- The function `trimQuotes` of `module.go`, on characters. -/
def trimQuotes (s : List Char) : List Char :=
  let t := trimSpace s
  if t.length ≥ 2 ∧
      ((t.head? = some '"' ∧ t.getLast? = some '"') ∨
        (t.head? = some '\'' ∧ t.getLast? = some '\'')) then
    (t.drop 1).dropLast
  else t

/-- The first loop of `loadModuleDescription` (lines 134 to 149): the value of
the first `description:` line met while `inFrontmatter` is on. -/
def scanFrontmatter : List String → Bool → Option String
  | [], _ => none
  | line :: rest, inFrontmatter =>
    if line = "---" then scanFrontmatter rest (!inFrontmatter)
    else if inFrontmatter ∧ line.data.length > 12 ∧ line.data.take 12 = "description:".data then
      some (String.mk (trimQuotes (line.data.drop 12)))
    else scanFrontmatter rest inFrontmatter

/-- The second loop of `loadModuleDescription` (lines 152 to 157): the first
line that is not empty, not a heading and not a delimiter. -/
def firstPlainLine : List String → String
  | [] => ""
  | line :: rest =>
    if line = "" ∨ line.data.head? = some '#' ∨ line = "---" then firstPlainLine rest else line

/-- The function `loadModuleDescription` of `module.go`. -/
def loadModuleDescription (fs : FS) (path : Path) (category : String) : String :=
  let mdPath :=
    if category = "skill" then filepathJoin path ["SKILL.md"] else filepathJoin path ["AGENT.md"]
  match ReadFile fs mdPath with
  | .error _ => ""
  | .ok content =>
    let lines := splitLines content
    match scanFrontmatter lines false with
    | some desc => desc
    | none => firstPlainLine lines

/-- The function `loadModule` of `module.go`.  The TOML decoder
(`toml.Unmarshal`) is a parameter: `none` stands for a decoding error. -/
def loadModule (unmarshal : String → Option ModuleConfig) (fs : FS)
    (name category : String) (path : Path) : Module :=
  let configPath := filepathJoin path ["skillkit.toml"]
  let modCfg :=
    match ReadFile fs configPath with
    | .ok data => unmarshal data
    | .error _ => none
  { Name :=
      (match modCfg with
        | some c => if c.Link.Default ≠ "" then c.Link.Default else name
        | none => name),
    Category := category,
    Path := path,
    Aliases :=
      (match modCfg with
        | some c => c.Link.Overrides.entries.foldl (fun m e => m.insert e.1 e.2) ∅
        | none => ∅),
    Description := loadModuleDescription fs path category }

/-- The test `err == nil && info.IsDir()` on the result of `os.Stat`. -/
def statIsDir (r : Except Errno Node) : Bool :=
  match r with
  | .ok info => info.isDir
  | .error _ => false

/-- The function `FindModule` of `module.go`: the module, or the error
returned together with a `nil` module. -/
def FindModule (unmarshal : String → Option ModuleConfig) (fs : FS) (cfg : Config)
    (name : String) : Except GoError Module :=
  let skillPath := filepathJoin cfg.RepoPath ["skill", name]
  if statIsDir (Stat fs skillPath) then .ok (loadModule unmarshal fs name "skill" skillPath)
  else
    let agentPath := filepathJoin cfg.RepoPath ["agent", name]
    if statIsDir (Stat fs agentPath) then .ok (loadModule unmarshal fs name "agent" agentPath)
    else .error (.ModuleNotFoundError name)

/-! ### Batch commands (`handleUse`, `handleSync` and the default sync of `main.go`) -/

/-- The local variables `platform`, `scope`, `linkName` and `dryRun` of `handleUse`. -/
structure UseFlags where
  platform : String
  scope : String
  linkName : String
  dryRun : Bool
  deriving DecidableEq, Repr

/-- Whether a list of characters starts with another. -/
def startsWith : List Char → List Char → Bool
  | _, [] => true
  | [], _ :: _ => false
  | a :: s, b :: p => decide (a = b) && startsWith s p

/-- The function `hasPrefix` of `main.go`. -/
def hasPrefix (s pre : String) : Bool :=
  startsWith s.data pre.data

/-- The argument loop of `handleUse` (lines 331 to 349) over `args[1:]`. -/
def parseUseFlags : List String → UseFlags → UseFlags
  | [], f => f
  | arg :: rest, f =>
    if arg = "--global" then parseUseFlags rest { f with scope := "global" }
    else if arg = "--project" then parseUseFlags rest { f with scope := "project" }
    else if arg = "--as" then
      match rest with
      | v :: rest2 => parseUseFlags rest2 { f with linkName := v }
      | [] => f
    else if arg = "--dry-run" then parseUseFlags rest { f with dryRun := true }
    else if f.platform = "" ∧ hasPrefix arg "--" = false then
      parseUseFlags rest { f with platform := arg }
    else parseUseFlags rest f

/-- The link target `handleUse` computes for one platform (lines 399 to 405):
the name given with `--as`, or the link name of the module; the directory is
always taken from `p.Global`.  The name is one path component: this is the path
the string names when the name is a plain file name. -/
def useTargetPath (mod : Module) (linkName : String) (name : String) (p : Platform) : Path :=
  let ln := if linkName = "" then mod.GetLinkName name else linkName
  let targetDir := ResolvePath p.Global [p.GetCategoryDir mod.Category]
  targetDir ++ [ln]

/-- A line printed for one link attempt: the module, the platform key, the
target and the error, if any. -/
structure LinkLine where
  modName : String
  platform : String
  target : Path
  err : Option LinkError
  deriving DecidableEq, Repr

/-- One iteration of the creating loop of `handleUse` (lines 398 to 413). -/
def useStep (mod : Module) (f : UseFlags) (acc : FS × List LinkLine)
    (e : (_ : String) × Platform) : FS × List LinkLine :=
  let tp := useTargetPath mod f.linkName e.1 e.2
  let r := CreateSymlink acc.1 mod.Path tp (decide (f.scope = "project"))
  (r.1, acc.2 ++ [{ modName := mod.Name, platform := e.1, target := tp, err := r.2 }])

/-- How `handleUse` ends: with one of its `os.Exit(1)` paths, with the preview
table of `--dry-run`, or after the creating loop. -/
inductive UseOutcome where
  | usage
  | moduleError (e : GoError)
  | unknownPlatform (name : String)
  | preview (rows : List (String × String × Path × String))
  | linked (fs : FS) (lines : List LinkLine)
  deriving DecidableEq, Repr

/-- The function `handleUse` of `main.go`, on an already-loaded configuration. -/
def handleUse (unmarshal : String → Option ModuleConfig) (fs : FS) (cfg : Config)
    (args : List String) : UseOutcome :=
  match args with
  | [] => .usage
  | module :: rest =>
    let f := parseUseFlags rest { platform := "", scope := "global", linkName := "", dryRun := false }
    match FindModule unmarshal fs cfg module with
    | .error e => .moduleError e
    | .ok mod =>
      let chosen : Option (GoMap Platform) :=
        if f.platform ≠ "" then
          match cfg.Platforms.lookup f.platform with
          | some p => some ((∅ : GoMap Platform).insert f.platform p)
          | none => none
        else some cfg.Platforms
      match chosen with
      | none => .unknownPlatform f.platform
      | some platforms =>
        if f.dryRun then
          .preview (platforms.entries.map (fun e =>
            let tp := useTargetPath mod f.linkName e.1 e.2
            (module, e.1, tp, if IsSymlink fs tp then "UPDATE" else "CREATE")))
        else
          let r := platforms.entries.foldl (useStep mod f) (fs, [])
          .linked r.1 r.2

/-- The counters and the lines of a sync loop. -/
structure SyncTally where
  success : Nat
  failed : Nat
  lines : List LinkLine
  deriving DecidableEq, Repr

/-- One iteration of the inner loop of `handleSync` (lines 613 to 626) and of
`syncAllModulesToDefaultPlatforms` (lines 186 to 199).  `CreateSymlink` resolves
the string it is given, so it works on the cleaned link target. -/
def syncStep (mod : Module) (acc : FS × SyncTally) (e : (_ : String) × Platform) :
    FS × SyncTally :=
  let tp := (rawTargetPath mod e.1 e.2).clean
  let r := CreateSymlink acc.1 mod.Path tp false
  let line : LinkLine := { modName := mod.Name, platform := e.1, target := tp, err := r.2 }
  match r.2 with
  | some _ =>
    (r.1, { acc.2 with failed := acc.2.failed + 1, lines := acc.2.lines ++ [line] })
  | none =>
    (r.1, { acc.2 with success := acc.2.success + 1, lines := acc.2.lines ++ [line] })

/-- The nested loop over modules and platforms shared by the two sync commands. -/
def syncLoop (platforms : GoMap Platform) (fs : FS) (modules : List Module) : FS × SyncTally :=
  modules.foldl (fun acc mod => platforms.entries.foldl (syncStep mod) acc)
    (fs, { success := 0, failed := 0, lines := [] })

/-- How `handleSync` ends. -/
inductive SyncOutcome where
  | noModules
  | preview (rows : List (String × String × RawPath × String))
  | synced (fs : FS) (tally : SyncTally)
  deriving DecidableEq, Repr

/-- The function `handleSync` of `main.go`, on an already-loaded configuration
and module list. -/
def handleSync (fs : FS) (cfg : Config) (modules : List Module) (args : List String) :
    SyncOutcome :=
  if modules.length = 0 then .noModules
  else if args.any (fun arg => decide (arg = "--dry-run")) then
    .preview (modules.flatMap (fun mod => cfg.Platforms.entries.map (fun e =>
      let tp := rawTargetPath mod e.1 e.2
      (mod.Name, e.1, tp, if IsSymlinkRaw fs tp then "UPDATE" else "CREATE"))))
  else
    let r := syncLoop cfg.Platforms fs modules
    .synced r.1 r.2

/-- The function `syncAllModulesToDefaultPlatforms` of `main.go`; `confirm` is
the answer of `ConfirmDialog`.  The result is the returned flag, the filesystem
afterwards and the counters. -/
def syncAllModulesToDefaultPlatforms (fs : FS) (cfg : Config) (modules : List Module)
    (confirm : Bool) : Bool × FS × SyncTally :=
  let targetPlatforms := getTargetPlatforms cfg
  if targetPlatforms.entries.length = 0 then (false, fs, { success := 0, failed := 0, lines := [] })
  else if confirm = false then (false, fs, { success := 0, failed := 0, lines := [] })
  else
    let r := syncLoop targetPlatforms fs modules
    (true, r.1, r.2)

/-! ### Applying the detail-page diff (`handleModuleDetail` of `main.go`) -/

/-- The zero value of `Platform` that a map lookup yields for a missing key:
its empty roots and directory names resolve to the working directory `cwd`. -/
def Platform.zero (cwd : Path) : Platform :=
  { Name := "", Project := cwd, Global := cwd, SkillDir := "", AgentDir := "" }

/-- The map index expression `cfg.Platforms[platKey]`. -/
def platformAt (cfg : Config) (cwd : Path) (platKey : String) : Platform :=
  match cfg.Platforms.lookup platKey with
  | some p => p
  | none => Platform.zero cwd

/-- A line printed by the apply step: a sync or a removal with its error. -/
inductive ApplyLine where
  | synced (platKey : String) (err : Option LinkError)
  | removed (platKey : String) (err : Option LinkError)
  deriving DecidableEq, Repr

/-- The error a line of the apply step reports. -/
def ApplyLine.err : ApplyLine → Option LinkError
  | .synced _ e => e
  | .removed _ e => e

/-- One iteration of the sync loop of the apply step (lines 239 to 251), with
the link target `targetPath`. -/
def applySyncStep (cfg : Config) (mod : Module) (cwd : Path) (acc : FS × List ApplyLine)
    (platKey : String) : FS × List ApplyLine :=
  let p := platformAt cfg cwd platKey
  let r := CreateSymlink acc.1 mod.Path (targetPath mod platKey p) false
  (r.1, acc.2 ++ [.synced platKey r.2])

/-- One iteration of the removal loop of the apply step (lines 254 to 266),
with the link target `targetPath`. -/
def applyRemoveStep (cfg : Config) (mod : Module) (cwd : Path) (acc : FS × List ApplyLine)
    (platKey : String) : FS × List ApplyLine :=
  let p := platformAt cfg cwd platKey
  let r := RemoveSymlink acc.1 (targetPath mod platKey p)
  (r.1, acc.2 ++ [.removed platKey r.2])

/-- The apply step of `handleModuleDetail` (lines 238 to 266): every key of
`toSync` is linked, then every key of `toRemove` is unlinked. -/
def applyDiff (cfg : Config) (mod : Module) (cwd : Path) (fs : FS)
    (toSync toRemove : List String) : FS × List ApplyLine :=
  toRemove.foldl (applyRemoveStep cfg mod cwd) (toSync.foldl (applySyncStep cfg mod cwd) (fs, []))

/-- One iteration of the sync loop of the apply step (lines 239 to 251):
`CreateSymlink` resolves the string it is given, so it works on the cleaned
path. -/
def applySyncStepRaw (cfg : Config) (mod : Module) (cwd : Path) (acc : FS × List ApplyLine)
    (platKey : String) : FS × List ApplyLine :=
  let p := platformAt cfg cwd platKey
  let r := CreateSymlink acc.1 mod.Path (rawTargetPath mod platKey p).clean false
  (r.1, acc.2 ++ [.synced platKey r.2])

/-- One iteration of the removal loop of the apply step (lines 254 to 266):
`RemoveSymlink` resolves the string it is given, so it works on the cleaned
path. -/
def applyRemoveStepRaw (cfg : Config) (mod : Module) (cwd : Path) (acc : FS × List ApplyLine)
    (platKey : String) : FS × List ApplyLine :=
  let p := platformAt cfg cwd platKey
  let r := RemoveSymlink acc.1 (rawTargetPath mod platKey p).clean
  (r.1, acc.2 ++ [.removed platKey r.2])

/-- The apply step of `handleModuleDetail` (lines 238 to 266) on the strings it
builds: every key of `toSync` is linked, then every key of `toRemove` is
unlinked. -/
def applyDiffRaw (cfg : Config) (mod : Module) (cwd : Path) (fs : FS)
    (toSync toRemove : List String) : FS × List ApplyLine :=
  toRemove.foldl (applyRemoveStepRaw cfg mod cwd)
    (toSync.foldl (applySyncStepRaw cfg mod cwd) (fs, []))

/-- The platform list of the detail page with the toggles showing the set
`desired` (the state reached by toggling every platform whose preset differs). -/
def withDesired (desired : String → Bool) (ps : List platformState) : List platformState :=
  ps.map (fun p => { p with selected := desired p.key })

/-- The diff `ModuleDetailMenu` computes on leaving when its toggles show the
set `desired`. -/
def desiredDiffRaw (fs : FS) (cfg : Config) (mod : Module) (desired : String → Bool) :
    List String × List String :=
  detailDiff (withDesired desired (detailPlatformsRaw fs cfg mod))

/-! ### Listing modules (`ListModules` of `module.go`) -/

/-- Byte order of two file names, the order in which `os.ReadDir` sorts its
entries (on UTF-8 the byte order is the order of the code points). -/
def nameLt : List Char → List Char → Bool
  | [], [] => false
  | [], _ :: _ => true
  | _ :: _, [] => false
  | a :: s, b :: t =>
    if a.toNat < b.toNat then true else if a.toNat = b.toNat then nameLt s t else false

/-- Insert a file name into a list sorted by file name. -/
def insertName (c : String) : List String → List String
  | [] => [c]
  | d :: ds => if nameLt d.data c.data then d :: insertName c ds else c :: d :: ds

/-- Sort file names. -/
def sortNames (names : List String) : List String :=
  names.foldr insertName []

/-- The names of the entries of the directory at the physical path `q`. -/
def namesIn (fs : FS) (q : Path) : List String :=
  (fs.filterMap (fun e => if e.1.dropLast = q then e.1.getLast? else none)).dedup

/-- The call `os.ReadDir`: the entries of the directory the path resolves to,
sorted by file name, each with its own node (the type of a `DirEntry` is that of
the entry itself, a symbolic link is not followed). -/
def ReadDir (fs : FS) (p : Path) : Except Errno (List (String × Node)) :=
  match dirAt fs p with
  | .error e => .error e
  | .ok q =>
    .ok ((sortNames (namesIn fs q)).filterMap (fun c =>
      match entryAt fs (q ++ [c]) with
      | some node => some (c, node)
      | none => none))

/-- The body of the two loops of `ListModules` (lines 60 to 67 and 73 to 80):
a directory entry adds the module loaded from it, any other entry is skipped.
`loadModule` never returns an error. -/
def listStep (unmarshal : String → Option ModuleConfig) (fs : FS) (category : String)
    (dir : Path) (modules : List Module) (entry : String × Node) : List Module :=
  if entry.2.isDir then
    modules ++ [loadModule unmarshal fs entry.1 category (filepathJoin dir [entry.1])]
  else modules

/-- The function `ListModules` of `module.go`.  Its error result is always
`nil`, so the model returns the list only. -/
def ListModules (unmarshal : String → Option ModuleConfig) (fs : FS) (cfg : Config) :
    List Module :=
  let skillDir := filepathJoin cfg.RepoPath ["skill"]
  let modules :=
    match ReadDir fs skillDir with
    | .ok entries => entries.foldl (listStep unmarshal fs "skill" skillDir) []
    | .error _ => []
  let agentDir := filepathJoin cfg.RepoPath ["agent"]
  match ReadDir fs agentDir with
  | .ok entries => entries.foldl (listStep unmarshal fs "agent" agentDir) modules
  | .error _ => modules

/-! ### Reading keys (`ui.go`) -/

/-- The messages of `ConfirmDialog`, one constructor per format string:
`Sync '%s' to %d default platform(s)?`,
`Sync ALL %d modules to %d default platform(s)?` and
`Apply changes? (+%d sync, -%d remove)`. -/
inductive Prompt where
  | syncOne (modName : String) (nPlatforms : Nat)
  | syncAll (nModules nPlatforms : Nat)
  | applyChanges (nSync nRemove : Nat)
  deriving DecidableEq, Repr

/-- The local struct `platformState` of `DefaultsPlatformsMenu`. -/
structure DefaultsPlatformsMenu.platformState where
  key : String
  name : String
  selected : Bool
  deriving DecidableEq, Repr

/-- The screen a function shows while it waits in `ReadKey`. -/
inductive Screen where
  | mainMenu (selected : Int)
  | help
  | pressAnyKey
  | confirm (message : Prompt)
  | moduleList (selected : Int) (selectAll : Bool)
  | moduleDetail (platforms : List platformState) (selected : Int)
  | platformList (mode selected : Int) (platformKeys : List String)
  | defaults (platforms : List DefaultsPlatformsMenu.platformState) (selected : Int)
  deriving DecidableEq, Repr

/-- How a function that reads keys ends on a finite list of keys (the keys
`ReadKey` delivers, in order): it returns `a` with the keys `rest` unread; or
the keys run out while it waits on a screen; or it stops with a run-time error
(an index out of range, a nil pointer); or a loop bound of the model is used up. -/
inductive Keyed (α : Type) where
  | done (a : α) (rest : List String)
  | awaitingKey (screen : Screen)
  | crashed
  | outOfFuel
  deriving DecidableEq, Repr

/-- Run `f` on the result of `k` and the keys it left. -/
def Keyed.andThen {α β : Type} (k : Keyed α) (f : α → List String → Keyed β) : Keyed β :=
  match k with
  | .done a rest => f a rest
  | .awaitingKey screen => .awaitingKey screen
  | .crashed => .crashed
  | .outOfFuel => .outOfFuel

/-- The function `WaitForKey`: reads one key. -/
def WaitForKey : List String → Keyed Unit
  | [] => .awaitingKey .pressAnyKey
  | _ :: keys => .done () keys

/-- The function `ConfirmDialog`: `ENTER` or `YES` confirms, `ESC`, `NO`,
`QUIT` or `LEFT` cancels, any other key is ignored. -/
def ConfirmDialog (message : Prompt) : List String → Keyed Bool
  | [] => .awaitingKey (.confirm message)
  | key :: keys =>
    if key = "ENTER" ∨ key = "YES" then .done true keys
    else if key = "ESC" ∨ key = "NO" ∨ key = "QUIT" ∨ key = "LEFT" then .done false keys
    else ConfirmDialog message keys

/-- The element `xs[i]` of a Go slice, `none` when the index is out of range. -/
def indexAt {α : Type} (xs : List α) (i : Int) : Option α :=
  if 0 ≤ i then xs.get? i.toNat else none

/-- The commands of `MainMenuOptions`, in order. -/
def MainMenuCommands : List String :=
  ["use", "list", "platforms", "defaults", "init"]

/-- The key loop of `InteractiveMenu`.  The flag is on while the help page is
shown: the next key is read and dropped. -/
def mainMenuLoop : Bool → Int → List String → Keyed String
  | false, selected, [] => .awaitingKey (.mainMenu selected)
  | true, _, [] => .awaitingKey .help
  | true, selected, _ :: keys => mainMenuLoop false selected keys
  | false, selected, key :: keys =>
    if key = "UP" then mainMenuLoop false (if selected > 1 then selected - 1 else selected) keys
    else if key = "DOWN" then
      mainMenuLoop false
        (if selected < (MainMenuCommands.length : Int) then selected + 1 else selected) keys
    else if key = "RIGHT" ∨ key = "ENTER" then
      match indexAt MainMenuCommands (selected - 1) with
      | some command => .done command keys
      | none => .crashed
    else if key = "NUM:1" then .done "use" keys
    else if key = "NUM:2" then .done "list" keys
    else if key = "NUM:3" then .done "platforms" keys
    else if key = "NUM:4" then .done "defaults" keys
    else if key = "NUM:5" then .done "init" keys
    else if key = "HELP" then mainMenuLoop true selected keys
    else if key = "QUIT" then .done "quit" keys
    else mainMenuLoop false selected keys

/-- The function `InteractiveMenu` of `ui.go`: the command chosen. -/
def InteractiveMenu (keys : List String) : Keyed String :=
  mainMenuLoop false 1 keys

/-! ### The module list (`ModuleListMenu` of `ui.go`) -/

/-- The struct `ModuleListResult`; `Module` is a pointer, `none` is `nil`. -/
structure ModuleListResult where
  Module : Option SkillKit.Module
  Modules : List SkillKit.Module
  Action : String

/-- What one key does in the module list: the loop goes on with a cursor and
a select-all flag, or the function returns, or `modules[selected]` fails. -/
inductive ModuleListKey where
  | next (selected : Int) (selectAll : Bool)
  | ret (result : ModuleListResult)
  | crash

/-- The `switch key` of `ModuleListMenu` (lines 419 to 448). -/
def moduleListKey (modules : List Module) (selected : Int) (selectAll : Bool) (key : String) :
    ModuleListKey :=
  if key = "UP" then .next (if selected > 0 then selected - 1 else selected) false
  else if key = "DOWN" then
    .next (if selected < (modules.length : Int) - 1 then selected + 1 else selected) false
  else if key = "SELECTALL" then .next selected (!selectAll)
  else if key = "ESC" then .next selected false
  else if key = "ENTER" then
    if selectAll then .ret { Module := none, Modules := modules, Action := "sync_all_default" }
    else
      match indexAt modules selected with
      | some m => .ret { Module := some m, Modules := [], Action := "sync_default" }
      | none => .crash
  else if key = "RIGHT" then
    match indexAt modules selected with
    | some m => .ret { Module := some m, Modules := [], Action := "detail" }
    | none => .crash
  else if key = "LEFT" then .ret { Module := none, Modules := [], Action := "back" }
  else if key = "QUIT" then .ret { Module := none, Modules := [], Action := "quit" }
  else .next selected selectAll

/-- The key loop of `ModuleListMenu` (lines 369 to 449).  Every pass shows
`modules[selected]` before it reads a key. -/
def moduleListLoop (modules : List Module) : Int → Bool → List String → Keyed ModuleListResult
  | selected, selectAll, [] =>
    match indexAt modules selected with
    | some _ => .awaitingKey (.moduleList selected selectAll)
    | none => .crashed
  | selected, selectAll, key :: keys =>
    match indexAt modules selected with
    | none => .crashed
    | some _ =>
      match moduleListKey modules selected selectAll key with
      | .next selected2 selectAll2 => moduleListLoop modules selected2 selectAll2 keys
      | .ret result => .done result keys
      | .crash => .crashed

/-- The function `ModuleListMenu` of `ui.go`. -/
def ModuleListMenu (unmarshal : String → Option ModuleConfig) (fs : FS) (cfg : Config)
    (keys : List String) : Keyed ModuleListResult :=
  let modules := ListModules unmarshal fs cfg
  if modules.length = 0 then .done { Module := none, Modules := [], Action := "quit" } keys
  else moduleListLoop modules 0 false keys

/-! ### Quick sync to the default platforms (`main.go`) -/

/-- One iteration of the loop of `syncModuleToDefaultPlatforms` (lines 155 to
165). -/
def syncOneStep (mod : Module) (acc : FS × List LinkLine) (e : (_ : String) × Platform) :
    FS × List LinkLine :=
  let tp := (rawTargetPath mod e.1 e.2).clean
  let r := CreateSymlink acc.1 mod.Path tp false
  (r.1, acc.2 ++ [{ modName := mod.Name, platform := e.1, target := tp, err := r.2 }])

/-- The function `syncModuleToDefaultPlatforms` of `main.go`; `confirm` is the
answer of `ConfirmDialog`.  The result is the returned flag, the filesystem
afterwards and one line per `CreateSymlink` call. -/
def syncModuleToDefaultPlatforms (fs : FS) (cfg : Config) (mod : Module) (confirm : Bool) :
    Bool × FS × List LinkLine :=
  let targetPlatforms := getTargetPlatforms cfg
  if targetPlatforms.entries.length = 0 then (false, fs, [])
  else if confirm = false then (false, fs, [])
  else
    let r := targetPlatforms.entries.foldl (syncOneStep mod) (fs, [])
    (true, r.1, r.2)

/-- The function `syncModuleToDefaultPlatforms` with the answer of
`ConfirmDialog` read from the keys: the dialog is not reached when there is no
target platform. -/
def syncModuleToDefaultPlatformsKeys (fs : FS) (cfg : Config) (mod : Module)
    (keys : List String) : Keyed (Bool × FS × List LinkLine) :=
  let targetPlatforms := getTargetPlatforms cfg
  if targetPlatforms.entries.length = 0 then .done (false, fs, []) keys
  else
    (ConfirmDialog (.syncOne mod.Name targetPlatforms.entries.length) keys).andThen
      (fun confirm rest => .done (syncModuleToDefaultPlatforms fs cfg mod confirm) rest)

/-- The function `syncAllModulesToDefaultPlatforms` with the answer of
`ConfirmDialog` read from the keys; after the loop `WaitForKey` reads one more
key. -/
def syncAllModulesToDefaultPlatformsKeys (fs : FS) (cfg : Config) (modules : List Module)
    (keys : List String) : Keyed (Bool × FS × SyncTally) :=
  let targetPlatforms := getTargetPlatforms cfg
  if targetPlatforms.entries.length = 0 then
    .done (false, fs, { success := 0, failed := 0, lines := [] }) keys
  else
    (ConfirmDialog (.syncAll modules.length targetPlatforms.entries.length) keys).andThen
      (fun confirm rest =>
        if confirm = false then .done (syncAllModulesToDefaultPlatforms fs cfg modules false) rest
        else
          (WaitForKey rest).andThen
            (fun _ rest2 => .done (syncAllModulesToDefaultPlatforms fs cfg modules true) rest2))

/-! ### The detail page and its commit (`ModuleDetailMenu`, `handleModuleDetail`) -/

/-- The key loop of `ModuleDetailMenu` (lines 749 to 775), with the unread
keys. -/
def detailLoopKeys : List platformState → Int → List String → Keyed ModuleDetailResult
  | platforms, selected, [] => .awaitingKey (.moduleDetail platforms selected)
  | platforms, selected, key :: keys =>
    if key = "UP" then
      detailLoopKeys platforms (if selected > 0 then selected - 1 else selected) keys
    else if key = "DOWN" then
      detailLoopKeys platforms
        (if selected < (platforms.length : Int) - 1 then selected + 1 else selected) keys
    else if key = "SPACE" ∨ key = "ENTER" then
      if 0 ≤ selected ∧ selected < (platforms.length : Int) then
        detailLoopKeys (toggleAt platforms selected.toNat) selected keys
      else .crashed
    else if key = "LEFT" then
      let d := detailDiff platforms
      .done { Action := "apply", ToSync := d.1, ToRemove := d.2 } keys
    else if key = "QUIT" then
      .done { Action := "quit", ToSync := [], ToRemove := [] } keys
    else detailLoopKeys platforms selected keys

/-- The function `ModuleDetailMenu` of `ui.go`, with the unread keys. -/
def ModuleDetailMenuKeys (fs : FS) (cfg : Config) (mod : Module) (keys : List String) :
    Keyed ModuleDetailResult :=
  detailLoopKeys (detailPlatformsRaw fs cfg mod) 0 keys

/-- The function `handleModuleDetail` of `main.go`; `n` bounds the passes of
its `for` loop.  The result is the returned flag, the filesystem afterwards and
the lines of the apply step. -/
def handleModuleDetail (cfg : Config) (mod : Module) (cwd : Path) :
    Nat → FS → List String → Keyed (Bool × FS × List ApplyLine)
  | 0, _, _ => .outOfFuel
  | n + 1, fs, keys =>
    (ModuleDetailMenuKeys fs cfg mod keys).andThen (fun detailResult rest =>
      if detailResult.Action = "quit" then .done (false, fs, []) rest
      else if detailResult.Action = "apply" then
        if detailResult.ToSync.length > 0 ∨ detailResult.ToRemove.length > 0 then
          (ConfirmDialog
            (.applyChanges detailResult.ToSync.length detailResult.ToRemove.length) rest).andThen
            (fun confirm rest2 =>
              if confirm then
                let r := applyDiffRaw cfg mod cwd fs detailResult.ToSync detailResult.ToRemove
                .done (true, r.1, r.2) rest2
              else .done (true, fs, []) rest2)
        else .done (true, fs, []) rest
      else handleModuleDetail cfg mod cwd n fs rest)

/-! ### The use flow and the session (`handleInteractiveUse`, `main`) -/

/-- The function `handleInteractiveUse` of `main.go`; `n` bounds the passes of
its `for` loop.  The result is the returned flag and the filesystem afterwards. -/
def handleInteractiveUse (unmarshal : String → Option ModuleConfig) (cwd : Path) :
    Nat → FS → Config → List String → Keyed (Bool × FS)
  | 0, _, _, _ => .outOfFuel
  | n + 1, fs, cfg, keys =>
    (ModuleListMenu unmarshal fs cfg keys).andThen (fun result rest =>
      if result.Action = "back" then .done (true, fs) rest
      else if result.Action = "quit" then .done (false, fs) rest
      else if result.Action = "sync_default" then
        match result.Module with
        | none => .crashed
        | some mod =>
          (syncModuleToDefaultPlatformsKeys fs cfg mod rest).andThen
            (fun r rest2 => handleInteractiveUse unmarshal cwd n r.2.1 cfg rest2)
      else if result.Action = "sync_all_default" then
        (syncAllModulesToDefaultPlatformsKeys fs cfg result.Modules rest).andThen
          (fun r rest2 => handleInteractiveUse unmarshal cwd n r.2.1 cfg rest2)
      else if result.Action = "detail" then
        match result.Module with
        | none => .crashed
        | some mod =>
          (handleModuleDetail cfg mod cwd (n + 1) fs rest).andThen
            (fun r rest2 =>
              if r.1 = false then .done (false, r.2.1) rest2
              else handleInteractiveUse unmarshal cwd n r.2.1 cfg rest2)
      else handleInteractiveUse unmarshal cwd n fs cfg rest)

/-! ### The platform view (`ListMenu` of `ui.go`) -/

/-- The assignment `xs[i], xs[j] = xs[j], xs[i]`. -/
def swapKeys (xs : List String) (i j : Nat) : List String :=
  (xs.set i (xs.getD j "")).set j (xs.getD i "")

/-- The variables of `ListMenu`: the configuration (of which `PlatformOrder`
is assigned), `mode`, `selected` and `platformKeys`. -/
structure ListMenuState where
  cfg : Config
  mode : Int
  selected : Int
  platformKeys : List String

/-- The `switch key` of `ListMenu` (lines 600 to 631): the variables after
the key, or `none` when the function returns.  `SaveConfig` writes the
configuration held in the state. -/
def listMenuKey (s : ListMenuState) (key : String) : Option ListMenuState :=
  if key = "TAB" then some { s with mode := 1 - s.mode, selected := 0 }
  else if key = "UP" then
    if s.mode = 1 ∧ s.selected > 0 then some { s with selected := s.selected - 1 } else some s
  else if key = "DOWN" then
    if s.mode = 1 ∧ s.selected < (s.platformKeys.length : Int) - 1 then
      some { s with selected := s.selected + 1 }
    else some s
  else if key = "MOVEUP" then
    if s.mode = 1 ∧ s.selected > 0 then
      let platformKeys := swapKeys s.platformKeys s.selected.toNat (s.selected - 1).toNat
      some { cfg := { s.cfg with PlatformOrder := platformKeys }, mode := s.mode,
             selected := s.selected - 1, platformKeys := platformKeys }
    else some s
  else if key = "MOVEDOWN" then
    if s.mode = 1 ∧ s.selected < (s.platformKeys.length : Int) - 1 then
      let platformKeys := swapKeys s.platformKeys s.selected.toNat (s.selected + 1).toNat
      some { cfg := { s.cfg with PlatformOrder := platformKeys }, mode := s.mode,
             selected := s.selected + 1, platformKeys := platformKeys }
    else some s
  else if key = "LEFT" ∨ key = "QUIT" ∨ key = "ESC" then none
  else some s

/-- The key loop of `ListMenu`: the configuration it leaves. -/
def listMenuLoop : ListMenuState → List String → Keyed Config
  | s, [] => .awaitingKey (.platformList s.mode s.selected s.platformKeys)
  | s, key :: keys =>
    match listMenuKey s key with
    | some s2 => listMenuLoop s2 keys
    | none => .done s.cfg keys

/-- The function `ListMenu` of `ui.go` (the module list it loads is only shown). -/
def ListMenu (cfg : Config) (keys : List String) : Keyed Config :=
  listMenuLoop
    { cfg := cfg, mode := 0, selected := 0, platformKeys := cfg.GetOrderedPlatformKeys } keys

/-! ### The defaults page (`DefaultsPlatformsMenu` of `ui.go`) -/

/-- The list built on entry (lines 923 to 937): one state per platform, the
toggle preset to whether the key is a default platform. -/
def defaultsPlatforms (cfg : Config) : List DefaultsPlatformsMenu.platformState :=
  cfg.Platforms.entries.map (fun e =>
    { key := e.1, name := e.2.Name, selected := decide (e.1 ∈ cfg.DefaultPlatforms) })

/-- The assignment `platforms[i].selected = !platforms[i].selected` of the
defaults page. -/
def defaultsToggleAt :
    List DefaultsPlatformsMenu.platformState → Nat → List DefaultsPlatformsMenu.platformState
  | [], _ => []
  | p :: ps, 0 => { p with selected := !p.selected } :: ps
  | p :: ps, i + 1 => p :: defaultsToggleAt ps i

/-- The key loop of `DefaultsPlatformsMenu` (lines 941 to 966): the
configuration it leaves. -/
def defaultsLoop (cfg : Config) :
    List DefaultsPlatformsMenu.platformState → Int → List String → Keyed Config
  | platforms, selected, [] => .awaitingKey (.defaults platforms selected)
  | platforms, selected, key :: keys =>
    if key = "UP" then
      defaultsLoop cfg platforms (if selected > 0 then selected - 1 else selected) keys
    else if key = "DOWN" then
      defaultsLoop cfg platforms
        (if selected < (platforms.length : Int) - 1 then selected + 1 else selected) keys
    else if key = "SPACE" ∨ key = "ENTER" then
      if 0 ≤ selected ∧ selected < (platforms.length : Int) then
        defaultsLoop cfg (defaultsToggleAt platforms selected.toNat) selected keys
      else .crashed
    else if key = "LEFT" then
      let defaults := (platforms.filter (fun p => p.selected)).map (fun p => p.key)
      .done { cfg with DefaultPlatforms := defaults } keys
    else if key = "QUIT" then .done cfg keys
    else defaultsLoop cfg platforms selected keys

/-- The function `DefaultsPlatformsMenu` of `ui.go`. -/
def DefaultsPlatformsMenu (cfg : Config) (keys : List String) : Keyed Config :=
  defaultsLoop cfg (defaultsPlatforms cfg) 0 keys

/-! ### The interactive session (`handleInteractiveCommand`, `main`) -/

/-- The function `handleInteractiveCommand` of `main.go`, on a configuration
that loaded.  The commands `use`, `list` and `defaults` are modelled; `other`
stands for the handlers of the remaining commands.  The result is the returned
flag, the filesystem and the configuration on disk afterwards. -/
def handleInteractiveCommand (unmarshal : String → Option ModuleConfig) (cwd : Path)
    (other : String → FS → Config → List String → Keyed (Bool × FS × Config))
    (n : Nat) (fs : FS) (cfg : Config) (cmd : String) (keys : List String) :
    Keyed (Bool × FS × Config) :=
  if cmd = "use" then
    (handleInteractiveUse unmarshal cwd n fs cfg keys).andThen
      (fun r rest => .done (r.1, r.2, cfg) rest)
  else if cmd = "list" then
    (ListMenu cfg keys).andThen (fun cfg2 rest => .done (true, fs, cfg2) rest)
  else if cmd = "defaults" then
    (DefaultsPlatformsMenu cfg keys).andThen (fun cfg2 rest => .done (true, fs, cfg2) rest)
  else other cmd fs cfg keys

/-- The loop of `main` without arguments (lines 13 to 21); `n` bounds its
passes.  The result of `handleInteractiveCommand` is not used.  `done` is
`os.Exit(0)`, with the filesystem then. -/
def mainLoop (unmarshal : String → Option ModuleConfig) (cwd : Path)
    (other : String → FS → Config → List String → Keyed (Bool × FS × Config)) :
    Nat → FS → Config → List String → Keyed FS
  | 0, _, _, _ => .outOfFuel
  | n + 1, fs, cfg, keys =>
    (InteractiveMenu keys).andThen (fun cmd rest =>
      if cmd = "quit" then .done fs rest
      else
        (handleInteractiveCommand unmarshal cwd other (rest.length + 1) fs cfg cmd rest).andThen
          (fun r rest2 => mainLoop unmarshal cwd other n r.2.1 r.2.2 rest2))

/-- The interactive session on the keys given: every pass of a loop reads a
key, so one pass per key and one more are enough. -/
def interactiveSession (unmarshal : String → Option ModuleConfig) (cwd : Path)
    (other : String → FS → Config → List String → Keyed (Bool × FS × Config))
    (fs : FS) (cfg : Config) (keys : List String) : Keyed FS :=
  mainLoop unmarshal cwd other (keys.length + 1) fs cfg keys

/-! ### Example data for the concrete checks -/

/-- The layout the tests of `link_test.go` build in their temporary directory:
a source directory and a real file. -/
def demoFS : FS :=
  [(["tmp"], .dir), (["tmp", "source"], .dir), (["tmp", "realfile"], .file "test")]

/-- The state of `demoFS` after linking `/tmp/target/link` to `/tmp/source`. -/
def demoLinkedFS : FS :=
  [(["tmp", "target", "link"], .symlink ["tmp", "source"]), (["tmp", "target"], .dir),
    (["tmp"], .dir), (["tmp", "source"], .dir), (["tmp", "realfile"], .file "test")]

/-- A table in which `/f` is a regular file. -/
def fileFS : FS :=
  [(["f"], .file "x")]

/-- Platform `p1` of scenario A: global root `/r`, skills under `skills`. -/
def demoPlatform : Platform :=
  { Name := "P1", Project := ["proj"], Global := ["r"], SkillDir := "skills", AgentDir := "agents" }

/-- A second platform, with global root `/r2`. -/
def demoPlatform2 : Platform :=
  { Name := "P2", Project := ["proj2"], Global := ["r2"], SkillDir := "skills",
    AgentDir := "agents" }

/-- Module `foo` of scenario A, a skill at `/repo/skill/foo`. -/
def demoModule : Module :=
  { Name := "foo", Category := "skill", Aliases := ∅, Description := "",
    Path := ["repo", "skill", "foo"] }

/-- A configuration with the two example platforms. -/
def demoConfig : Config :=
  { RepoPath := ["repo"],
    Platforms := ((∅ : GoMap Platform).insert "p1" demoPlatform).insert "p2" demoPlatform2,
    DefaultPlatforms := [], PlatformOrder := [] }

/-- The repository of scenario A with the empty global root `/r`. -/
def demoRepoFS : FS :=
  [(["repo"], .dir), (["repo", "skill"], .dir), (["repo", "skill", "foo"], .dir), (["r"], .dir)]

/-- The state of `demoRepoFS` after `foo` was linked on `p1`. -/
def demoRepoLinkedFS : FS :=
  [(["r", "skills", "foo"], .symlink ["repo", "skill", "foo"]), (["r", "skills"], .dir),
    (["repo"], .dir), (["repo", "skill"], .dir), (["repo", "skill", "foo"], .dir), (["r"], .dir)]

/-- The example configuration with a default list: `p1` and a key that no
longer names a platform. -/
def demoDefaultsConfig : Config :=
  { demoConfig with DefaultPlatforms := ["p1", "gone"] }

/-- The example module with the link name `bar` on platform `p1`. -/
def demoAliasModule : Module :=
  { demoModule with Aliases := (∅ : GoMap String).insert "p1" "bar" }

/-- The example module with the link name `foo/`, a trailing slash, on
platform `p1`. -/
def slashAliasModule : Module :=
  { demoModule with Aliases := (∅ : GoMap String).insert "p1" "foo/" }

/-- The example repository with the link target of `foo` on `p1` occupied by a
regular file. -/
def blockedRepoFS : FS :=
  [(["r", "skills", "foo"], .file "notes"), (["r", "skills"], .dir),
    (["repo"], .dir), (["repo", "skill"], .dir), (["repo", "skill", "foo"], .dir), (["r"], .dir)]

/-- A repository with the skills `foo` and `bar`, the agent `rev`, a regular
file and a symbolic link in `skill/`, and the empty global roots `/r`, `/r2`. -/
def catalogFS : FS :=
  [(["repo"], .dir), (["repo", "skill"], .dir), (["repo", "skill", "foo"], .dir),
    (["repo", "skill", "bar"], .dir), (["repo", "skill", "README.md"], .file "notes"),
    (["repo", "skill", "link"], .symlink ["repo", "skill", "foo"]),
    (["repo", "agent"], .dir), (["repo", "agent", "rev"], .dir), (["r"], .dir), (["r2"], .dir)]

/-- A repository without modules. -/
def emptyCatalogFS : FS :=
  [(["repo"], .dir), (["repo", "skill"], .dir), (["r"], .dir)]

/-- A configuration without platforms. -/
def noPlatformsConfig : Config :=
  { RepoPath := ["repo"], Platforms := ∅, DefaultPlatforms := [], PlatformOrder := [] }

/-- A decoder for `skillkit.toml` that fails on every input. -/
def noToml : String → Option ModuleConfig :=
  fun _ => none

/-- Handlers of the commands that are not modelled which read no key and
change nothing. -/
def idleHandlers : String → FS → Config → List String → Keyed (Bool × FS × Config) :=
  fun _ fs cfg keys => .done (true, fs, cfg) keys

/-- The skill `foo` with a descriptor whose second delimited block, not the
leading one, holds a `description:` line. -/
def lateDescriptionFS : FS :=
  [(["repo"], .dir), (["repo", "skill"], .dir), (["repo", "skill", "foo"], .dir),
    (["repo", "skill", "foo", "SKILL.md"],
      .file "---\nname: foo\n---\nA tool.\n---\ndescription: later\n---\n")]

/-- The skill `foo` with a descriptor whose leading block holds a quoted
`description:` line. -/
def describedFS : FS :=
  [(["repo"], .dir), (["repo", "skill"], .dir), (["repo", "skill", "foo"], .dir),
    (["repo", "skill", "foo", "SKILL.md"],
      .file "---\nname: foo\ndescription:  \"Formats code\" \n---\n# Foo\ndescription: body\n")]

/-! ### Auxiliary notions used in the proofs -/

/-- Continue a resolution that ended in a directory with further components. -/
def contWalk (fs : FS) (fl : Bool) (zs : List String) :
    Except Errno Resolved → Except Errno Resolved
  | .error e => .error e
  | .ok (m, q, .dir) => walkFrom fs fl m (followLink fs fl m) q zs
  | .ok _ => .error .ENOTDIR

/-- Every entry of `fs` is an entry of `fs2`. -/
def subTable (fs fs2 : FS) : Prop :=
  ∀ p v, entryAt fs p = some v → entryAt fs2 p = some v

/-- Whether anything exists at a path: `lstat` finds an entry. -/
def existsAt (fs : FS) (p : Path) : Bool :=
  match Lstat fs p with
  | .ok _ => true
  | .error _ => false

/-- Walking `x` from `cur` in `fs2` reaches, after `k` followed links, a link
that sends the walk back to the path `s`. -/
def loopsBack (fs2 : FS) (s : Path) (cur : Path) (x : List String) : Prop :=
  ∃ (k : Nat) (r : List String), ∀ (n : Nat) (y : List String),
    walkFrom fs2 true n (followLink fs2 true n) cur (x ++ y) =
      if n ≤ k then .error .ELOOP else resolve fs2 true (n - k - 1) (s ++ r ++ y)

/-- The first occurrences of the elements of a list, in order. -/
def firstOccurrences : List String → List String
  | [] => []
  | x :: xs => x :: (firstOccurrences xs).filter (fun y => decide (y ≠ x))

/-- The counters of a tally agree with its lines. -/
def tallyOK (t : SyncTally) : Prop :=
  t.success = (t.lines.filter (fun l => l.err.isNone)).length ∧
    t.failed = (t.lines.filter (fun l => l.err.isSome)).length

/-- What a toggle leaves alone: key, name and the synced flag. -/
def fixedPart (p : platformState) : String × String × Bool := (p.key, p.name, p.synced)

/-- The toggles of a platform list, read as a set of keys. -/
def shownSet (ps : List platformState) (k : String) : Bool :=
  ps.any (fun p => decide (p.key = k) && p.selected)

/-- Keys that set the toggles of the platforms from the cursor on to the set
`desired`, one platform after the other, and then leave the page. -/
def keysTo (desired : String → Bool) : List platformState → List String
  | [] => ["LEFT"]
  | p :: ps =>
    (if desired p.key = p.selected then [] else ["SPACE"]) ++ "DOWN" :: keysTo desired ps

/-- The names of the real subdirectories of the directory a path names, in the
order `os.ReadDir` lists them; empty when the directory cannot be read. -/
def subdirs (fs : FS) (d : Path) : List String :=
  match ReadDir fs d with
  | .ok entries => (entries.filter (fun e => e.2.isDir)).map (fun e => e.1)
  | .error _ => []

/-- The descriptor document of a module directory (lines 118 to 123 of
`loadModuleDescription`). -/
def descriptorPath (path : Path) (category : String) : Path :=
  if category = "skill" then filepathJoin path ["SKILL.md"] else filepathJoin path ["AGENT.md"]

/-- The test of the first loop of `loadModuleDescription` for a field line:
longer than the 12 characters of `description:` and starting with them. -/
def isDescriptionLine (line : String) : Bool :=
  decide (line.data.length > 12 ∧ line.data.take 12 = "description:".data)

/-- The value of a field line: what follows `description:`, trimmed. -/
def descriptionValue (line : String) : String :=
  String.mk (trimQuotes (line.data.drop 12))

/-- Whether the line that follows the lines `pre` lies inside a delimited
block, when the lines start in state `start`: every `---` line flips the state. -/
def insideBlock : Bool → List String → Bool
  | b, [] => b
  | b, line :: pre => insideBlock (if line = "---" then !b else b) pre

/-- The call a line of the apply step stands for: `true` for `CreateSymlink`,
`false` for `RemoveSymlink`, with the platform key. -/
def ApplyLine.call : ApplyLine → Bool × String
  | .synced platKey _ => (true, platKey)
  | .removed platKey _ => (false, platKey)

/-- The run of the detail page without the unread keys. -/
def detailRunOf : Keyed ModuleDetailResult → DetailRun
  | .done r _ => .returned r
  | .awaitingKey (.moduleDetail platforms selected) => .awaitingKey platforms selected
  | _ => .indexOutOfRange

/-- The variables of `ListMenu` on entry. -/
def listMenuStart (cfg : Config) : ListMenuState :=
  { cfg := cfg, mode := 0, selected := 0, platformKeys := cfg.GetOrderedPlatformKeys }

/-- The variables of `ListMenu` after the keys, `none` once it has returned. -/
def listMenuAfter : ListMenuState → List String → Option ListMenuState
  | s, [] => some s
  | s, key :: keys =>
    match listMenuKey s key with
    | some s2 => listMenuAfter s2 keys
    | none => none

/-- What the key loop of `ListMenu` keeps true: the working list is a
rearrangement of the initial one, the cursor is in range (0 on an empty list),
and `PlatformOrder` is the working list once a move was made. -/
def listMenuOK (cfg : Config) (s : ListMenuState) : Prop :=
  s.platformKeys.Perm cfg.GetOrderedPlatformKeys ∧ 0 ≤ s.selected ∧
    (s.platformKeys ≠ [] → s.selected < (s.platformKeys.length : Int)) ∧
    (s.platformKeys = [] → s.selected = 0) ∧
    (s.cfg.PlatformOrder = s.platformKeys ∨
      (s.platformKeys = cfg.GetOrderedPlatformKeys ∧ s.cfg.PlatformOrder = cfg.PlatformOrder))

/-- The variables of `ListMenu` after the highlighted key changed places with
the key at index `j` and the cursor followed it. -/
def movedState (s : ListMenuState) (j : Int) : ListMenuState :=
  let platformKeys := swapKeys s.platformKeys s.selected.toNat j.toNat
  { cfg := { s.cfg with PlatformOrder := platformKeys }, mode := s.mode, selected := j,
    platformKeys := platformKeys }

/-- A plain piece of a path: neither empty nor `.` nor `..`. -/
def plainPiece (c : String) : Prop :=
  c ≠ "" ∧ c ≠ "." ∧ c ≠ ".."

instance (c : String) : Decidable (plainPiece c) := by
  unfold plainPiece
  infer_instance

/-- A plain file name: a plain piece without a slash. -/
def plainName (s : String) : Prop :=
  '/' ∉ s.data ∧ plainPiece s

instance (s : String) : Decidable (plainName s) := by
  unfold plainName
  infer_instance

/-- A call of `CreateSymlink` or `RemoveSymlink`, with the paths the function
resolves its arguments to. -/
inductive LinkCall where
  | create (source target : Path)
  | remove (target : Path)
  deriving DecidableEq, Repr

/-- The calls made one after the other, each on the filesystem the call before
it left and whatever the earlier calls returned: the filesystem after the last
call and the error of every call. -/
def runCalls : FS → List LinkCall → FS × List (Option LinkError)
  | fs, [] => (fs, [])
  | fs, .create source target :: rest =>
    ((runCalls (CreateSymlink fs source target false).1 rest).1,
      (CreateSymlink fs source target false).2 ::
        (runCalls (CreateSymlink fs source target false).1 rest).2)
  | fs, .remove target :: rest =>
    ((runCalls (RemoveSymlink fs target).1 rest).1,
      (RemoveSymlink fs target).2 :: (runCalls (RemoveSymlink fs target).1 rest).2)

/-- A run that did not use up a loop bound of the model and, when it returned,
left at most `bound` keys unread. -/
def Keyed.within {α : Type} (bound : Nat) : Keyed α → Prop
  | .done _ rest => rest.length ≤ bound
  | .outOfFuel => False
  | _ => True

/-! ## Lemmas -/


theorem entryAt_cons_self (fs : FS) (q : Path) (v : Node) :
    entryAt ((q, v) :: fs) q = some v := by
  simp [entryAt]

theorem entryAt_cons_ne (fs : FS) (p q : Path) (v : Node) (h : q ≠ p) :
    entryAt ((q, v) :: fs) p = entryAt fs p := by
  simp [entryAt, h]

theorem entryAt_unlinkAt_self (fs : FS) (q : Path) : entryAt (unlinkAt fs q) q = none := by
  induction fs with
  | nil => rfl
  | cons e fs ih =>
    obtain ⟨k, v⟩ := e
    by_cases h : k = q <;> simp [unlinkAt, entryAt, h, ih]

theorem entryAt_unlinkAt_ne (fs : FS) (p q : Path) (h : q ≠ p) :
    entryAt (unlinkAt fs q) p = entryAt fs p := by
  induction fs with
  | nil => rfl
  | cons e fs ih =>
    obtain ⟨k, v⟩ := e
    by_cases h1 : k = q
    · have h2 : k ≠ p := by rw [h1]; exact h
      simp [unlinkAt, entryAt, h1, h2, ih, h]
    · by_cases h2 : k = p
      · subst h2
        simp [unlinkAt, entryAt, h1]
      · simp [unlinkAt, entryAt, h1, h2, ih]

theorem unlinkAt_of_entryAt_none (fs : FS) (q : Path) (h : entryAt fs q = none) :
    unlinkAt fs q = fs := by
  induction fs with
  | nil => rfl
  | cons e fs ih =>
    obtain ⟨k, v⟩ := e
    by_cases h1 : k = q
    · simp [entryAt, h1] at h
    · simp [entryAt, h1] at h
      simp [unlinkAt, h1, ih h]

theorem unlinkAt_cons_self (fs : FS) (q : Path) (v : Node) :
    unlinkAt ((q, v) :: fs) q = unlinkAt fs q := by
  simp [unlinkAt]

/-! ### Walks -/

theorem resolve_eq (fs : FS) (fl : Bool) (n : Nat) (p : Path) :
    resolve fs fl n p = walkFrom fs fl n (followLink fs fl n) [] p := rfl

theorem followLink_succ (fs : FS) (fl : Bool) (n : Nat) (p : Path) :
    followLink fs fl (n + 1) p = resolve fs fl n p := rfl

/-- Walking `xs ++ zs` is walking `xs` with links followed and then `zs` from
the directory reached. -/
theorem walkFrom_append_aux (fs : FS) (fl : Bool) (n : Nat) (zs : List String) (hz : zs ≠ [])
    (hon : ∀ p, followLink fs fl n (p ++ zs) = contWalk fs fl zs (followLink fs true n p)) :
    ∀ (xs : List String) (cur : Path),
      walkFrom fs fl n (followLink fs fl n) cur (xs ++ zs)
        = contWalk fs fl zs (walkFrom fs true n (followLink fs true n) cur xs) := by
  intro xs
  induction xs with
  | nil => intro cur; rfl
  | cons c rest ih =>
    intro cur
    have hne : rest ++ zs ≠ [] := by simp [hz]
    rw [List.cons_append]
    unfold walkFrom
    cases hl : entryAt fs (cur ++ [c]) with
    | none => rfl
    | some v =>
      cases v with
      | dir => simpa using ih (cur ++ [c])
      | file s =>
        by_cases hr : rest = []
        · simp [hr, hz, contWalk]
        · simp [hr, contWalk]
      | symlink d =>
        simp only [hne, false_and, if_false, Bool.true_eq_false, and_false]
        rw [← List.append_assoc]
        exact hon _

theorem followLink_append (fs : FS) (fl : Bool) (zs : List String) (hz : zs ≠ []) :
    ∀ (n : Nat) (p : Path),
      followLink fs fl n (p ++ zs) = contWalk fs fl zs (followLink fs true n p) := by
  intro n
  induction n with
  | zero => intro p; rfl
  | succ n ih =>
    intro p
    exact walkFrom_append_aux fs fl n zs hz ih p []

theorem walkFrom_append (fs : FS) (fl : Bool) (n : Nat) (zs : List String) (hz : zs ≠ [])
    (xs : List String) (cur : Path) :
    walkFrom fs fl n (followLink fs fl n) cur (xs ++ zs)
      = contWalk fs fl zs (walkFrom fs true n (followLink fs true n) cur xs) :=
  walkFrom_append_aux fs fl n zs hz (followLink_append fs fl zs hz n) xs cur

theorem resolve_append (fs : FS) (fl : Bool) (n : Nat) (xs zs : List String) (hz : zs ≠ []) :
    resolve fs fl n (xs ++ zs) = contWalk fs fl zs (resolve fs true n xs) :=
  walkFrom_append fs fl n zs hz xs []

/-- The last step of a resolution, in a directory at `q`. -/
theorem walkFrom_single (fs : FS) (fl : Bool) (m : Nat) (onL : Path → Except Errno Resolved)
    (q : Path) (c : String) :
    walkFrom fs fl m onL q [c] =
      match entryAt fs (q ++ [c]) with
      | none => .error .ENOENT
      | some .dir => .ok (m, q ++ [c], .dir)
      | some (.file s) => .ok (m, q ++ [c], .file s)
      | some (.symlink d) => if fl = false then .ok (m, q ++ [c], .symlink d) else onL d := by
  unfold walkFrom
  cases entryAt fs (q ++ [c]) with
  | none => rfl
  | some v =>
    cases v with
    | dir => simp [walkFrom]
    | file s => simp
    | symlink d => simp

/-! ### Frame: entries that are present decide a successful walk -/

/-- A walk that does not report a missing entry only reads entries that are
present, so it gives the same result in any larger table. -/
theorem walkFrom_frame (fs fs2 : FS) (fl : Bool) (n : Nat) (hext : subTable fs fs2)
    (onA onB : Path → Except Errno Resolved)
    (hon : ∀ p, onA p ≠ .error .ENOENT → onB p = onA p) :
    ∀ (x : List String) (cur : Path), walkFrom fs fl n onA cur x ≠ .error .ENOENT →
      walkFrom fs2 fl n onB cur x = walkFrom fs fl n onA cur x := by
  intro x
  induction x with
  | nil => intro cur _; rfl
  | cons c rest ih =>
    intro cur h
    unfold walkFrom at h ⊢
    cases hl : entryAt fs (cur ++ [c]) with
    | none => simp [hl] at h
    | some v =>
      rw [hext _ _ hl]
      simp only [hl] at h
      cases v with
      | dir => exact ih _ h
      | file s => rfl
      | symlink d =>
        simp only at h ⊢
        split
        · rfl
        · rename_i hc
          simp only [hc, if_false] at h
          exact hon _ h

theorem followLink_frame (fs fs2 : FS) (fl : Bool) (hext : subTable fs fs2) :
    ∀ (n : Nat) (p : Path), followLink fs fl n p ≠ .error .ENOENT →
      followLink fs2 fl n p = followLink fs fl n p := by
  intro n
  induction n with
  | zero => intro p _; rfl
  | succ n ih =>
    intro p h
    exact walkFrom_frame fs fs2 fl n hext _ _ ih p [] h

theorem resolve_frame (fs fs2 : FS) (fl : Bool) (hext : subTable fs fs2) (n : Nat) (p : Path)
    (h : resolve fs fl n p ≠ .error .ENOENT) : resolve fs2 fl n p = resolve fs fl n p :=
  walkFrom_frame fs fs2 fl n hext _ _ (followLink_frame fs fs2 fl hext n) p [] h

theorem dirAt_frame (fs fs2 : FS) (hext : subTable fs fs2) (p q : Path)
    (h : dirAt fs p = .ok q) : dirAt fs2 p = .ok q := by
  unfold dirAt at h ⊢
  have hne : resolve fs true maxSymlinks p ≠ .error .ENOENT := by
    intro h2
    rw [h2] at h
    cases h
  rw [resolve_frame fs fs2 true hext _ _ hne]
  exact h

theorem subTable_cons (fs : FS) (q : Path) (v : Node) (h : entryAt fs q = none) :
    subTable fs ((q, v) :: fs) := by
  intro p w hp
  have hne : q ≠ p := by
    intro h2
    rw [h2] at h
    rw [h] at hp
    cases hp
  rw [entryAt_cons_ne fs p q v hne]
  exact hp

theorem subTable_unlinkAt (fs : FS) (q : Path) : subTable (unlinkAt fs q) fs := by
  intro p w hp
  by_cases h : q = p
  · rw [← h, entryAt_unlinkAt_self] at hp
    cases hp
  · rw [entryAt_unlinkAt_ne fs p q h] at hp
    exact hp

theorem subTable_refl (fs : FS) : subTable fs fs := fun _ _ h => h

theorem subTable_trans (a b c : FS) (h1 : subTable a b) (h2 : subTable b c) : subTable a c :=
  fun p v h => h2 p v (h1 p v h)

/-! ### The calls in terms of the parent directory -/

theorem dirAt_ok (fs : FS) (p q : Path) (h : dirAt fs p = .ok q) :
    ∃ m, resolve fs true maxSymlinks p = .ok (m, q, .dir) := by
  unfold dirAt at h
  cases hr : resolve fs true maxSymlinks p with
  | error e => rw [hr] at h; cases h
  | ok r =>
    obtain ⟨m, q2, v⟩ := r
    rw [hr] at h
    cases v with
    | dir =>
      simp only at h
      cases h
      exact ⟨m, rfl⟩
    | file s => cases h
    | symlink d => cases h

theorem resolve_snoc (fs : FS) (xs : Path) (c : String) (q : Path) (h : dirAt fs xs = .ok q) :
    ∃ m, resolve fs false maxSymlinks (xs ++ [c]) =
      match entryAt fs (q ++ [c]) with
      | none => .error .ENOENT
      | some v => .ok (m, q ++ [c], v) := by
  obtain ⟨m, hm⟩ := dirAt_ok fs xs q h
  refine ⟨m, ?_⟩
  rw [resolve_append fs false _ xs [c] (by simp), hm]
  simp only [contWalk]
  rw [walkFrom_single]
  cases entryAt fs (q ++ [c]) with
  | none => rfl
  | some v => cases v <;> rfl

/-- `Lstat` of a path whose parent resolves to the directory at `q` reads the
entry of that directory. -/
theorem Lstat_snoc (fs : FS) (xs : Path) (c : String) (q : Path) (h : dirAt fs xs = .ok q) :
    Lstat fs (xs ++ [c]) =
      match entryAt fs (q ++ [c]) with
      | none => .error .ENOENT
      | some v => .ok v := by
  obtain ⟨m, hm⟩ := resolve_snoc fs xs c q h
  unfold Lstat
  rw [hm]
  cases entryAt fs (q ++ [c]) <;> rfl

theorem Readlink_snoc (fs : FS) (xs : Path) (c : String) (q d : Path)
    (h : dirAt fs xs = .ok q) (he : entryAt fs (q ++ [c]) = some (.symlink d)) :
    Readlink fs (xs ++ [c]) = .ok d := by
  obtain ⟨m, hm⟩ := resolve_snoc fs xs c q h
  unfold Readlink
  rw [hm, he]

theorem Lstat_snoc_ok (fs : FS) (xs : Path) (c : String) (node : Node)
    (h : Lstat fs (xs ++ [c]) = .ok node) :
    ∃ q, dirAt fs xs = .ok q ∧ entryAt fs (q ++ [c]) = some node := by
  unfold Lstat at h
  rw [resolve_append fs false _ xs [c] (by simp)] at h
  unfold dirAt
  cases hr : resolve fs true maxSymlinks xs with
  | error e => rw [hr] at h; cases h
  | ok r =>
    obtain ⟨m, q, v⟩ := r
    rw [hr] at h
    cases v with
    | file s => cases h
    | symlink d => cases h
    | dir =>
      refine ⟨q, rfl, ?_⟩
      simp only [contWalk] at h
      rw [walkFrom_single] at h
      cases he : entryAt fs (q ++ [c]) with
      | none => rw [he] at h; cases h
      | some v =>
        rw [he] at h
        cases v <;> simp_all

theorem path_snoc (t : Path) (c : String) (h : t.getLast? = some c) : t.dropLast ++ [c] = t :=
  List.dropLast_append_getLast? c h

theorem Lstat_root (fs : FS) : Lstat fs [] = .ok .dir := rfl

theorem Stat_root (fs : FS) : Stat fs [] = .ok .dir := rfl

theorem Stat_of_dirAt (fs : FS) (p q : Path) (h : dirAt fs p = .ok q) : Stat fs p = .ok .dir := by
  obtain ⟨m, hm⟩ := dirAt_ok fs p q h
  unfold Stat
  rw [hm]

theorem createEntry_ok (fs fs2 : FS) (p : Path) (node : Node)
    (h : createEntry fs p node = .ok fs2) :
    ∃ c q, p.getLast? = some c ∧ dirAt fs p.dropLast = .ok q ∧ entryAt fs (q ++ [c]) = none ∧
      fs2 = (q ++ [c], node) :: fs := by
  unfold createEntry at h
  cases hc : p.getLast? with
  | none => simp only [hc] at h; cases h
  | some c =>
    cases hd : dirAt fs p.dropLast with
    | error e => simp only [hc, hd] at h; cases h
    | ok q =>
      cases he : entryAt fs (q ++ [c]) with
      | some v => simp only [hc, hd, he] at h; cases h
      | none =>
        simp only [hc, hd, he] at h
        cases h
        exact ⟨c, q, rfl, rfl, he, rfl⟩

theorem createEntry_of (fs : FS) (p : Path) (node : Node) (c : String) (q : Path)
    (hc : p.getLast? = some c) (hd : dirAt fs p.dropLast = .ok q)
    (he : entryAt fs (q ++ [c]) = none) :
    createEntry fs p node = .ok ((q ++ [c], node) :: fs) := by
  unfold createEntry
  rw [hc]
  simp only [hd, he]

theorem Remove_ok (fs fs2 : FS) (p : Path) (h : Remove fs p = .ok fs2) :
    ∃ c q, p.getLast? = some c ∧ dirAt fs p.dropLast = .ok q ∧ fs2 = unlinkAt fs (q ++ [c]) := by
  unfold Remove at h
  cases hc : p.getLast? with
  | none => simp only [hc] at h; cases h
  | some c =>
    cases hd : dirAt fs p.dropLast with
    | error e => simp only [hc, hd] at h; cases h
    | ok q =>
      refine ⟨c, q, rfl, rfl, ?_⟩
      cases he : entryAt fs (q ++ [c]) with
      | none => simp only [hc, hd, he] at h; cases h
      | some v =>
        simp only [hc, hd, he] at h
        cases v with
        | dir =>
          simp only at h
          split at h
          · cases h
          · cases h; rfl
        | file s => cases h; rfl
        | symlink d => cases h; rfl

theorem Remove_of_symlink (fs : FS) (p : Path) (c : String) (q d : Path)
    (hc : p.getLast? = some c) (hd : dirAt fs p.dropLast = .ok q)
    (he : entryAt fs (q ++ [c]) = some (.symlink d)) :
    Remove fs p = .ok (unlinkAt fs (q ++ [c])) := by
  unfold Remove
  rw [hc]
  simp only [hd, he]

theorem Mkdir_subTable (fs fs2 : FS) (p : Path) (h : Mkdir fs p = .ok fs2) : subTable fs fs2 := by
  obtain ⟨c, q, _, _, he, rfl⟩ := createEntry_ok fs fs2 p .dir h
  exact subTable_cons fs _ _ he

/-- `MkdirAll` only adds entries, also when it fails. -/
theorem MkdirAllRev_subTable : ∀ (rp : List String) (fs : FS),
    subTable fs (MkdirAllRev fs rp).1 := by
  intro rp
  induction rp with
  | nil => intro fs; exact subTable_refl fs
  | cons c rp ih =>
    intro fs
    unfold MkdirAllRev
    cases hs : Stat fs (c :: rp).reverse with
    | ok v =>
      cases v <;> exact subTable_refl fs
    | error e =>
      simp only
      have h1 := ih fs
      cases hm : MkdirAllRev fs rp with
      | mk fs1 r =>
        rw [hm] at h1
        cases r with
        | some e2 => exact h1
        | none =>
          simp only
          cases hk : Mkdir fs1 (c :: rp).reverse with
          | ok fs2 => exact subTable_trans _ _ _ h1 (Mkdir_subTable _ _ _ hk)
          | error e3 =>
            simp only
            split <;> exact h1

theorem MkdirAll_subTable (fs : FS) (p : Path) : subTable fs (MkdirAll fs p).1 :=
  MkdirAllRev_subTable p.reverse fs

theorem MkdirAll_of_Stat_dir (fs : FS) (p : Path) (h : Stat fs p = .ok .dir) :
    MkdirAll fs p = (fs, none) := by
  unfold MkdirAll
  cases hp : p.reverse with
  | nil => rfl
  | cons c rp =>
    have hp2 : (c :: rp).reverse = p := by rw [← hp, List.reverse_reverse]
    unfold MkdirAllRev
    rw [hp2, h]


theorem loopsBack_ELOOP (fs2 : FS) (s : Path) (h : loopsBack fs2 s [] s) :
    ∀ (n : Nat) (y : List String), resolve fs2 true n (s ++ y) = .error .ELOOP := by
  obtain ⟨k, r, hk⟩ := h
  intro n
  induction n using Nat.strong_induction_on with
  | _ n ih =>
    intro y
    rw [resolve_eq, hk n y]
    split
    · rfl
    · rw [List.append_assoc]
      exact ih (n - k - 1) (by omega) (r ++ y)

/-- Comparing a walk before and after the entry at `q` was pointed to `s`:
the new walk loops back to `s`, or the old one reported a missing entry, or
both agree. -/
theorem walkFrom_relink_aux (fs fs2 : FS) (q s : Path)
    (hagree : ∀ p v, p ≠ q → entryAt fs p = some v → entryAt fs2 p = some v)
    (hq : entryAt fs2 q = some (.symlink s)) (n : Nat)
    (hon : ∀ p, loopsBack fs2 s [] p ∨ followLink fs true n p = .error .ENOENT ∨
      followLink fs2 true n p = followLink fs true n p) :
    ∀ (x : List String) (cur : Path),
      loopsBack fs2 s cur x ∨ walkFrom fs true n (followLink fs true n) cur x = .error .ENOENT ∨
        walkFrom fs2 true n (followLink fs2 true n) cur x =
          walkFrom fs true n (followLink fs true n) cur x := by
  intro x
  induction x with
  | nil => intro cur; exact Or.inr (Or.inr rfl)
  | cons c rest ih =>
    intro cur
    by_cases hp : cur ++ [c] = q
    · left
      refine ⟨0, rest, ?_⟩
      intro m y
      rw [List.cons_append]
      unfold walkFrom
      rw [hp, hq]
      simp only [Bool.true_eq_false, and_false, if_false]
      cases m with
      | zero => rfl
      | succ m =>
        simp only [followLink_succ]
        simp [List.append_assoc]
    · cases hl : entryAt fs (cur ++ [c]) with
      | none =>
        right; left
        unfold walkFrom
        rw [hl]
      | some v =>
        have hl2 := hagree _ _ hp hl
        cases v with
        | dir =>
          rcases ih (cur ++ [c]) with h | h | h
          · left
            obtain ⟨k, r, hk⟩ := h
            refine ⟨k, r, ?_⟩
            intro m y
            rw [List.cons_append]
            unfold walkFrom
            rw [hl2]
            exact hk m y
          · right; left
            unfold walkFrom
            rw [hl]
            exact h
          · right; right
            unfold walkFrom
            rw [hl, hl2]
            exact h
        | file t =>
          right; right
          unfold walkFrom
          rw [hl, hl2]
        | symlink d =>
          rcases hon (d ++ rest) with h | h | h
          · left
            obtain ⟨k, r, hk⟩ := h
            refine ⟨k + 1, r, ?_⟩
            intro m y
            rw [List.cons_append]
            unfold walkFrom
            rw [hl2]
            simp only [Bool.true_eq_false, and_false, if_false]
            cases m with
            | zero => rfl
            | succ m =>
              rw [followLink_succ, resolve_eq, ← List.append_assoc, hk m y]
              simp only [Nat.add_le_add_iff_right]
              have : m + 1 - (k + 1) - 1 = m - k - 1 := by omega
              rw [this]
          · right; left
            unfold walkFrom
            rw [hl]
            simpa using h
          · right; right
            unfold walkFrom
            rw [hl, hl2]
            simpa using h

theorem followLink_relink (fs fs2 : FS) (q s : Path)
    (hagree : ∀ p v, p ≠ q → entryAt fs p = some v → entryAt fs2 p = some v)
    (hq : entryAt fs2 q = some (.symlink s)) :
    ∀ (n : Nat) (p : Path), loopsBack fs2 s [] p ∨ followLink fs true n p = .error .ENOENT ∨
      followLink fs2 true n p = followLink fs true n p := by
  intro n
  induction n with
  | zero => intro p; exact Or.inr (Or.inr rfl)
  | succ n ih =>
    intro p
    exact walkFrom_relink_aux fs fs2 q s hagree hq n ih p []

/-- Pointing the entry at `q` to the path `s` cannot make `s` report "no such
file": either the walk of `s` is as before, or it runs into the new link and
loops. -/
theorem resolve_relink (fs fs2 : FS) (q s : Path)
    (hagree : ∀ p v, p ≠ q → entryAt fs p = some v → entryAt fs2 p = some v)
    (hq : entryAt fs2 q = some (.symlink s)) (n : Nat)
    (h : resolve fs true n s ≠ .error .ENOENT) : resolve fs2 true n s ≠ .error .ENOENT := by
  rcases walkFrom_relink_aux fs fs2 q s hagree hq n (followLink_relink fs fs2 q s hagree hq n) s []
    with h1 | h1 | h1
  · have h2 := loopsBack_ELOOP fs2 s h1 n []
    rw [List.append_nil] at h2
    rw [h2]
    intro h3
    cases h3
  · exact absurd h1 h
  · rw [resolve_eq, h1]
    exact h


theorem IsNotExist_Stat (fs : FS) (s : Path) :
    IsNotExist (errOf (Stat fs s)) = false ↔ resolve fs true maxSymlinks s ≠ .error .ENOENT := by
  unfold Stat
  cases resolve fs true maxSymlinks s with
  | ok r => simp [errOf, IsNotExist]
  | error e => cases e <;> simp [errOf, IsNotExist]

/-- What a successful `CreateSymlink` did: on a table `fsX` in which the name
was free, it added the link. -/
theorem CreateSymlink_ok (fs fs1 : FS) (s t : Path) (b : Bool)
    (h : CreateSymlink fs s t b = (fs1, none)) :
    ∃ (fsX : FS) (c : String) (q : Path), t.getLast? = some c ∧ dirAt fsX t.dropLast = .ok q ∧
      entryAt fsX (q ++ [c]) = none ∧ fs1 = (q ++ [c], .symlink s) :: fsX ∧
      (∀ p v, p ≠ q ++ [c] → entryAt fs p = some v → entryAt fsX p = some v) ∧
      IsNotExist (errOf (Stat fs s)) = false := by
  unfold CreateSymlink at h
  simp only [ResolvePath, List.foldl_nil] at h
  cases hs : IsNotExist (errOf (Stat fs s)) with
  | true => simp [hs] at h
  | false =>
    simp only [hs, Bool.false_eq_true, if_false] at h
    have hsub := MkdirAll_subTable fs (Dir t)
    cases hm : MkdirAll fs (Dir t) with
    | mk fsA r =>
      rw [hm] at hsub
      simp only [hm] at h
      cases r with
      | some e => simp at h
      | none =>
        simp only at h hsub
        cases hl : Lstat fsA t with
        | error e =>
          simp only [hl] at h
          cases hy : Symlink fsA s t with
          | error e2 => simp [hy] at h
          | ok fs3 =>
            simp only [hy, Prod.mk.injEq, and_true] at h
            subst h
            obtain ⟨c, q, hc, hd, he, rfl⟩ := createEntry_ok fsA fs3 t _ hy
            exact ⟨fsA, c, q, hc, hd, he, rfl, fun p v _ hp => hsub p v hp, rfl⟩
        | ok info =>
          simp only [hl] at h
          cases hi : info.isSymlink with
          | false =>
            simp only [hi, Bool.false_eq_true, if_false] at h
            split at h <;> simp at h
          | true =>
            simp only [hi, if_true] at h
            cases hr : Remove fsA t with
            | error e => simp [hr] at h
            | ok fs2 =>
              simp only [hr] at h
              cases hy : Symlink fs2 s t with
              | error e2 => simp [hy] at h
              | ok fs3 =>
                simp only [hy, Prod.mk.injEq, and_true] at h
                subst h
                obtain ⟨c, q, hc, hd, he, rfl⟩ := createEntry_ok fs2 fs3 t _ hy
                obtain ⟨c0, q0, hc0, hd0, rfl⟩ := Remove_ok fsA fs2 t hr
                rw [hc] at hc0
                cases hc0
                have hd1 := dirAt_frame _ fsA (subTable_unlinkAt fsA (q0 ++ [c])) _ _ hd
                have hq : q0 = q := by
                  rw [hd0] at hd1
                  cases hd1
                  rfl
                subst hq
                refine ⟨_, c, q0, hc, hd, he, rfl, ?_, rfl⟩
                intro p v hp hv
                rw [entryAt_unlinkAt_ne fsA p _ (Ne.symm hp)]
                exact hsub p v hv

/-- The table right after a link was added under a free name: the target is
that link, and creating it again changes nothing. -/
theorem after_link_added (fsX : FS) (s t : Path) (c : String) (q : Path)
    (hc : t.getLast? = some c) (hd : dirAt fsX t.dropLast = .ok q)
    (he : entryAt fsX (q ++ [c]) = none) :
    Lstat ((q ++ [c], .symlink s) :: fsX) t = .ok (.symlink s) ∧
      Readlink ((q ++ [c], .symlink s) :: fsX) t = .ok s ∧
      ∀ b, IsNotExist (errOf (Stat ((q ++ [c], .symlink s) :: fsX) s)) = false →
        CreateSymlink ((q ++ [c], .symlink s) :: fsX) s t b
          = ((q ++ [c], .symlink s) :: fsX, none) := by
  have hsub : subTable fsX ((q ++ [c], .symlink s) :: fsX) := subTable_cons fsX _ _ he
  have hd1 := dirAt_frame fsX _ hsub _ _ hd
  have hl : Lstat ((q ++ [c], .symlink s) :: fsX) t = .ok (.symlink s) := by
    have h1 := Lstat_snoc _ t.dropLast c q hd1
    rw [path_snoc t c hc, entryAt_cons_self] at h1
    exact h1
  have hrl : Readlink ((q ++ [c], .symlink s) :: fsX) t = .ok s := by
    have h1 := Readlink_snoc _ t.dropLast c q s hd1 (entryAt_cons_self _ _ _)
    rw [path_snoc t c hc] at h1
    exact h1
  refine ⟨hl, hrl, ?_⟩
  intro b hs
  unfold CreateSymlink
  simp only [ResolvePath, List.foldl_nil, hs, Bool.false_eq_true, if_false]
  rw [MkdirAll_of_Stat_dir _ (Dir t) (Stat_of_dirAt _ _ q hd1)]
  simp only [hl, Node.isSymlink, if_true]
  rw [Remove_of_symlink _ t c q s hc hd1 (entryAt_cons_self _ _ _)]
  simp only [unlinkAt_cons_self, unlinkAt_of_entryAt_none fsX _ he]
  unfold Symlink
  rw [createEntry_of fsX t _ c q hc hd he]

theorem IsSymlink_eq (fs : FS) (p : Path) :
    IsSymlink fs p = match Lstat fs p with
      | .ok (.symlink _) => true
      | _ => false := by
  unfold IsSymlink
  cases Lstat fs p with
  | error e => rfl
  | ok v => cases v <;> rfl

theorem Readlink_of_Lstat (fs : FS) (p d : Path) (h : Lstat fs p = .ok (.symlink d)) :
    Readlink fs p = .ok d := by
  unfold Lstat at h
  unfold Readlink
  cases hr : resolve fs false maxSymlinks p with
  | error e => rw [hr] at h; cases h
  | ok r =>
    obtain ⟨m, q, v⟩ := r
    rw [hr] at h
    simp only at h
    cases h
    rfl

theorem linkMark_eq (fs : FS) (mod : Module) (name : String) (p : Platform) :
    linkMark fs mod name p =
      match Lstat fs (rawTargetPath mod name p).clean with
      | .ok (.symlink x) => if x = mod.Path then some (.ok name) else some (.broken name)
      | _ => none := by
  unfold linkMark
  simp only [IsSymlink_eq]
  cases hl : Lstat fs (rawTargetPath mod name p).clean with
  | error e => simp
  | ok v =>
    cases v with
    | dir => simp
    | file s => simp
    | symlink d =>
      simp [ReadSymlink, Readlink_of_Lstat fs _ d hl, realPathOf]

theorem detailDiff_foldl (ps : List platformState) (a b : List String) :
    ps.foldl diffStep (a, b)
    = (a ++ (ps.filter (fun p => p.selected && !p.synced)).map (fun p => p.key),
       b ++ (ps.filter (fun p => !p.selected && p.synced)).map (fun p => p.key)) := by
  induction ps generalizing a b with
  | nil => simp
  | cons p ps ih =>
    rw [List.foldl_cons]
    cases hs : p.selected <;> cases hy : p.synced <;> simp [diffStep, hs, hy, ih]

/-- The two lists of the diff as filters of the platform list. -/
theorem detailDiff_eq (ps : List platformState) :
    detailDiff ps =
      ((ps.filter (fun p => p.selected && !p.synced)).map (fun p => p.key),
       (ps.filter (fun p => !p.selected && p.synced)).map (fun p => p.key)) := by
  unfold detailDiff
  rw [detailDiff_foldl]
  simp

theorem toggleAt_keys (ps : List platformState) (i : Nat) :
    (toggleAt ps i).map (fun p => p.key) = ps.map (fun p => p.key) := by
  induction ps generalizing i with
  | nil => rfl
  | cons p ps ih =>
    cases i with
    | zero => rfl
    | succ i => simp [toggleAt, ih]

theorem detailDiff_disjoint (ps : List platformState) (h : (ps.map (fun p => p.key)).Nodup) :
    List.Disjoint (detailDiff ps).1 (detailDiff ps).2 := by
  rw [detailDiff_eq]
  intro k h1 h2
  simp only [List.mem_map, List.mem_filter, Bool.and_eq_true, Bool.not_eq_true'] at h1 h2
  obtain ⟨p1, ⟨hp1, hs1, _⟩, hk1⟩ := h1
  obtain ⟨p2, ⟨hp2, hs2, _⟩, hk2⟩ := h2
  have heq : p1 = p2 := List.inj_on_of_nodup_map h hp1 hp2 (hk1.trans hk2.symm)
  subst heq
  rw [hs1] at hs2
  cases hs2

theorem detailLoop_disjoint : ∀ (keys : List String) (ps : List platformState) (sel : Int)
    (r : ModuleDetailResult), (ps.map (fun p => p.key)).Nodup →
    detailLoop ps sel keys = .returned r → List.Disjoint r.ToSync r.ToRemove := by
  intro keys
  induction keys with
  | nil => intro ps sel r _ h; cases h
  | cons key keys ih =>
    intro ps sel r hnd h
    unfold detailLoop at h
    split at h
    · exact ih _ _ r hnd h
    · split at h
      · exact ih _ _ r hnd h
      · split at h
        · split at h
          · refine ih _ _ r ?_ h
            rw [toggleAt_keys]
            exact hnd
          · cases h
        · split at h
          · cases h
            exact detailDiff_disjoint ps hnd
          · split at h
            · cases h
              exact List.disjoint_nil_left _
            · exact ih _ _ r hnd h

theorem detailPlatforms_keys (fs : FS) (cfg : Config) (mod : Module) :
    (detailPlatforms fs cfg mod).map (fun p => p.key) = cfg.Platforms.keys := by
  unfold detailPlatforms
  simp [AList.keys, List.keys, List.map_map, Function.comp_def]

theorem MkdirAll_Dir_of_Lstat (fs : FS) (target : Path) (node : Node)
    (h : Lstat fs target = .ok node) : MkdirAll fs (Dir target) = (fs, none) := by
  apply MkdirAll_of_Stat_dir
  unfold Dir
  cases hc : target.getLast? with
  | none =>
    have : target = [] := List.getLast?_eq_none_iff.mp hc
    subst this
    rfl
  | some c =>
    rw [← path_snoc target c hc] at h
    obtain ⟨q, hq, _⟩ := Lstat_snoc_ok fs _ c node h
    exact Stat_of_dirAt fs _ q hq

theorem RemoveSymlink_changes_only_links (fs : FS) (target q : Path)
    (h : entryAt (RemoveSymlink fs target).1 q ≠ entryAt fs q) :
    (∃ d, entryAt fs q = some (.symlink d)) ∧ entryAt (RemoveSymlink fs target).1 q = none := by
  unfold RemoveSymlink at h ⊢
  simp only [ResolvePath, List.foldl_nil] at h ⊢
  by_cases hne : IsNotExist (errOf (Lstat fs target)) = true
  · simp only [hne, if_true] at h
    exact absurd rfl h
  · simp only [hne] at h ⊢
    cases hl : Lstat fs target with
    | error e => simp [hl] at h
    | ok info =>
      simp only [hl] at h ⊢
      cases hs : info.isSymlink with
      | false => simp [hs] at h
      | true =>
        simp only [hs] at h ⊢
        cases hr : Remove fs target with
        | error e => simp [hr] at h
        | ok fs1 =>
          simp only [hr] at h ⊢
          obtain ⟨c, q0, hc, hd, rfl⟩ := Remove_ok fs fs1 target hr
          rw [← path_snoc target c hc] at hl
          obtain ⟨q1, hd1, he1⟩ := Lstat_snoc_ok fs _ c info hl
          rw [hd] at hd1
          cases hd1
          simp only [Bool.true_eq_false, if_false] at h ⊢
          by_cases hq : q0 ++ [c] = q
          · subst hq
            refine ⟨?_, entryAt_unlinkAt_self fs _⟩
            cases info with
            | symlink d => exact ⟨d, he1⟩
            | dir => cases hs
            | file s => cases hs
          · exact absurd (entryAt_unlinkAt_ne fs q _ hq) h

/-- On a source for which `Stat` reports `ENOENT`, `CreateSymlink` returns the
source-not-found error before touching the filesystem. -/
theorem CreateSymlink_source_ENOENT (fs : FS) (source target : Path) (isProject : Bool)
    (h : Stat fs source = .error .ENOENT) :
    CreateSymlink fs source target isProject = (fs, some (.sourceNotFound source)) := by
  unfold CreateSymlink
  simp [ResolvePath, h, errOf, IsNotExist]

/-! ### Strings without odd pieces are read as their cleaned path -/

theorem splitSlashAux_plain (cs : List Char) :
    ∀ cur : List Char, '/' ∉ cs → splitSlashAux cs cur = [String.mk (cur.reverse ++ cs)] := by
  induction cs with
  | nil => intro cur _; simp [splitSlashAux]
  | cons c cs ih =>
    intro cur h
    rw [List.mem_cons, not_or] at h
    unfold splitSlashAux
    rw [if_neg (fun hc => h.1 hc.symm), ih (c :: cur) h.2]
    simp

theorem splitSlash_plain (s : String) (h : '/' ∉ s.data) : splitSlash s = [s] := by
  unfold splitSlash
  rw [splitSlashAux_plain s.data [] h]
  rfl

theorem cleanStep_plain (acc : Path) (c : String) (h : plainPiece c) :
    cleanStep acc c = acc ++ [c] := by
  unfold cleanStep
  rw [if_neg (by rintro (h1 | h1); exact h.1 h1; exact h.2.1 h1), if_neg h.2.2]

theorem foldl_cleanStep_plain (tail : List String) :
    ∀ acc : Path, (∀ c ∈ tail, plainPiece c) → tail.foldl cleanStep acc = acc ++ tail := by
  induction tail with
  | nil => intro acc _; simp
  | cons c tail ih =>
    intro acc h
    rw [List.foldl_cons, cleanStep_plain acc c (h c (List.mem_cons_self _ _)),
      ih _ (fun x hx => h x (List.mem_cons_of_mem _ hx))]
    simp

theorem RawPath.clean_plain (r : RawPath) (h : ∀ c ∈ r.tail, plainPiece c) :
    r.clean = r.dir ++ r.tail :=
  foldl_cleanStep_plain r.tail r.dir h

theorem walkTail_plain (fs : FS) (fl : Bool) (tail : List String) :
    ∀ (n : Nat) (q : Path), (∀ c ∈ tail, plainPiece c) →
      walkTail fs fl n q tail = walkFrom fs fl n (followLink fs fl n) q tail := by
  induction tail with
  | nil => intro n q _; rfl
  | cons c rest ih =>
    intro n q h
    have hc := h c (List.mem_cons_self _ _)
    unfold walkTail
    rw [if_neg (by rintro (h1 | h1); exact hc.1 h1; exact hc.2.1 h1), if_neg hc.2.2]
    by_cases hr : rest = []
    · rw [if_pos hr, hr]
    · rw [if_neg hr]
      have := walkFrom_append fs fl n rest hr [c] q
      rw [List.singleton_append] at this
      rw [this]
      cases hw : walkFrom fs true n (followLink fs true n) q [c] with
      | error e => rfl
      | ok x =>
        obtain ⟨m, q2, v⟩ := x
        cases v with
        | dir => exact ih m q2 (fun x hx => h x (List.mem_cons_of_mem _ hx))
        | file s => rfl
        | symlink d => rfl

/-- On a string without odd pieces the kernel's resolution is the resolution
of the cleaned path. -/
theorem lookupRaw_plain (fs : FS) (fl : Bool) (r : RawPath) (habs : r.relative = false)
    (h : ∀ c ∈ r.tail, plainPiece c) (hne : r.tail ≠ []) :
    lookupRaw fs fl r = resolve fs fl maxSymlinks (r.dir ++ r.tail) := by
  unfold lookupRaw
  have hno : ¬ (r.relative = true ∧ r.tail = [""]) := by
    rintro ⟨_, h2⟩
    exact (h "" (by rw [h2]; exact List.mem_singleton_self _)).1 rfl
  rw [if_neg hno, resolve_append fs fl maxSymlinks r.dir r.tail hne, habs]
  cases hw : resolve fs true maxSymlinks r.dir with
  | error e => rfl
  | ok x =>
    obtain ⟨m, q, v⟩ := x
    cases v with
    | dir => exact walkTail_plain fs fl r.tail m q h
    | file s => rfl
    | symlink d => rfl

theorem LstatRaw_plain (fs : FS) (r : RawPath) (habs : r.relative = false)
    (h : ∀ c ∈ r.tail, plainPiece c) (hne : r.tail ≠ []) :
    LstatRaw fs r = Lstat fs (r.dir ++ r.tail) := by
  unfold LstatRaw Lstat
  rw [lookupRaw_plain fs false r habs h hne]

theorem StatRaw_plain (fs : FS) (r : RawPath) (habs : r.relative = false)
    (h : ∀ c ∈ r.tail, plainPiece c) (hne : r.tail ≠ []) :
    StatRaw fs r = Stat fs (r.dir ++ r.tail) := by
  unfold StatRaw Stat
  rw [lookupRaw_plain fs true r habs h hne]

theorem ReadlinkRaw_plain (fs : FS) (r : RawPath) (habs : r.relative = false)
    (h : ∀ c ∈ r.tail, plainPiece c) (hne : r.tail ≠ []) :
    ReadlinkRaw fs r = Readlink fs (r.dir ++ r.tail) := by
  unfold ReadlinkRaw Readlink
  rw [lookupRaw_plain fs false r habs h hne]

theorem IsSymlinkRaw_plain (fs : FS) (r : RawPath) (habs : r.relative = false)
    (h : ∀ c ∈ r.tail, plainPiece c) (hne : r.tail ≠ []) :
    IsSymlinkRaw fs r = IsSymlink fs (r.dir ++ r.tail) := by
  unfold IsSymlinkRaw IsSymlink
  rw [LstatRaw_plain fs r habs h hne]

theorem ReadSymlinkRaw_plain (fs : FS) (r : RawPath) (habs : r.relative = false)
    (h : ∀ c ∈ r.tail, plainPiece c) (hne : r.tail ≠ []) :
    ReadSymlinkRaw fs r = ReadSymlink fs (r.dir ++ r.tail) :=
  ReadlinkRaw_plain fs r habs h hne

/-! ### The link target of a plain link name -/

theorem rawTargetPath_tail (mod : Module) (key : String) (p : Platform)
    (h : plainName (mod.GetLinkName key)) :
    (rawTargetPath mod key p).tail = [mod.GetLinkName key] :=
  splitSlash_plain _ h.1

theorem rawTargetPath_plain (mod : Module) (key : String) (p : Platform)
    (h : plainName (mod.GetLinkName key)) :
    (∀ c ∈ (rawTargetPath mod key p).tail, plainPiece c) ∧ (rawTargetPath mod key p).tail ≠ [] := by
  rw [rawTargetPath_tail mod key p h]
  refine ⟨?_, by simp⟩
  intro c hc
  rw [List.mem_singleton] at hc
  rw [hc]
  exact h.2

/-- For a plain link name the calls on the string as written read the cleaned
link target. -/
theorem rawTargetPath_reads (fs : FS) (mod : Module) (key : String) (p : Platform)
    (h : plainName (mod.GetLinkName key)) :
    LstatRaw fs (rawTargetPath mod key p) = Lstat fs (rawTargetPath mod key p).clean ∧
      StatRaw fs (rawTargetPath mod key p) = Stat fs (rawTargetPath mod key p).clean ∧
      IsSymlinkRaw fs (rawTargetPath mod key p) = IsSymlink fs (rawTargetPath mod key p).clean ∧
      ReadSymlinkRaw fs (rawTargetPath mod key p) =
        ReadSymlink fs (rawTargetPath mod key p).clean := by
  obtain ⟨h1, h2⟩ := rawTargetPath_plain mod key p h
  rw [RawPath.clean_plain _ h1]
  exact ⟨LstatRaw_plain fs _ rfl h1 h2, StatRaw_plain fs _ rfl h1 h2,
    IsSymlinkRaw_plain fs _ rfl h1 h2, ReadSymlinkRaw_plain fs _ rfl h1 h2⟩

/-- For a plain link name the cleaned string is the path with the link name as
its last component. -/
theorem rawTargetPath_clean (mod : Module) (key : String) (p : Platform)
    (h : plainName (mod.GetLinkName key)) :
    (rawTargetPath mod key p).clean = targetPath mod key p := by
  rw [RawPath.clean_plain _ (rawTargetPath_plain mod key p h).1, rawTargetPath_tail mod key p h]
  rfl

/-- For a plain link name the status loop on the string it builds takes the
branch found at the path. -/
theorem linkHealthRaw_plain (fs : FS) (mod : Module) (name : String) (p : Platform)
    (h : plainName (mod.GetLinkName name)) :
    linkHealthRaw fs mod name p = linkHealth fs mod name p := by
  obtain ⟨_, h2, h3, h4⟩ := rawTargetPath_reads fs mod name p h
  unfold linkHealthRaw linkHealth
  simp only [h2, h3, h4, rawTargetPath_clean mod name p h]

/-- For plain link names the detail page presets its toggles from the paths. -/
theorem detailPlatformsRaw_plain (fs : FS) (cfg : Config) (mod : Module)
    (h : ∀ e ∈ cfg.Platforms.entries, plainName (mod.GetLinkName e.1)) :
    detailPlatformsRaw fs cfg mod = detailPlatforms fs cfg mod := by
  unfold detailPlatformsRaw detailPlatforms
  apply List.map_congr_left
  intro e he
  simp only [(rawTargetPath_reads fs mod e.1 e.2 (h e he)).2.2.1,
    rawTargetPath_clean mod e.1 e.2 (h e he)]

/-- For plain link names the apply step works on the paths. -/
theorem applyDiffRaw_plain (cfg : Config) (mod : Module) (cwd : Path) (fs : FS)
    (toSync toRemove : List String) (h : ∀ k, plainName (mod.GetLinkName k)) :
    applyDiffRaw cfg mod cwd fs toSync toRemove = applyDiff cfg mod cwd fs toSync toRemove := by
  have hs : applySyncStepRaw cfg mod cwd = applySyncStep cfg mod cwd := by
    funext acc k
    unfold applySyncStepRaw applySyncStep
    simp only [rawTargetPath_clean mod k _ (h k)]
  have hr : applyRemoveStepRaw cfg mod cwd = applyRemoveStep cfg mod cwd := by
    funext acc k
    unfold applyRemoveStepRaw applyRemoveStep
    simp only [rawTargetPath_clean mod k _ (h k)]
  unfold applyDiffRaw applyDiff
  rw [hs, hr]

/-! ### Platform order and default targets -/

theorem firstOccurrences_filter (p : String → Bool) (l : List String) :
    firstOccurrences (l.filter p) = (firstOccurrences l).filter p := by
  induction l with
  | nil => rfl
  | cons y l ih =>
    by_cases hy : p y = true
    · rw [List.filter_cons_of_pos hy]
      simp only [firstOccurrences]
      rw [List.filter_cons_of_pos hy, ih]
      congr 1
      simp only [List.filter_filter]
      apply List.filter_congr
      intro a _
      exact Bool.and_comm _ _
    · rw [List.filter_cons_of_neg hy]
      simp only [firstOccurrences]
      rw [List.filter_cons_of_neg hy, ih]
      simp only [List.filter_filter]
      apply List.filter_congr
      intro a _
      by_cases ha : a = y
      · subst ha
        simp [hy]
      · simp [ha]

theorem mem_firstOccurrences (l : List String) (k : String) :
    k ∈ firstOccurrences l ↔ k ∈ l := by
  induction l with
  | nil => simp [firstOccurrences]
  | cons y l ih =>
    by_cases hk : k = y
    · simp [firstOccurrences, hk]
    · simp [firstOccurrences, hk, ih]

theorem firstOccurrences_nodup (l : List String) : (firstOccurrences l).Nodup := by
  induction l with
  | nil => simp [firstOccurrences]
  | cons y l ih =>
    simp only [firstOccurrences, List.nodup_cons]
    refine ⟨?_, ih.filter _⟩
    simp

theorem orderStep_pos (platforms : GoMap Platform) (o seen : List String) (x : String)
    (hx : (platforms.lookup x).isSome ∧ x ∉ seen) :
    orderStep platforms (o, seen) x = (o ++ [x], x :: seen) := by
  unfold orderStep
  rw [if_pos hx]

theorem orderStep_neg (platforms : GoMap Platform) (o seen : List String) (x : String)
    (hx : ¬ ((platforms.lookup x).isSome ∧ x ∉ seen)) :
    orderStep platforms (o, seen) x = (o, seen) := by
  unfold orderStep
  rw [if_neg hx]

theorem orderLoop_fst (platforms : GoMap Platform) (order : List String) :
    ∀ (o seen : List String),
      (order.foldl (orderStep platforms) (o, seen)).1 =
        o ++ firstOccurrences
          (order.filter (fun k => (platforms.lookup k).isSome && decide (k ∉ seen))) := by
  induction order with
  | nil => intro o seen; simp [firstOccurrences]
  | cons x order ih =>
    intro o seen
    rw [List.foldl_cons]
    by_cases hx : (platforms.lookup x).isSome ∧ x ∉ seen
    · have hx2 : ((platforms.lookup x).isSome && decide (x ∉ seen)) = true := by
        simp [hx.1, hx.2]
      rw [orderStep_pos platforms o seen x hx, ih,
        @List.filter_cons_of_pos String
          (fun k => (platforms.lookup k).isSome && decide (k ∉ seen)) x order hx2]
      simp only [firstOccurrences, List.append_assoc, List.singleton_append]
      congr 2
      rw [← firstOccurrences_filter]
      congr 1
      simp only [List.filter_filter]
      apply List.filter_congr
      intro a _
      by_cases ha : a = x
      · subst ha; simp
      · simp [ha, Bool.and_comm]
    · have hx2 : ¬ ((platforms.lookup x).isSome && decide (x ∉ seen)) = true := by
        intro h
        simp only [Bool.and_eq_true, decide_eq_true_eq] at h
        exact hx h
      rw [orderStep_neg platforms o seen x hx, ih,
        @List.filter_cons_of_neg String
          (fun k => (platforms.lookup k).isSome && decide (k ∉ seen)) x order hx2]

theorem orderLoop_snd (platforms : GoMap Platform) (order : List String) (k : String) :
    ∀ (o seen : List String),
      k ∈ (order.foldl (orderStep platforms) (o, seen)).2 ↔
        k ∈ seen ∨ (k ∈ order ∧ (platforms.lookup k).isSome) := by
  induction order with
  | nil => intro o seen; simp
  | cons x order ih =>
    intro o seen
    rw [List.foldl_cons]
    by_cases hx : (platforms.lookup x).isSome ∧ x ∉ seen
    · rw [orderStep_pos platforms o seen x hx, ih]
      simp only [List.mem_cons]
      constructor
      · rintro ((h | h) | h)
        · subst h; exact Or.inr ⟨Or.inl rfl, hx.1⟩
        · exact Or.inl h
        · exact Or.inr ⟨Or.inr h.1, h.2⟩
      · rintro (h | ⟨h | h, h2⟩)
        · exact Or.inl (Or.inr h)
        · exact Or.inl (Or.inl h)
        · exact Or.inr ⟨h, h2⟩
    · rw [orderStep_neg platforms o seen x hx, ih]
      simp only [List.mem_cons]
      constructor
      · rintro (h | h)
        · exact Or.inl h
        · exact Or.inr ⟨Or.inr h.1, h.2⟩
      · rintro (h | ⟨h | h, h2⟩)
        · exact Or.inl h
        · subst h
          by_cases hs : k ∈ seen
          · exact Or.inl hs
          · exact absurd ⟨h2, hs⟩ hx
        · exact Or.inr ⟨h, h2⟩

theorem appendLoop_eq (S : List String) (keys : List String) :
    ∀ (o : List String),
      keys.foldl (fun ordered key => if key ∉ S then ordered ++ [key] else ordered) o =
        o ++ keys.filter (fun k => decide (k ∉ S)) := by
  induction keys with
  | nil => intro o; simp
  | cons x keys ih =>
    intro o
    rw [List.foldl_cons, ih]
    by_cases hx : x ∉ S
    · simp [hx]
    · simp [hx]

theorem GetOrderedPlatformKeys_eq (cfg : Config) :
    cfg.GetOrderedPlatformKeys =
      firstOccurrences (cfg.PlatformOrder.filter (fun k => (cfg.Platforms.lookup k).isSome)) ++
        cfg.Platforms.keys.filter (fun k => decide (k ∉ cfg.PlatformOrder)) := by
  unfold Config.GetOrderedPlatformKeys
  by_cases h : cfg.PlatformOrder.length > 0
  · simp only [h, if_true, appendLoop_eq, orderLoop_fst]
    simp only [List.nil_append, List.not_mem_nil, not_false_eq_true, decide_True, Bool.and_true]
    congr 1
    apply List.filter_congr
    intro k hk
    have hcfg : (cfg.Platforms.lookup k).isSome := by
      rw [AList.lookup_isSome]
      exact hk
    simp only [orderLoop_snd, List.not_mem_nil, false_or, hcfg, and_true]
  · have h0 : cfg.PlatformOrder = [] := by
      cases hc : cfg.PlatformOrder with
      | nil => rfl
      | cons a l => rw [hc] at h; simp at h
    simp only [h, if_false, h0, List.filter_nil, firstOccurrences, List.nil_append,
      List.not_mem_nil, not_false_eq_true, decide_True, List.filter_true]
    have := appendLoop_eq [] cfg.Platforms.keys []
    simpa using this


theorem defaultsLoop_lookup (platforms : GoMap Platform) (defaults : List String) (k : String) :
    ∀ (acc : GoMap Platform),
      (defaults.foldl (targetStep platforms) acc).lookup k =
        if k ∈ defaults then
          (match platforms.lookup k with
            | some p => some p
            | none => acc.lookup k)
        else acc.lookup k := by
  induction defaults with
  | nil => intro acc; simp
  | cons x defaults ih =>
    intro acc
    rw [List.foldl_cons, ih]
    by_cases hk : k ∈ defaults
    · simp only [hk, if_true, List.mem_cons, or_true]
      cases hl : platforms.lookup k with
      | some p => rfl
      | none =>
        simp only
        unfold targetStep
        cases hx : platforms.lookup x with
        | none => rfl
        | some px =>
          simp only
          have hne : k ≠ x := by
            intro h
            rw [h, hx] at hl
            cases hl
          rw [AList.lookup_insert_ne hne]
    · simp only [hk, if_false, List.mem_cons, or_false]
      unfold targetStep
      by_cases hkx : k = x
      · subst hkx
        simp only [if_true]
        cases hl : platforms.lookup k with
        | none => rfl
        | some p => simp
      · simp only [hkx, if_false]
        cases hx : platforms.lookup x with
        | none => rfl
        | some px => simp only; rw [AList.lookup_insert_ne hkx]

/-! ### Finding modules -/

theorem statIsDir_eq_true (r : Except Errno Node) : statIsDir r = true ↔ r = .ok .dir := by
  cases r with
  | error e => simp [statIsDir]
  | ok v => cases v <;> simp [statIsDir, Node.isDir]

/-! ### The sync loop -/

theorem syncStep_lines (mod : Module) (acc : FS × SyncTally) (e : (_ : String) × Platform) :
    (syncStep mod acc e).2.lines =
      acc.2.lines ++ [(⟨mod.Name, e.1, (rawTargetPath mod e.1 e.2).clean,
        (CreateSymlink acc.1 mod.Path (rawTargetPath mod e.1 e.2).clean false).2⟩ : LinkLine)] := by
  cases hr : (CreateSymlink acc.1 mod.Path (rawTargetPath mod e.1 e.2).clean false).2 with
  | none => simp [syncStep, hr]
  | some err => simp [syncStep, hr]

theorem syncStep_tallyOK (mod : Module) (acc : FS × SyncTally) (e : (_ : String) × Platform)
    (h : tallyOK acc.2) : tallyOK (syncStep mod acc e).2 := by
  unfold tallyOK at *
  cases hr : (CreateSymlink acc.1 mod.Path (rawTargetPath mod e.1 e.2).clean false).2 with
  | none => simp [syncStep, hr, List.filter_append, h.1, h.2]
  | some err => simp [syncStep, hr, List.filter_append, h.1, h.2]

theorem syncInner (mod : Module) (es : List ((_ : String) × Platform)) :
    ∀ (acc : FS × SyncTally), tallyOK acc.2 →
      tallyOK (es.foldl (syncStep mod) acc).2 ∧
        (es.foldl (syncStep mod) acc).2.lines.map (fun l => (l.modName, l.platform)) =
          acc.2.lines.map (fun l => (l.modName, l.platform)) ++
            es.map (fun e => (mod.Name, e.1)) := by
  induction es with
  | nil => intro acc h; simp [h]
  | cons e es ih =>
    intro acc h
    rw [List.foldl_cons]
    obtain ⟨h1, h2⟩ := ih (syncStep mod acc e) (syncStep_tallyOK mod acc e h)
    refine ⟨h1, ?_⟩
    rw [h2, syncStep_lines]
    simp

theorem syncOuter (platforms : GoMap Platform) (modules : List Module) :
    ∀ (acc : FS × SyncTally), tallyOK acc.2 →
      tallyOK (modules.foldl (fun acc mod => platforms.entries.foldl (syncStep mod) acc) acc).2 ∧
        (modules.foldl (fun acc mod => platforms.entries.foldl (syncStep mod) acc)
            acc).2.lines.map (fun l => (l.modName, l.platform)) =
          acc.2.lines.map (fun l => (l.modName, l.platform)) ++
            modules.flatMap (fun m => platforms.entries.map (fun e => (m.Name, e.1))) := by
  induction modules with
  | nil => intro acc h; simp [h]
  | cons m modules ih =>
    intro acc h
    rw [List.foldl_cons]
    obtain ⟨h0, h0l⟩ := syncInner m platforms.entries acc h
    obtain ⟨h1, h2⟩ := ih _ h0
    refine ⟨h1, ?_⟩
    rw [h2, h0l]
    simp

/-! ### The diff of the detail page -/

theorem entry_of_lookup (cfg : Config) (k : String) (p : Platform)
    (h : cfg.Platforms.lookup k = some p) (e : (_ : String) × Platform)
    (he : e ∈ cfg.Platforms.entries) (hk : e.1 = k) : e = ⟨k, p⟩ := by
  obtain ⟨k2, p2⟩ := e
  simp only at hk
  subst hk
  have := AList.mem_lookup_iff.mpr he
  rw [h] at this
  cases this
  rfl

theorem toggleAt_fixedPart (ps : List platformState) (i : Nat) :
    (toggleAt ps i).map fixedPart = ps.map fixedPart := by
  induction ps generalizing i with
  | nil => rfl
  | cons p ps ih =>
    cases i with
    | zero => rfl
    | succ i => simp [toggleAt, ih]

theorem shownSet_of_mem (ps : List platformState) (h : (ps.map (fun p => p.key)).Nodup)
    (p : platformState) (hp : p ∈ ps) : shownSet ps p.key = p.selected := by
  unfold shownSet
  cases hs : p.selected with
  | true =>
    rw [List.any_eq_true]
    exact ⟨p, hp, by simp [hs]⟩
  | false =>
    rw [Bool.eq_false_iff]
    intro hany
    rw [List.any_eq_true] at hany
    obtain ⟨q, hq, hqk⟩ := hany
    simp only [Bool.and_eq_true, decide_eq_true_eq] at hqk
    have : q = p := List.inj_on_of_nodup_map h hq hp hqk.1
    subst this
    rw [hs] at hqk
    cases hqk.2

theorem withDesired_shownSet (ps : List platformState) (h : (ps.map (fun p => p.key)).Nodup) :
    withDesired (shownSet ps) ps = ps := by
  unfold withDesired
  conv_rhs => rw [← List.map_id ps]
  apply List.map_congr_left
  intro p hp
  rw [shownSet_of_mem ps h p hp]
  rfl

theorem withDesired_congr (desired : String → Bool) (ps base : List platformState)
    (h : ps.map fixedPart = base.map fixedPart) :
    withDesired desired base = withDesired desired ps := by
  have hf : ∀ l : List platformState, withDesired desired l =
      (l.map fixedPart).map (fun t =>
        ({ key := t.1, name := t.2.1, selected := desired t.1, synced := t.2.2 } : platformState)) := by
    intro l
    unfold withDesired
    rw [List.map_map]
    rfl
  rw [hf, hf, h]

theorem keys_of_fixedPart (ps base : List platformState)
    (h : ps.map fixedPart = base.map fixedPart) :
    ps.map (fun p => p.key) = base.map (fun p => p.key) := by
  have := congrArg (List.map Prod.fst) h
  simpa [List.map_map, Function.comp_def, fixedPart] using this

theorem detailLoop_desired (base : List platformState)
    (hb : (base.map (fun p => p.key)).Nodup) :
    ∀ (keys : List String) (ps : List platformState) (sel : Int) (r : ModuleDetailResult),
      ps.map fixedPart = base.map fixedPart → detailLoop ps sel keys = .returned r →
        r.Action = "apply" →
          ∃ desired : String → Bool,
            r.ToSync = (detailDiff (withDesired desired base)).1 ∧
              r.ToRemove = (detailDiff (withDesired desired base)).2 := by
  intro keys
  induction keys with
  | nil => intro ps sel r _ h; cases h
  | cons key keys ih =>
    intro ps sel r hfp h ha
    unfold detailLoop at h
    split at h
    · exact ih _ _ r hfp h ha
    · split at h
      · exact ih _ _ r hfp h ha
      · split at h
        · split at h
          · refine ih _ _ r ?_ h ha
            rw [toggleAt_fixedPart]
            exact hfp
          · cases h
        · split at h
          · cases h
            refine ⟨shownSet ps, ?_, ?_⟩
            · rw [withDesired_congr _ ps base hfp, withDesired_shownSet]
              rw [keys_of_fixedPart ps base hfp]; exact hb
            · rw [withDesired_congr _ ps base hfp, withDesired_shownSet]
              rw [keys_of_fixedPart ps base hfp]; exact hb
          · split at h
            · cases h
              exact absurd ha (by decide)
            · exact ih _ _ r hfp h ha

/-! ### Removing one link -/

theorem mem_of_entryAt (fs : FS) (p : Path) (v : Node) (h : entryAt fs p = some v) :
    (p, v) ∈ fs := by
  induction fs with
  | nil => cases h
  | cons e fs ih =>
    obtain ⟨k, w⟩ := e
    unfold entryAt at h
    by_cases hk : k = p
    · simp only [hk, if_true] at h
      cases h
      subst hk
      exact List.mem_cons_self _ _
    · simp only [hk, if_false] at h
      exact List.mem_cons_of_mem _ (ih h)

theorem detailLoop_LEFT (ps : List platformState) (sel : Int) (keys : List String) :
    detailLoop ps sel ("LEFT" :: keys) =
      .returned { Action := "apply", ToSync := (detailDiff ps).1, ToRemove := (detailDiff ps).2 } := by
  unfold detailLoop
  simp

theorem detailLoop_DOWN (ps : List platformState) (sel : Int) (keys : List String) :
    detailLoop ps sel ("DOWN" :: keys) =
      detailLoop ps (if sel < (ps.length : Int) - 1 then sel + 1 else sel) keys := by
  conv_lhs => unfold detailLoop
  simp

theorem detailLoop_SPACE (ps : List platformState) (n : Nat) (keys : List String)
    (h : n < ps.length) :
    detailLoop ps (n : Int) ("SPACE" :: keys) = detailLoop (toggleAt ps n) (n : Int) keys := by
  conv_lhs => unfold detailLoop
  have h2 : (n : Int) < (ps.length : Int) := by exact_mod_cast h
  simp [h2]

theorem toggleAt_append (done : List platformState) (p : platformState)
    (rest : List platformState) :
    toggleAt (done ++ p :: rest) done.length =
      done ++ { p with selected := !p.selected } :: rest := by
  induction done with
  | nil => rfl
  | cons d done ih => simp [toggleAt, ih]

theorem detailLoop_keysTo (desired : String → Bool) :
    ∀ (rest done : List platformState) (sel : Int),
      (rest ≠ [] → sel = (done.length : Int)) →
        detailLoop (done ++ rest) sel (keysTo desired rest) =
          .returned { Action := "apply",
                      ToSync := (detailDiff (done ++ withDesired desired rest)).1,
                      ToRemove := (detailDiff (done ++ withDesired desired rest)).2 } := by
  intro rest
  induction rest with
  | nil =>
    intro done sel _
    unfold keysTo
    rw [detailLoop_LEFT]
    rfl
  | cons p rest ih =>
    intro done sel hsel
    have hs : sel = (done.length : Int) := hsel (by simp)
    subst hs
    have hdown : ∀ (q : platformState), desired q.key = q.selected →
        detailLoop (done ++ q :: rest) (done.length : Int) ("DOWN" :: keysTo desired rest) =
          .returned { Action := "apply",
                      ToSync := (detailDiff (done ++ withDesired desired (q :: rest))).1,
                      ToRemove := (detailDiff (done ++ withDesired desired (q :: rest))).2 } := by
      intro q hq
      rw [detailLoop_DOWN]
      have hq2 : withDesired desired (q :: rest) = q :: withDesired desired rest := by
        unfold withDesired
        rw [List.map_cons, hq]
      rw [hq2]
      have happ : done ++ q :: rest = (done ++ [q]) ++ rest := by simp
      have happ2 : done ++ q :: withDesired desired rest =
          (done ++ [q]) ++ withDesired desired rest := by simp
      rw [happ, happ2]
      apply ih
      intro hne
      have hlen : 0 < rest.length := List.length_pos.mpr hne
      simp only [List.length_append, List.length_singleton, List.length_cons, Nat.cast_add,
        Nat.cast_one]
      rw [if_pos (by omega)]
      simp
    unfold keysTo
    by_cases hd : desired p.key = p.selected
    · rw [if_pos hd, List.nil_append]
      exact hdown p hd
    · rw [if_neg hd, List.singleton_append,
        detailLoop_SPACE _ _ _ (by simp), toggleAt_append]
      have hd2 : desired p.key = !p.selected := by
        cases h1 : desired p.key <;> cases h2 : p.selected <;> simp_all
      have := hdown { p with selected := !p.selected } hd2
      rw [this]
      rfl

/-! ### Listing modules -/

theorem mem_insertName (c x : String) (l : List String) :
    x ∈ insertName c l ↔ x = c ∨ x ∈ l := by
  induction l with
  | nil => simp [insertName]
  | cons d ds ih =>
    unfold insertName
    cases h : nameLt d.data c.data
    · simp only [Bool.false_eq_true, if_false, List.mem_cons]
    · simp only [if_true, List.mem_cons, ih]
      tauto

theorem nodup_insertName (c : String) (l : List String) (hc : c ∉ l) (hl : l.Nodup) :
    (insertName c l).Nodup := by
  induction l with
  | nil => simp [insertName]
  | cons d ds ih =>
    unfold insertName
    rw [List.mem_cons, not_or] at hc
    rw [List.nodup_cons] at hl
    cases h : nameLt d.data c.data
    · simp only [Bool.false_eq_true, if_false, List.nodup_cons, List.mem_cons, not_or]
      exact ⟨⟨hc.1, hc.2⟩, hl.1, hl.2⟩
    · simp only [if_true, List.nodup_cons, mem_insertName]
      refine ⟨?_, ih hc.2 hl.2⟩
      rintro (h1 | h1)
      · exact hc.1 h1.symm
      · exact hl.1 h1

theorem mem_sortNames (x : String) (l : List String) : x ∈ sortNames l ↔ x ∈ l := by
  induction l with
  | nil => simp [sortNames]
  | cons a l ih =>
    unfold sortNames at ih ⊢
    rw [List.foldr_cons, mem_insertName, ih, List.mem_cons]

theorem nodup_sortNames (l : List String) (h : l.Nodup) : (sortNames l).Nodup := by
  induction l with
  | nil => simp [sortNames]
  | cons a l ih =>
    rw [List.nodup_cons] at h
    have := nodup_insertName a (sortNames l) (by rw [mem_sortNames]; exact h.1) (ih h.2)
    unfold sortNames at this ⊢
    rw [List.foldr_cons]
    exact this

theorem entryAt_of_mem (fs : FS) (p : Path) (v : Node) (h : (p, v) ∈ fs) :
    ∃ w, entryAt fs p = some w := by
  induction fs with
  | nil => cases h
  | cons e fs ih =>
    obtain ⟨k, w⟩ := e
    unfold entryAt
    by_cases hk : k = p
    · exact ⟨w, by simp [hk]⟩
    · simp only [hk, if_false]
      rcases List.mem_cons.mp h with h1 | h1
      · cases h1
        exact absurd rfl hk
      · exact ih h1

theorem mem_namesIn (fs : FS) (q : Path) (c : String) :
    c ∈ namesIn fs q ↔ ∃ v, entryAt fs (q ++ [c]) = some v := by
  unfold namesIn
  rw [List.mem_dedup, List.mem_filterMap]
  constructor
  · rintro ⟨e, he, h⟩
    by_cases hq : e.1.dropLast = q
    · simp only [hq, if_true] at h
      have hp : e.1 = q ++ [c] := by
        rw [← hq]
        exact (path_snoc e.1 c h).symm
      obtain ⟨p, v⟩ := e
      simp only at hp
      subst hp
      exact entryAt_of_mem fs _ v he
    · simp [hq] at h
  · rintro ⟨v, hv⟩
    refine ⟨(q ++ [c], v), mem_of_entryAt fs _ v hv, ?_⟩
    simp

theorem ReadDir_spec (fs : FS) (p q : Path) (h : dirAt fs p = .ok q) :
    ∃ entries, ReadDir fs p = .ok entries ∧ (entries.map (fun e => e.1)).Nodup ∧
      ∀ c node, (c, node) ∈ entries ↔ entryAt fs (q ++ [c]) = some node := by
  unfold ReadDir
  rw [h]
  refine ⟨_, rfl, ?_, ?_⟩
  · have hnd := nodup_sortNames (namesIn fs q) (List.nodup_dedup _)
    generalize sortNames (namesIn fs q) = names at hnd
    induction names with
    | nil => simp
    | cons a l ih =>
      rw [List.nodup_cons] at hnd
      rw [List.filterMap_cons]
      cases ha : entryAt fs (q ++ [a]) with
      | none => simpa using ih hnd.2
      | some node =>
        simp only [List.map_cons, List.nodup_cons]
        refine ⟨?_, ih hnd.2⟩
        intro hmem
        rw [List.mem_map] at hmem
        obtain ⟨e, he, hea⟩ := hmem
        rw [List.mem_filterMap] at he
        obtain ⟨c, hc, hce⟩ := he
        cases hcv : entryAt fs (q ++ [c]) with
        | none => rw [hcv] at hce; cases hce
        | some w =>
          rw [hcv] at hce
          cases hce
          simp only at hea
          subst hea
          exact hnd.1 hc
  · intro c node
    rw [List.mem_filterMap]
    constructor
    · rintro ⟨c2, _, h2⟩
      cases hcv : entryAt fs (q ++ [c2]) with
      | none => rw [hcv] at h2; cases h2
      | some w =>
        rw [hcv] at h2
        cases h2
        exact hcv
    · intro hv
      refine ⟨c, ?_, by rw [hv]⟩
      rw [mem_sortNames, mem_namesIn]
      exact ⟨node, hv⟩

theorem subdirs_spec (fs : FS) (d : Path) :
    (subdirs fs d).Nodup ∧
      ∀ c, c ∈ subdirs fs d ↔ ∃ q, dirAt fs d = .ok q ∧ entryAt fs (q ++ [c]) = some .dir := by
  cases hd : dirAt fs d with
  | error e =>
    have : subdirs fs d = [] := by
      unfold subdirs ReadDir
      rw [hd]
    rw [this]
    refine ⟨List.nodup_nil, ?_⟩
    intro c
    simp
  | ok q =>
    obtain ⟨entries, hr, hnd, hmem⟩ := ReadDir_spec fs d q hd
    have hs : subdirs fs d = (entries.filter (fun e => e.2.isDir)).map (fun e => e.1) := by
      unfold subdirs
      rw [hr]
    rw [hs]
    refine ⟨hnd.sublist ((List.filter_sublist _).map _), ?_⟩
    intro c
    rw [List.mem_map]
    constructor
    · rintro ⟨e, he, hec⟩
      rw [List.mem_filter] at he
      obtain ⟨c2, node⟩ := e
      simp only at hec
      subst hec
      have := (hmem c2 node).mp he.1
      cases node with
      | dir => exact ⟨q, rfl, this⟩
      | file s => cases he.2
      | symlink t => cases he.2
    · rintro ⟨q2, hq2, he⟩
      cases hq2
      exact ⟨(c, .dir), List.mem_filter.mpr ⟨(hmem c .dir).mpr he, rfl⟩, rfl⟩

theorem listStep_foldl (unmarshal : String → Option ModuleConfig) (fs : FS) (category : String)
    (dir : Path) (entries : List (String × Node)) (modules : List Module) :
    entries.foldl (listStep unmarshal fs category dir) modules =
      modules ++ ((entries.filter (fun e => e.2.isDir)).map (fun e => e.1)).map
        (fun c => loadModule unmarshal fs c category (filepathJoin dir [c])) := by
  induction entries generalizing modules with
  | nil => simp
  | cons e entries ih =>
    rw [List.foldl_cons, ih]
    unfold listStep
    cases he : e.2.isDir
    · simp [he]
    · simp [he]

theorem ListModules_eq (unmarshal : String → Option ModuleConfig) (fs : FS) (cfg : Config) :
    ListModules unmarshal fs cfg =
      (subdirs fs (filepathJoin cfg.RepoPath ["skill"])).map
          (fun c => loadModule unmarshal fs c "skill"
            (filepathJoin (filepathJoin cfg.RepoPath ["skill"]) [c])) ++
        (subdirs fs (filepathJoin cfg.RepoPath ["agent"])).map
          (fun c => loadModule unmarshal fs c "agent"
            (filepathJoin (filepathJoin cfg.RepoPath ["agent"]) [c])) := by
  unfold ListModules subdirs
  cases h1 : ReadDir fs (filepathJoin cfg.RepoPath ["skill"]) <;>
    cases h2 : ReadDir fs (filepathJoin cfg.RepoPath ["agent"]) <;>
    simp [h1, h2, listStep_foldl]

/-! ### The description of a module -/

theorem isDescriptionLine_ne_delimiter (line : String) (h : isDescriptionLine line = true) :
    line ≠ "---" := by
  intro hl
  subst hl
  exact absurd h (by decide)

theorem scanFrontmatter_cons (line : String) (rest : List String) (b : Bool) :
    scanFrontmatter (line :: rest) b =
      if line = "---" then scanFrontmatter rest (!b)
      else if b = true ∧ isDescriptionLine line = true then some (descriptionValue line)
      else scanFrontmatter rest b := by
  conv_lhs => unfold scanFrontmatter
  by_cases h1 : line = "---"
  · simp only [h1, if_true]
  · simp only [h1, if_false]
    unfold isDescriptionLine descriptionValue
    simp only [decide_eq_true_eq]

theorem insideBlock_no_delimiter (b : Bool) (l : List String) (h : ∀ x ∈ l, x ≠ "---") :
    insideBlock b l = b := by
  induction l with
  | nil => rfl
  | cons x l ih =>
    unfold insideBlock
    rw [if_neg (h x (List.mem_cons_self _ _))]
    exact ih (fun y hy => h y (List.mem_cons_of_mem _ hy))

theorem insideBlock_append (b : Bool) (l1 l2 : List String) :
    insideBlock b (l1 ++ l2) = insideBlock (insideBlock b l1) l2 := by
  induction l1 generalizing b with
  | nil => rfl
  | cons x l ih =>
    rw [List.cons_append]
    show insideBlock (if x = "---" then !b else b) (l ++ l2) =
      insideBlock (insideBlock (if x = "---" then !b else b) l) l2
    exact ih _

theorem scanFrontmatter_found : ∀ (pre : List String) (b : Bool) (line : String)
    (post : List String), isDescriptionLine line = true → insideBlock b pre = true →
    (∀ pre1 l post1, pre = pre1 ++ l :: post1 →
      ¬ (isDescriptionLine l = true ∧ insideBlock b pre1 = true)) →
    scanFrontmatter (pre ++ line :: post) b = some (descriptionValue line) := by
  intro pre
  induction pre with
  | nil =>
    intro b line post hd hb _
    have hb2 : b = true := hb
    rw [List.nil_append, scanFrontmatter_cons, if_neg (isDescriptionLine_ne_delimiter line hd),
      if_pos ⟨hb2, hd⟩]
  | cons x pre ih =>
    intro b line post hd hb hfirst
    rw [List.cons_append, scanFrontmatter_cons]
    by_cases hx : x = "---"
    · rw [if_pos hx]
      apply ih _ line post hd
      · unfold insideBlock at hb
        rw [if_pos hx] at hb
        exact hb
      · intro pre1 l post1 hsplit
        have := hfirst (x :: pre1) l post1 (by rw [hsplit]; rfl)
        unfold insideBlock at this
        rw [if_pos hx] at this
        exact this
    · rw [if_neg hx]
      have h0 := hfirst [] x pre rfl
      rw [if_neg (by intro h; exact h0 ⟨h.2, h.1⟩)]
      apply ih _ line post hd
      · unfold insideBlock at hb
        rw [if_neg hx] at hb
        exact hb
      · intro pre1 l post1 hsplit
        have := hfirst (x :: pre1) l post1 (by rw [hsplit]; rfl)
        unfold insideBlock at this
        rw [if_neg hx] at this
        exact this

theorem scanFrontmatter_some : ∀ (lines : List String) (b : Bool) (v : String),
    scanFrontmatter lines b = some v →
    ∃ pre line post, lines = pre ++ line :: post ∧ isDescriptionLine line = true ∧
      insideBlock b pre = true ∧ v = descriptionValue line ∧
      ∀ pre1 l post1, pre = pre1 ++ l :: post1 →
        ¬ (isDescriptionLine l = true ∧ insideBlock b pre1 = true) := by
  intro lines
  induction lines with
  | nil => intro b v h; cases h
  | cons x rest ih =>
    intro b v h
    rw [scanFrontmatter_cons] at h
    by_cases hx : x = "---"
    · rw [if_pos hx] at h
      obtain ⟨pre, line, post, hs, hd, hb, hv, hf⟩ := ih _ v h
      refine ⟨x :: pre, line, post, by rw [hs]; rfl, hd, ?_, hv, ?_⟩
      · unfold insideBlock
        rw [if_pos hx]
        exact hb
      · intro pre1 l post1 hsplit
        cases pre1 with
        | nil =>
          rw [List.nil_append] at hsplit
          cases hsplit
          intro hc
          exact isDescriptionLine_ne_delimiter _ hc.1 hx
        | cons y pre1 =>
          rw [List.cons_append] at hsplit
          cases hsplit
          unfold insideBlock
          rw [if_pos hx]
          exact hf pre1 l post1 rfl
    · rw [if_neg hx] at h
      by_cases hc : b = true ∧ isDescriptionLine x = true
      · rw [if_pos hc] at h
        cases h
        refine ⟨[], x, rest, rfl, hc.2, hc.1, rfl, ?_⟩
        intro pre1 l post1 hsplit
        cases pre1 <;> cases hsplit
      · rw [if_neg hc] at h
        obtain ⟨pre, line, post, hs, hd, hb, hv, hf⟩ := ih _ v h
        refine ⟨x :: pre, line, post, by rw [hs]; rfl, hd, ?_, hv, ?_⟩
        · unfold insideBlock
          rw [if_neg hx]
          exact hb
        · intro pre1 l post1 hsplit
          cases pre1 with
          | nil =>
            rw [List.nil_append] at hsplit
            cases hsplit
            intro hc2
            exact hc ⟨hc2.2, hc2.1⟩
          | cons y pre1 =>
            rw [List.cons_append] at hsplit
            cases hsplit
            unfold insideBlock
            rw [if_neg hx]
            exact hf pre1 l post1 rfl

theorem scanFrontmatter_none (lines : List String) (b : Bool)
    (h : ∀ pre l post, lines = pre ++ l :: post →
      ¬ (isDescriptionLine l = true ∧ insideBlock b pre = true)) :
    scanFrontmatter lines b = none := by
  cases hs : scanFrontmatter lines b with
  | none => rfl
  | some v =>
    obtain ⟨pre, line, post, hsplit, hd, hb, _, _⟩ := scanFrontmatter_some lines b v hs
    exact absurd ⟨hd, hb⟩ (h pre line post hsplit)

theorem loadModuleDescription_eq (fs : FS) (path : Path) (category : String) :
    loadModuleDescription fs path category =
      match ReadFile fs (descriptorPath path category) with
      | .error _ => ""
      | .ok content =>
        match scanFrontmatter (splitLines content) false with
        | some desc => desc
        | none => firstPlainLine (splitLines content) := rfl

/-! ### The commit of the detail page and the quick sync -/

theorem detailLoop_eq_keys : ∀ (keys : List String) (ps : List platformState) (sel : Int),
    detailLoop ps sel keys = detailRunOf (detailLoopKeys ps sel keys) := by
  intro keys
  induction keys with
  | nil => intro ps sel; rfl
  | cons key keys ih =>
    intro ps sel
    unfold detailLoop detailLoopKeys
    split
    · exact ih _ _
    · split
      · exact ih _ _
      · split
        · split
          · exact ih _ _
          · rfl
        · split
          · rfl
          · split
            · rfl
            · exact ih _ _

theorem detailLoopKeys_action : ∀ (keys : List String) (ps : List platformState) (sel : Int)
    (r : ModuleDetailResult) (rest : List String), detailLoopKeys ps sel keys = .done r rest →
    r.Action = "apply" ∨ (r.Action = "quit" ∧ r.ToSync = [] ∧ r.ToRemove = []) := by
  intro keys
  induction keys with
  | nil => intro ps sel r rest h; cases h
  | cons key keys ih =>
    intro ps sel r rest h
    unfold detailLoopKeys at h
    split at h
    · exact ih _ _ r rest h
    · split at h
      · exact ih _ _ r rest h
      · split at h
        · split at h
          · exact ih _ _ r rest h
          · cases h
        · split at h
          · cases h
            exact Or.inl rfl
          · split at h
            · cases h
              exact Or.inr ⟨rfl, rfl, rfl⟩
            · exact ih _ _ r rest h

theorem applySync_calls (cfg : Config) (mod : Module) (cwd : Path) (l : List String) :
    ∀ (acc : FS × List ApplyLine),
      (l.foldl (applySyncStepRaw cfg mod cwd) acc).2.map ApplyLine.call =
        acc.2.map ApplyLine.call ++ l.map (fun k => (true, k)) := by
  induction l with
  | nil => intro acc; simp
  | cons k l ih =>
    intro acc
    rw [List.foldl_cons, ih]
    simp [applySyncStepRaw, ApplyLine.call]

theorem applyRemove_calls (cfg : Config) (mod : Module) (cwd : Path) (l : List String) :
    ∀ (acc : FS × List ApplyLine),
      (l.foldl (applyRemoveStepRaw cfg mod cwd) acc).2.map ApplyLine.call =
        acc.2.map ApplyLine.call ++ l.map (fun k => (false, k)) := by
  induction l with
  | nil => intro acc; simp
  | cons k l ih =>
    intro acc
    rw [List.foldl_cons, ih]
    simp [applyRemoveStepRaw, ApplyLine.call]

theorem applyDiff_calls (cfg : Config) (mod : Module) (cwd : Path) (fs : FS)
    (toSync toRemove : List String) :
    (applyDiffRaw cfg mod cwd fs toSync toRemove).2.map ApplyLine.call =
      toSync.map (fun k => (true, k)) ++ toRemove.map (fun k => (false, k)) := by
  unfold applyDiffRaw
  rw [applyRemove_calls, applySync_calls]
  simp

theorem handleModuleDetail_succ (cfg : Config) (mod : Module) (cwd : Path) (n : Nat) (fs : FS)
    (keys : List String) (r : ModuleDetailResult) (rest : List String)
    (h : ModuleDetailMenuKeys fs cfg mod keys = .done r rest) :
    handleModuleDetail cfg mod cwd (n + 1) fs keys =
      if r.Action = "quit" then .done (false, fs, []) rest
      else if r.Action = "apply" then
        if r.ToSync.length > 0 ∨ r.ToRemove.length > 0 then
          (ConfirmDialog (.applyChanges r.ToSync.length r.ToRemove.length) rest).andThen
            (fun confirm rest2 =>
              if confirm then
                .done (true, (applyDiffRaw cfg mod cwd fs r.ToSync r.ToRemove).1,
                  (applyDiffRaw cfg mod cwd fs r.ToSync r.ToRemove).2) rest2
              else .done (true, fs, []) rest2)
        else .done (true, fs, []) rest
      else handleModuleDetail cfg mod cwd n fs rest := by
  conv_lhs => unfold handleModuleDetail
  rw [h]
  rfl

/-! ### The use flow and the session -/

theorem mainLoop_succ (unmarshal : String → Option ModuleConfig) (cwd : Path)
    (other : String → FS → Config → List String → Keyed (Bool × FS × Config))
    (n : Nat) (fs : FS) (cfg : Config) (keys : List String) (cmd : String) (rest : List String)
    (h : InteractiveMenu keys = .done cmd rest) :
    mainLoop unmarshal cwd other (n + 1) fs cfg keys =
      if cmd = "quit" then .done fs rest
      else
        (handleInteractiveCommand unmarshal cwd other (rest.length + 1) fs cfg cmd rest).andThen
          (fun r rest2 => mainLoop unmarshal cwd other n r.2.1 r.2.2 rest2) := by
  conv_lhs => unfold mainLoop
  rw [h]
  rfl

theorem handleInteractiveUse_succ (unmarshal : String → Option ModuleConfig) (cwd : Path)
    (n : Nat) (fs : FS) (cfg : Config) (keys : List String) (result : ModuleListResult)
    (rest : List String) (h : ModuleListMenu unmarshal fs cfg keys = .done result rest) :
    handleInteractiveUse unmarshal cwd (n + 1) fs cfg keys =
      if result.Action = "back" then .done (true, fs) rest
      else if result.Action = "quit" then .done (false, fs) rest
      else if result.Action = "sync_default" then
        match result.Module with
        | none => .crashed
        | some mod =>
          (syncModuleToDefaultPlatformsKeys fs cfg mod rest).andThen
            (fun r rest2 => handleInteractiveUse unmarshal cwd n r.2.1 cfg rest2)
      else if result.Action = "sync_all_default" then
        (syncAllModulesToDefaultPlatformsKeys fs cfg result.Modules rest).andThen
          (fun r rest2 => handleInteractiveUse unmarshal cwd n r.2.1 cfg rest2)
      else if result.Action = "detail" then
        match result.Module with
        | none => .crashed
        | some mod =>
          (handleModuleDetail cfg mod cwd (n + 1) fs rest).andThen
            (fun r rest2 =>
              if r.1 = false then .done (false, r.2.1) rest2
              else handleInteractiveUse unmarshal cwd n r.2.1 cfg rest2)
      else handleInteractiveUse unmarshal cwd n fs cfg rest := by
  conv_lhs => unfold handleInteractiveUse
  rw [h]
  rfl

theorem ModuleListMenu_empty (unmarshal : String → Option ModuleConfig) (fs : FS) (cfg : Config)
    (h : ListModules unmarshal fs cfg = []) (keys : List String) :
    ModuleListMenu unmarshal fs cfg keys =
      .done { Module := none, Modules := [], Action := "quit" } keys := by
  unfold ModuleListMenu
  simp [h]

theorem ModuleListMenu_nonempty (unmarshal : String → Option ModuleConfig) (fs : FS)
    (cfg : Config) (h : ListModules unmarshal fs cfg ≠ []) (keys : List String) :
    ModuleListMenu unmarshal fs cfg keys =
      moduleListLoop (ListModules unmarshal fs cfg) 0 false keys := by
  unfold ModuleListMenu
  have : (ListModules unmarshal fs cfg).length ≠ 0 := by
    intro h0
    exact h (List.length_eq_zero.mp h0)
  simp [this]

theorem interactiveSession_after_use (unmarshal : String → Option ModuleConfig) (cwd : Path)
    (other : String → FS → Config → List String → Keyed (Bool × FS × Config))
    (fs : FS) (cfg : Config) (keys : List String)
    (huse : ∀ n keys2, handleInteractiveUse unmarshal cwd (n + 1) fs cfg keys2 =
      .done (false, fs) keys2)
    (h : InteractiveMenu keys = .done "use" []) :
    interactiveSession unmarshal cwd other fs cfg keys = .awaitingKey (.mainMenu 1) := by
  unfold interactiveSession
  cases keys with
  | nil => cases h
  | cons k keys =>
    rw [List.length_cons, mainLoop_succ unmarshal cwd other _ fs cfg _ "use" [] h]
    rw [if_neg (by decide)]
    unfold handleInteractiveCommand
    rw [if_pos rfl, huse]
    rfl

theorem indexAt_zero {α : Type} (xs : List α) (h : xs ≠ []) : ∃ x, indexAt xs 0 = some x := by
  cases xs with
  | nil => exact absurd rfl h
  | cons x xs => exact ⟨x, rfl⟩

theorem ModuleListMenu_no_keys (unmarshal : String → Option ModuleConfig) (fs : FS)
    (cfg : Config) (h : ListModules unmarshal fs cfg ≠ []) :
    ModuleListMenu unmarshal fs cfg [] = .awaitingKey (.moduleList 0 false) := by
  rw [ModuleListMenu_nonempty unmarshal fs cfg h]
  obtain ⟨x, hx⟩ := indexAt_zero _ h
  unfold moduleListLoop
  rw [hx]

theorem ListModules_ne_nil_of_action (unmarshal : String → Option ModuleConfig) (fs : FS)
    (cfg : Config) (keys rest : List String) (result : ModuleListResult)
    (h : ModuleListMenu unmarshal fs cfg keys = .done result rest)
    (ha : result.Action ≠ "quit") : ListModules unmarshal fs cfg ≠ [] := by
  intro h0
  rw [ModuleListMenu_empty unmarshal fs cfg h0] at h
  cases h
  exact ha rfl

theorem handleInteractiveUse_no_keys (unmarshal : String → Option ModuleConfig) (cwd : Path)
    (n : Nat) (fs : FS) (cfg : Config) (h : ListModules unmarshal fs cfg ≠ []) :
    handleInteractiveUse unmarshal cwd (n + 1) fs cfg [] = .awaitingKey (.moduleList 0 false) := by
  conv_lhs => unfold handleInteractiveUse
  rw [ModuleListMenu_no_keys unmarshal fs cfg h]
  rfl

/-! ### The loop bounds of the model are never used up -/

theorem Keyed.within_mono {α : Type} (k : Keyed α) (b c : Nat) (h : b ≤ c)
    (hk : k.within b) : k.within c := by
  cases k with
  | done a rest => exact Nat.le_trans hk h
  | awaitingKey s => trivial
  | crashed => trivial
  | outOfFuel => exact hk

theorem Keyed.andThen_within {α β : Type} (k : Keyed α) (f : α → List String → Keyed β)
    (b c : Nat) (hk : k.within b) (hf : ∀ a rest, rest.length ≤ b → (f a rest).within c) :
    (k.andThen f).within c := by
  cases k with
  | done a rest => exact hf a rest hk
  | awaitingKey s => trivial
  | crashed => trivial
  | outOfFuel => exact hk

theorem ConfirmDialog_within (message : Prompt) : ∀ keys : List String,
    (ConfirmDialog message keys).within (keys.length - 1) := by
  intro keys
  induction keys with
  | nil => trivial
  | cons key keys ih =>
    unfold ConfirmDialog
    split
    · exact Nat.le_refl _
    · split
      · exact Nat.le_refl _
      · exact Keyed.within_mono _ _ _ (by simp) ih

theorem WaitForKey_within (keys : List String) : (WaitForKey keys).within (keys.length - 1) := by
  cases keys with
  | nil => trivial
  | cons key keys => exact Nat.le_refl _

theorem mainMenuLoop_within : ∀ (keys : List String) (help : Bool) (selected : Int),
    (mainMenuLoop help selected keys).within (keys.length - 1) := by
  intro keys
  induction keys with
  | nil =>
    intro help selected
    cases help <;> trivial
  | cons key keys ih =>
    intro help selected
    have hrec : ∀ help sel, (mainMenuLoop help sel keys).within ((key :: keys).length - 1) :=
      fun help sel => Keyed.within_mono _ _ _ (by simp) (ih help sel)
    cases help with
    | true =>
      unfold mainMenuLoop
      exact hrec _ _
    | false =>
      unfold mainMenuLoop
      split
      · exact hrec _ _
      · split
        · exact hrec _ _
        · split
          · split
            · exact Nat.le_refl _
            · trivial
          · split
            · exact Nat.le_refl _
            · split
              · exact Nat.le_refl _
              · split
                · exact Nat.le_refl _
                · split
                  · exact Nat.le_refl _
                  · split
                    · exact Nat.le_refl _
                    · split
                      · exact hrec _ _
                      · split
                        · exact Nat.le_refl _
                        · exact hrec _ _

theorem moduleListLoop_within (modules : List Module) : ∀ (keys : List String) (selected : Int)
    (selectAll : Bool), (moduleListLoop modules selected selectAll keys).within
      (keys.length - 1) := by
  intro keys
  induction keys with
  | nil =>
    intro selected selectAll
    unfold moduleListLoop
    split <;> trivial
  | cons key keys ih =>
    intro selected selectAll
    unfold moduleListLoop
    split
    · trivial
    · split
      · exact Keyed.within_mono _ _ _ (by simp) (ih _ _)
      · exact Nat.le_refl _
      · trivial

theorem detailLoopKeys_within : ∀ (keys : List String) (ps : List platformState) (sel : Int),
    (detailLoopKeys ps sel keys).within (keys.length - 1) := by
  intro keys
  induction keys with
  | nil => intro ps sel; trivial
  | cons key keys ih =>
    intro ps sel
    have hrec : ∀ ps sel, (detailLoopKeys ps sel keys).within ((key :: keys).length - 1) :=
      fun ps sel => Keyed.within_mono _ _ _ (by simp) (ih ps sel)
    unfold detailLoopKeys
    split
    · exact hrec _ _
    · split
      · exact hrec _ _
      · split
        · split
          · exact hrec _ _
          · trivial
        · split
          · exact Nat.le_refl _
          · split
            · exact Nat.le_refl _
            · exact hrec _ _

theorem listMenuLoop_within : ∀ (keys : List String) (s : ListMenuState),
    (listMenuLoop s keys).within (keys.length - 1) := by
  intro keys
  induction keys with
  | nil => intro s; trivial
  | cons key keys ih =>
    intro s
    unfold listMenuLoop
    split
    · exact Keyed.within_mono _ _ _ (by simp) (ih _)
    · exact Nat.le_refl _

theorem defaultsLoop_within (cfg : Config) : ∀ (keys : List String)
    (ps : List DefaultsPlatformsMenu.platformState) (sel : Int),
    (defaultsLoop cfg ps sel keys).within (keys.length - 1) := by
  intro keys
  induction keys with
  | nil => intro ps sel; trivial
  | cons key keys ih =>
    intro ps sel
    have hrec : ∀ ps sel, (defaultsLoop cfg ps sel keys).within ((key :: keys).length - 1) :=
      fun ps sel => Keyed.within_mono _ _ _ (by simp) (ih ps sel)
    unfold defaultsLoop
    split
    · exact hrec _ _
    · split
      · exact hrec _ _
      · split
        · split
          · exact hrec _ _
          · trivial
        · split
          · exact Nat.le_refl _
          · split
            · exact Nat.le_refl _
            · exact hrec _ _

theorem syncModuleKeys_within (fs : FS) (cfg : Config) (mod : Module) (keys : List String) :
    (syncModuleToDefaultPlatformsKeys fs cfg mod keys).within keys.length := by
  unfold syncModuleToDefaultPlatformsKeys
  simp only
  split
  · exact Nat.le_refl _
  · refine Keyed.andThen_within _ _ _ _
      (Keyed.within_mono _ _ _ (Nat.sub_le _ _) (ConfirmDialog_within _ keys)) ?_
    intro a rest hr
    exact hr

theorem syncAllKeys_within (fs : FS) (cfg : Config) (modules : List Module)
    (keys : List String) :
    (syncAllModulesToDefaultPlatformsKeys fs cfg modules keys).within keys.length := by
  unfold syncAllModulesToDefaultPlatformsKeys
  simp only
  split
  · exact Nat.le_refl _
  · refine Keyed.andThen_within _ _ _ _
      (Keyed.within_mono _ _ _ (Nat.sub_le _ _) (ConfirmDialog_within _ keys)) ?_
    intro a rest hr
    split
    · exact hr
    · refine Keyed.andThen_within _ _ _ _
        (Keyed.within_mono _ _ _ (Nat.sub_le _ _) (WaitForKey_within rest)) ?_
      intro _ rest2 hr2
      exact Nat.le_trans hr2 hr

theorem handleModuleDetail_within (cfg : Config) (mod : Module) (cwd : Path) (n : Nat)
    (fs : FS) (keys : List String) :
    (handleModuleDetail cfg mod cwd (n + 1) fs keys).within (keys.length - 1) := by
  cases hm : ModuleDetailMenuKeys fs cfg mod keys with
  | done r rest =>
    have hw := detailLoopKeys_within keys (detailPlatformsRaw fs cfg mod) 0
    unfold ModuleDetailMenuKeys at hm
    rw [hm] at hw
    have hrest : rest.length ≤ keys.length - 1 := hw
    rw [handleModuleDetail_succ cfg mod cwd n fs keys r rest hm]
    rcases detailLoopKeys_action keys _ 0 r rest hm with ha | ⟨ha, _, _⟩
    · rw [ha, if_neg (by decide), if_pos rfl]
      split
      · refine Keyed.andThen_within _ _ _ _
          (Keyed.within_mono _ _ _ (Nat.sub_le _ _) (ConfirmDialog_within _ rest)) ?_
        intro a rest2 hr2
        split
        · exact Nat.le_trans hr2 hrest
        · exact Nat.le_trans hr2 hrest
      · exact hrest
    · rw [ha, if_pos rfl]
      exact hrest
  | awaitingKey s =>
    conv => arg 2; unfold handleModuleDetail
    rw [hm]
    trivial
  | crashed =>
    conv => arg 2; unfold handleModuleDetail
    rw [hm]
    trivial
  | outOfFuel =>
    have hw := detailLoopKeys_within keys (detailPlatformsRaw fs cfg mod) 0
    unfold ModuleDetailMenuKeys at hm
    rw [hm] at hw
    exact absurd hw id

theorem ModuleListMenu_within (unmarshal : String → Option ModuleConfig) (fs : FS)
    (cfg : Config) (keys : List String) :
    (ModuleListMenu unmarshal fs cfg keys).within keys.length ∧
      ∀ result rest, ModuleListMenu unmarshal fs cfg keys = .done result rest →
        result.Action ≠ "quit" → rest.length < keys.length := by
  by_cases h : ListModules unmarshal fs cfg = []
  · rw [ModuleListMenu_empty unmarshal fs cfg h]
    refine ⟨Nat.le_refl _, ?_⟩
    intro result rest hr ha
    cases hr
    exact absurd rfl ha
  · rw [ModuleListMenu_nonempty unmarshal fs cfg h]
    have hw := moduleListLoop_within (ListModules unmarshal fs cfg) keys 0 false
    refine ⟨Keyed.within_mono _ _ _ (Nat.sub_le _ _) hw, ?_⟩
    intro result rest hr _
    rw [hr] at hw
    have h1 : rest.length ≤ keys.length - 1 := hw
    cases keys with
    | nil =>
      obtain ⟨x, hx⟩ := indexAt_zero _ h
      unfold moduleListLoop at hr
      rw [hx] at hr
      cases hr
    | cons k keys =>
      simp only [List.length_cons, Nat.add_sub_cancel] at h1
      simp only [List.length_cons]
      omega

theorem handleInteractiveUse_within (unmarshal : String → Option ModuleConfig) (cwd : Path)
    (cfg : Config) : ∀ (n : Nat) (fs : FS) (keys : List String), keys.length < n →
    (handleInteractiveUse unmarshal cwd n fs cfg keys).within keys.length := by
  intro n
  induction n with
  | zero => intro fs keys h; exact absurd h (Nat.not_lt_zero _)
  | succ n ih =>
    intro fs keys h
    obtain ⟨hw, hlt⟩ := ModuleListMenu_within unmarshal fs cfg keys
    cases hm : ModuleListMenu unmarshal fs cfg keys with
    | done result rest =>
      rw [hm] at hw
      have hrest : rest.length ≤ keys.length := hw
      have hrec : ∀ fs2 rest2, result.Action ≠ "quit" → rest2.length ≤ rest.length →
          (handleInteractiveUse unmarshal cwd n fs2 cfg rest2).within keys.length := by
        intro fs2 rest2 ha hr2
        have := hlt result rest hm ha
        exact Keyed.within_mono _ _ _ (by omega) (ih fs2 rest2 (by omega))
      rw [handleInteractiveUse_succ unmarshal cwd n fs cfg keys result rest hm]
      split
      · exact hrest
      · split
        · exact hrest
        · rename_i hq
          split
          · cases result.Module with
            | none => trivial
            | some mod =>
              refine Keyed.andThen_within _ _ _ _ (syncModuleKeys_within fs cfg mod rest) ?_
              intro r rest2 hr2
              exact hrec _ _ hq hr2
          · split
            · refine Keyed.andThen_within _ _ _ _
                (syncAllKeys_within fs cfg result.Modules rest) ?_
              intro r rest2 hr2
              exact hrec _ _ hq hr2
            · split
              · cases result.Module with
                | none => trivial
                | some mod =>
                  refine Keyed.andThen_within _ _ _ _
                    (Keyed.within_mono _ _ _ (Nat.sub_le _ _)
                      (handleModuleDetail_within cfg mod cwd n fs rest)) ?_
                  intro r rest2 hr2
                  split
                  · exact Nat.le_trans hr2 hrest
                  · exact hrec _ _ hq hr2
              · exact hrec _ _ hq (Nat.le_refl _)
    | awaitingKey s =>
      conv => arg 2; unfold handleInteractiveUse
      rw [hm]
      trivial
    | crashed =>
      conv => arg 2; unfold handleInteractiveUse
      rw [hm]
      trivial
    | outOfFuel =>
      rw [hm] at hw
      exact absurd hw id

theorem handleInteractiveCommand_within (unmarshal : String → Option ModuleConfig) (cwd : Path)
    (other : String → FS → Config → List String → Keyed (Bool × FS × Config))
    (hother : ∀ cmd fs cfg keys, (other cmd fs cfg keys).within keys.length)
    (fs : FS) (cfg : Config) (cmd : String) (keys : List String) :
    (handleInteractiveCommand unmarshal cwd other (keys.length + 1) fs cfg cmd keys).within
      keys.length := by
  unfold handleInteractiveCommand
  split
  · refine Keyed.andThen_within _ _ _ _
      (handleInteractiveUse_within unmarshal cwd cfg _ fs keys (Nat.lt_succ_self _)) ?_
    intro r rest hr
    exact hr
  · split
    · refine Keyed.andThen_within _ _ _ _
        (Keyed.within_mono _ _ _ (Nat.sub_le _ _) (listMenuLoop_within keys _)) ?_
      intro r rest hr
      exact hr
    · split
      · refine Keyed.andThen_within _ _ _ _
          (Keyed.within_mono _ _ _ (Nat.sub_le _ _) (defaultsLoop_within cfg keys _ 0)) ?_
        intro r rest hr
        exact hr
      · exact hother _ _ _ _

theorem mainLoop_within (unmarshal : String → Option ModuleConfig) (cwd : Path)
    (other : String → FS → Config → List String → Keyed (Bool × FS × Config))
    (hother : ∀ cmd fs cfg keys, (other cmd fs cfg keys).within keys.length) :
    ∀ (n : Nat) (fs : FS) (cfg : Config) (keys : List String), keys.length < n →
      (mainLoop unmarshal cwd other n fs cfg keys).within keys.length := by
  intro n
  induction n with
  | zero => intro fs cfg keys h; exact absurd h (Nat.not_lt_zero _)
  | succ n ih =>
    intro fs cfg keys h
    have hw := mainMenuLoop_within keys false 1
    cases hm : InteractiveMenu keys with
    | done cmd rest =>
      unfold InteractiveMenu at hm
      rw [hm] at hw
      have hrest : rest.length ≤ keys.length - 1 := hw
      have hpos : 0 < keys.length := by
        cases keys with
        | nil => cases hm
        | cons k keys => simp
      rw [mainLoop_succ unmarshal cwd other n fs cfg keys cmd rest hm]
      split
      · show rest.length ≤ keys.length
        omega
      · refine Keyed.andThen_within _ _ _ _
          (handleInteractiveCommand_within unmarshal cwd other hother fs cfg cmd rest) ?_
        intro r rest2 hr2
        exact Keyed.within_mono _ _ _ (by omega) (ih r.2.1 r.2.2 rest2 (by omega))
    | awaitingKey s =>
      conv => arg 2; unfold mainLoop
      rw [hm]
      trivial
    | crashed =>
      conv => arg 2; unfold mainLoop
      rw [hm]
      trivial
    | outOfFuel =>
      unfold InteractiveMenu at hm
      rw [hm] at hw
      exact absurd hw id

/-- The bound `interactiveSession` gives to the loop of `main` is never used
up, when the handlers that are not modelled leave no more keys than they got. -/
theorem interactiveSession_ne_outOfFuel (unmarshal : String → Option ModuleConfig) (cwd : Path)
    (other : String → FS → Config → List String → Keyed (Bool × FS × Config))
    (hother : ∀ cmd fs cfg keys, (other cmd fs cfg keys).within keys.length)
    (fs : FS) (cfg : Config) (keys : List String) :
    interactiveSession unmarshal cwd other fs cfg keys ≠ .outOfFuel := by
  have := mainLoop_within unmarshal cwd other hother (keys.length + 1) fs cfg keys
    (Nat.lt_succ_self _)
  unfold interactiveSession
  intro h
  rw [h] at this
  exact this

/-! ### The cursor of the detail page and of the defaults page -/

theorem toggleAt_length (ps : List platformState) (i : Nat) :
    (toggleAt ps i).length = ps.length := by
  have := congrArg List.length (toggleAt_keys ps i)
  simpa using this

theorem defaultsToggleAt_length (ps : List DefaultsPlatformsMenu.platformState) (i : Nat) :
    (defaultsToggleAt ps i).length = ps.length := by
  induction ps generalizing i with
  | nil => rfl
  | cons p ps ih =>
    cases i with
    | zero => rfl
    | succ i => simp [defaultsToggleAt, ih]

theorem detailLoop_in_range : ∀ (keys : List String) (ps : List platformState) (sel : Int),
    0 ≤ sel → sel < (ps.length : Int) → detailLoop ps sel keys ≠ .indexOutOfRange := by
  intro keys
  induction keys with
  | nil => intro ps sel _ _ h; cases h
  | cons key keys ih =>
    intro ps sel h0 h1
    unfold detailLoop
    split
    · apply ih
      · split <;> omega
      · split <;> omega
    · split
      · apply ih
        · split <;> omega
        · split <;> omega
      · split
        · rw [if_pos ⟨h0, h1⟩]
          apply ih _ _ h0
          rw [toggleAt_length]
          exact h1
        · split
          · intro h; cases h
          · split
            · intro h; cases h
            · exact ih _ _ h0 h1

theorem defaultsLoop_in_range (cfg : Config) : ∀ (keys : List String)
    (ps : List DefaultsPlatformsMenu.platformState) (sel : Int),
    0 ≤ sel → sel < (ps.length : Int) → defaultsLoop cfg ps sel keys ≠ .crashed := by
  intro keys
  induction keys with
  | nil => intro ps sel _ _ h; cases h
  | cons key keys ih =>
    intro ps sel h0 h1
    unfold defaultsLoop
    split
    · apply ih
      · split <;> omega
      · split <;> omega
    · split
      · apply ih
        · split <;> omega
        · split <;> omega
      · split
        · rw [if_pos ⟨h0, h1⟩]
          apply ih _ _ h0
          rw [defaultsToggleAt_length]
          exact h1
        · split
          · intro h; cases h
          · split
            · intro h; cases h
            · exact ih _ _ h0 h1

/-! ### Reordering the platform view -/

theorem GetOrderedPlatformKeys_nodup (cfg : Config) : cfg.GetOrderedPlatformKeys.Nodup := by
  rw [GetOrderedPlatformKeys_eq, List.nodup_append]
  refine ⟨firstOccurrences_nodup _, cfg.Platforms.keys_nodup.filter _, ?_⟩
  intro k h1 h2
  rw [mem_firstOccurrences, List.mem_filter] at h1
  rw [List.mem_filter] at h2
  simp only [decide_eq_true_eq] at h2
  exact h2.2 h1.1

theorem swapKeys_cons_succ (a : String) (l : List String) (i j : Nat) :
    swapKeys (a :: l) (i + 1) (j + 1) = a :: swapKeys l i j := by
  simp [swapKeys, List.getD]

theorem swapKeys_perm_up : ∀ (l : List String) (i : Nat), i + 1 < l.length →
    (swapKeys l (i + 1) i).Perm l := by
  intro l i
  induction i generalizing l with
  | zero =>
    intro h
    match l, h with
    | x :: y :: rest, _ =>
      have : swapKeys (x :: y :: rest) 1 0 = y :: x :: rest := by
        simp [swapKeys, List.getD]
      rw [this]
      exact List.Perm.swap x y rest
  | succ i ih =>
    intro h
    match l, h with
    | x :: rest, h =>
      rw [swapKeys_cons_succ]
      exact List.Perm.cons x (ih rest (by simpa using h))

theorem swapKeys_perm_down : ∀ (l : List String) (i : Nat), i + 1 < l.length →
    (swapKeys l i (i + 1)).Perm l := by
  intro l i
  induction i generalizing l with
  | zero =>
    intro h
    match l, h with
    | x :: y :: rest, _ =>
      have : swapKeys (x :: y :: rest) 0 1 = y :: x :: rest := by
        simp [swapKeys, List.getD]
      rw [this]
      exact List.Perm.swap x y rest
  | succ i ih =>
    intro h
    match l, h with
    | x :: rest, h =>
      rw [swapKeys_cons_succ]
      exact List.Perm.cons x (ih rest (by simpa using h))

theorem swapKeys_length (l : List String) (i j : Nat) : (swapKeys l i j).length = l.length := by
  simp [swapKeys]

theorem swapKeys_get (l : List String) (i j : Nat) (hi : i < l.length) (hj : j < l.length)
    (hne : i ≠ j) :
    (swapKeys l i j).get? i = l.get? j ∧ (swapKeys l i j).get? j = l.get? i ∧
      ∀ k, k ≠ i → k ≠ j → (swapKeys l i j).get? k = l.get? k := by
  unfold swapKeys
  simp only [List.get?_eq_getElem?]
  refine ⟨?_, ?_, ?_⟩
  · rw [List.getElem?_set_ne (Ne.symm hne), List.getElem?_set_self hi]
    simp [List.getD, List.getElem?_eq_getElem hj]
  · rw [List.getElem?_set_self (by simpa using hj)]
    simp [List.getD, List.getElem?_eq_getElem hi]
  · intro k hki hkj
    rw [List.getElem?_set_ne (Ne.symm hkj), List.getElem?_set_ne (Ne.symm hki)]

theorem listMenuOK_start (cfg : Config) : listMenuOK cfg (listMenuStart cfg) := by
  refine ⟨List.Perm.refl _, le_refl _, ?_, fun _ => rfl, Or.inr ⟨rfl, rfl⟩⟩
  intro h
  show (0 : Int) < (cfg.GetOrderedPlatformKeys.length : Int)
  exact_mod_cast List.length_pos.mpr h

theorem listMenuKey_moveup (s : ListMenuState) (h : s.mode = 1 ∧ s.selected > 0) :
    listMenuKey s "MOVEUP" = some (movedState s (s.selected - 1)) := by
  unfold listMenuKey movedState
  simp [h]

theorem listMenuKey_movedown (s : ListMenuState)
    (h : s.mode = 1 ∧ s.selected < (s.platformKeys.length : Int) - 1) :
    listMenuKey s "MOVEDOWN" = some (movedState s (s.selected + 1)) := by
  unfold listMenuKey movedState
  simp [h]

theorem listMenuKey_idle_moveup (s : ListMenuState) (h : ¬ (s.mode = 1 ∧ s.selected > 0)) :
    listMenuKey s "MOVEUP" = some s := by
  unfold listMenuKey
  simp only [if_neg h]
  simp

theorem listMenuKey_idle_movedown (s : ListMenuState)
    (h : ¬ (s.mode = 1 ∧ s.selected < (s.platformKeys.length : Int) - 1)) :
    listMenuKey s "MOVEDOWN" = some s := by
  unfold listMenuKey
  simp only [if_neg h]
  simp

theorem listMenuKey_ok (cfg : Config) (s s2 : ListMenuState) (key : String)
    (hs : listMenuOK cfg s) (h : listMenuKey s key = some s2) : listMenuOK cfg s2 := by
  obtain ⟨hp, h0, h1, h2, h3⟩ := hs
  have hcur : s.platformKeys ≠ [] → s.selected.toNat < s.platformKeys.length := by
    intro hne
    have := h1 hne
    omega
  unfold listMenuKey at h
  split at h
  · cases h
    refine ⟨hp, le_refl _, ?_, fun _ => rfl, h3⟩
    intro hne
    show (0 : Int) < _
    exact_mod_cast List.length_pos.mpr hne
  · split at h
    · split at h
      · cases h
        rename_i hc
        refine ⟨hp, ?_, ?_, ?_, h3⟩
        · show 0 ≤ s.selected - 1
          omega
        · intro hne
          have := h1 hne
          show s.selected - 1 < (s.platformKeys.length : Int)
          omega
        · intro he
          have := h2 he
          omega
      · cases h
        exact ⟨hp, h0, h1, h2, h3⟩
    · split at h
      · split at h
        · cases h
          rename_i hc
          refine ⟨hp, ?_, ?_, ?_, h3⟩
          · show 0 ≤ s.selected + 1
            omega
          · intro _
            show s.selected + 1 < (s.platformKeys.length : Int)
            omega
          · intro he
            rw [he] at hc
            simp at hc
            omega
        · cases h
          exact ⟨hp, h0, h1, h2, h3⟩
      · split at h
        · split at h
          · rename_i hc
            cases h
            have hne : s.platformKeys ≠ [] := by
              intro he
              have := h2 he
              omega
            have hlt := hcur hne
            have hidx : (s.selected - 1).toNat + 1 = s.selected.toNat := by omega
            refine ⟨?_, ?_, ?_, ?_, Or.inl rfl⟩
            · refine List.Perm.trans ?_ hp
              show (swapKeys s.platformKeys s.selected.toNat (s.selected - 1).toNat).Perm _
              rw [← hidx]
              exact swapKeys_perm_up _ _ (by omega)
            · show 0 ≤ s.selected - 1
              omega
            · intro _
              show s.selected - 1 < ((swapKeys _ _ _).length : Int)
              rw [swapKeys_length]
              have := h1 hne
              omega
            · intro he
              exfalso
              have hl := congrArg List.length he
              change (swapKeys _ _ _).length = 0 at hl
              rw [swapKeys_length] at hl
              omega
          · cases h
            exact ⟨hp, h0, h1, h2, h3⟩
        · split at h
          · split at h
            · rename_i hc
              cases h
              have hne : s.platformKeys ≠ [] := by
                intro he
                rw [he] at hc
                simp at hc
                omega
              have hlt := hcur hne
              have hidx : (s.selected + 1).toNat = s.selected.toNat + 1 := by omega
              refine ⟨?_, ?_, ?_, ?_, Or.inl rfl⟩
              · refine List.Perm.trans ?_ hp
                show (swapKeys s.platformKeys s.selected.toNat (s.selected + 1).toNat).Perm _
                rw [hidx]
                exact swapKeys_perm_down _ _ (by omega)
              · show 0 ≤ s.selected + 1
                omega
              · intro _
                show s.selected + 1 < ((swapKeys _ _ _).length : Int)
                rw [swapKeys_length]
                omega
              · intro he
                exfalso
                have hl := congrArg List.length he
                change (swapKeys _ _ _).length = 0 at hl
                rw [swapKeys_length] at hl
                omega
            · cases h
              exact ⟨hp, h0, h1, h2, h3⟩
          · split at h
            · cases h
            · cases h
              exact ⟨hp, h0, h1, h2, h3⟩

theorem listMenuAfter_ok (cfg : Config) : ∀ (keys : List String) (s s2 : ListMenuState),
    listMenuOK cfg s → listMenuAfter s keys = some s2 → listMenuOK cfg s2 := by
  intro keys
  induction keys with
  | nil =>
    intro s s2 hs h
    cases h
    exact hs
  | cons key keys ih =>
    intro s s2 hs h
    unfold listMenuAfter at h
    cases hk : listMenuKey s key with
    | none => rw [hk] at h; cases h
    | some s1 =>
      rw [hk] at h
      exact ih s1 s2 (listMenuKey_ok cfg s s1 key hs hk) h

theorem listMenuLoop_of_after : ∀ (keys : List String) (s s2 : ListMenuState),
    listMenuAfter s keys = some s2 →
      listMenuLoop s keys = .awaitingKey (.platformList s2.mode s2.selected s2.platformKeys) := by
  intro keys
  induction keys with
  | nil =>
    intro s s2 h
    cases h
    rfl
  | cons key keys ih =>
    intro s s2 h
    unfold listMenuAfter at h
    unfold listMenuLoop
    cases hk : listMenuKey s key with
    | none => rw [hk] at h; cases h
    | some s1 =>
      rw [hk] at h
      exact ih s1 s2 h

/-! ### The status loop and the detail page on the strings they build -/

theorem IsSymlinkRaw_eq (fs : FS) (r : RawPath) :
    IsSymlinkRaw fs r = match LstatRaw fs r with
      | .ok (.symlink _) => true
      | _ => false := by
  unfold IsSymlinkRaw
  cases LstatRaw fs r with
  | error e => rfl
  | ok v => cases v <;> rfl

theorem ReadlinkRaw_of_LstatRaw (fs : FS) (r : RawPath) (d : Path)
    (h : LstatRaw fs r = .ok (.symlink d)) : ReadlinkRaw fs r = .ok d := by
  unfold LstatRaw at h
  unfold ReadlinkRaw
  cases hr : lookupRaw fs false r with
  | error e => rw [hr] at h; cases h
  | ok x =>
    obtain ⟨m, q, v⟩ := x
    rw [hr] at h
    simp only at h
    cases h
    rfl

/-- The healthy branch of the status loop is taken exactly when `lstat` on the
string as written finds a link to the module path. -/
theorem linkHealthRaw_healthy_iff (fs : FS) (mod : Module) (name : String) (p : Platform) :
    linkHealthRaw fs mod name p = .healthy ↔
      LstatRaw fs (rawTargetPath mod name p) = .ok (.symlink mod.Path) := by
  unfold linkHealthRaw
  simp only [IsSymlinkRaw_eq]
  cases hl : LstatRaw fs (rawTargetPath mod name p) with
  | error e => simp; split <;> simp
  | ok v =>
    cases v with
    | dir => simp; split <;> simp
    | file s => simp; split <;> simp
    | symlink d =>
      simp [ReadSymlinkRaw, ReadlinkRaw_of_LstatRaw fs _ d hl, realPathOf]

theorem detailPlatformsRaw_keys (fs : FS) (cfg : Config) (mod : Module) :
    (detailPlatformsRaw fs cfg mod).map (fun p => p.key) = cfg.Platforms.keys := by
  unfold detailPlatformsRaw
  simp [AList.keys, List.keys, List.map_map, Function.comp_def]

theorem desiredDiffRaw_eq (fs : FS) (cfg : Config) (mod : Module) (desired : String → Bool) :
    desiredDiffRaw fs cfg mod desired =
      ((cfg.Platforms.entries.filter (fun e =>
          desired e.1 && !IsSymlinkRaw fs (rawTargetPath mod e.1 e.2))).map (fun e => e.1),
       (cfg.Platforms.entries.filter (fun e =>
          !desired e.1 && IsSymlinkRaw fs (rawTargetPath mod e.1 e.2))).map (fun e => e.1)) := by
  unfold desiredDiffRaw withDesired detailPlatformsRaw
  rw [detailDiff_eq]
  simp only [List.map_map, List.filter_map, Function.comp_def]

theorem mem_desiredDiffRaw_fst (fs : FS) (cfg : Config) (mod : Module) (desired : String → Bool)
    (k : String) (p : Platform) (h : cfg.Platforms.lookup k = some p) :
    k ∈ (desiredDiffRaw fs cfg mod desired).1 ↔
      desired k = true ∧ IsSymlinkRaw fs (rawTargetPath mod k p) = false := by
  rw [desiredDiffRaw_eq]
  simp only [List.mem_map, List.mem_filter, Bool.and_eq_true, Bool.not_eq_true']
  constructor
  · rintro ⟨e, ⟨he, h1, h2⟩, hk⟩
    have := entry_of_lookup cfg k p h e he hk
    subst this
    exact ⟨h1, h2⟩
  · rintro ⟨h1, h2⟩
    exact ⟨⟨k, p⟩, ⟨AList.mem_lookup_iff.mp h, h1, h2⟩, rfl⟩

theorem mem_desiredDiffRaw_snd (fs : FS) (cfg : Config) (mod : Module) (desired : String → Bool)
    (k : String) (p : Platform) (h : cfg.Platforms.lookup k = some p) :
    k ∈ (desiredDiffRaw fs cfg mod desired).2 ↔
      desired k = false ∧ IsSymlinkRaw fs (rawTargetPath mod k p) = true := by
  rw [desiredDiffRaw_eq]
  simp only [List.mem_map, List.mem_filter, Bool.and_eq_true, Bool.not_eq_true']
  constructor
  · rintro ⟨e, ⟨he, h1, h2⟩, hk⟩
    have := entry_of_lookup cfg k p h e he hk
    subst this
    exact ⟨h1, h2⟩
  · rintro ⟨h1, h2⟩
    exact ⟨⟨k, p⟩, ⟨AList.mem_lookup_iff.mp h, h1, h2⟩, rfl⟩

theorem mem_desiredDiffRaw_keys (fs : FS) (cfg : Config) (mod : Module)
    (desired : String → Bool) (k : String)
    (h : k ∈ (desiredDiffRaw fs cfg mod desired).1 ∨ k ∈ (desiredDiffRaw fs cfg mod desired).2) :
    k ∈ cfg.Platforms.keys := by
  rw [desiredDiffRaw_eq] at h
  simp only [List.mem_map, List.mem_filter] at h
  rcases h with ⟨e, ⟨he, _⟩, hk⟩ | ⟨e, ⟨he, _⟩, hk⟩
  · subst hk; exact List.mem_keys_of_mem he
  · subst hk; exact List.mem_keys_of_mem he

theorem ModuleDetailMenuRaw_reaches (fs : FS) (cfg : Config) (mod : Module)
    (desired : String → Bool) :
    ModuleDetailMenuRaw fs cfg mod (keysTo desired (detailPlatformsRaw fs cfg mod)) =
      .returned { Action := "apply", ToSync := (desiredDiffRaw fs cfg mod desired).1,
                  ToRemove := (desiredDiffRaw fs cfg mod desired).2 } := by
  have := detailLoop_keysTo desired (detailPlatformsRaw fs cfg mod) [] 0 (fun _ => rfl)
  simpa [ModuleDetailMenuRaw, desiredDiffRaw] using this

/-! ### Create, read back and remove -/

theorem runCalls_create (fs : FS) (s t : Path) (rest : List LinkCall) :
    runCalls fs (.create s t :: rest) =
      ((runCalls (CreateSymlink fs s t false).1 rest).1,
        (CreateSymlink fs s t false).2 :: (runCalls (CreateSymlink fs s t false).1 rest).2) := rfl

theorem runCalls_remove (fs : FS) (t : Path) (rest : List LinkCall) :
    runCalls fs (.remove t :: rest) =
      ((runCalls (RemoveSymlink fs t).1 rest).1,
        (RemoveSymlink fs t).2 :: (runCalls (RemoveSymlink fs t).1 rest).2) := rfl

theorem runCalls_append (a : List LinkCall) : ∀ (fs : FS) (b : List LinkCall),
    runCalls fs (a ++ b) =
      ((runCalls (runCalls fs a).1 b).1, (runCalls fs a).2 ++ (runCalls (runCalls fs a).1 b).2) := by
  induction a with
  | nil => intro fs b; rfl
  | cons x a ih =>
    intro fs b
    cases x with
    | create s t =>
      rw [List.cons_append, runCalls_create, runCalls_create, ih]
      rfl
    | remove t =>
      rw [List.cons_append, runCalls_remove, runCalls_remove, ih]
      rfl

theorem syncStep_fs (mod : Module) (acc : FS × SyncTally) (e : (_ : String) × Platform) :
    (syncStep mod acc e).1 =
      (CreateSymlink acc.1 mod.Path (rawTargetPath mod e.1 e.2).clean false).1 := by
  cases hr : (CreateSymlink acc.1 mod.Path (rawTargetPath mod e.1 e.2).clean false).2 with
  | none => simp [syncStep, hr]
  | some err => simp [syncStep, hr]

theorem syncInner_calls (mod : Module) (es : List ((_ : String) × Platform)) :
    ∀ (acc : FS × SyncTally),
      (es.foldl (syncStep mod) acc).1 =
          (runCalls acc.1
            (es.map (fun e => LinkCall.create mod.Path (rawTargetPath mod e.1 e.2).clean))).1 ∧
        (es.foldl (syncStep mod) acc).2.lines.map (fun l => l.err) =
          acc.2.lines.map (fun l => l.err) ++
            (runCalls acc.1
              (es.map (fun e => LinkCall.create mod.Path (rawTargetPath mod e.1 e.2).clean))).2 := by
  induction es with
  | nil => intro acc; simp [runCalls]
  | cons e es ih =>
    intro acc
    rw [List.foldl_cons, List.map_cons]
    obtain ⟨h1, h2⟩ := ih (syncStep mod acc e)
    rw [h1, h2, syncStep_lines, syncStep_fs, runCalls_create]
    simp

theorem syncOuter_calls (platforms : GoMap Platform) (modules : List Module) :
    ∀ (acc : FS × SyncTally),
      (modules.foldl (fun acc mod => platforms.entries.foldl (syncStep mod) acc) acc).1 =
          (runCalls acc.1 (modules.flatMap (fun m => platforms.entries.map (fun e =>
            LinkCall.create m.Path (rawTargetPath m e.1 e.2).clean)))).1 ∧
        (modules.foldl (fun acc mod => platforms.entries.foldl (syncStep mod) acc)
            acc).2.lines.map (fun l => l.err) =
          acc.2.lines.map (fun l => l.err) ++
            (runCalls acc.1 (modules.flatMap (fun m => platforms.entries.map (fun e =>
              LinkCall.create m.Path (rawTargetPath m e.1 e.2).clean)))).2 := by
  induction modules with
  | nil => intro acc; simp [runCalls]
  | cons m modules ih =>
    intro acc
    rw [List.foldl_cons, List.flatMap_cons, runCalls_append]
    obtain ⟨h0, h0l⟩ := syncInner_calls m platforms.entries acc
    obtain ⟨h1, h2⟩ := ih (platforms.entries.foldl (syncStep m) acc)
    rw [h1, h2, h0, h0l]
    simp

theorem applySyncRaw_runs (cfg : Config) (mod : Module) (cwd : Path) (l : List String) :
    ∀ (acc : FS × List ApplyLine),
      (l.foldl (applySyncStepRaw cfg mod cwd) acc).1 =
          (runCalls acc.1 (l.map (fun k =>
            LinkCall.create mod.Path (rawTargetPath mod k (platformAt cfg cwd k)).clean))).1 ∧
        (l.foldl (applySyncStepRaw cfg mod cwd) acc).2.map ApplyLine.err =
          acc.2.map ApplyLine.err ++
            (runCalls acc.1 (l.map (fun k =>
              LinkCall.create mod.Path (rawTargetPath mod k (platformAt cfg cwd k)).clean))).2 := by
  induction l with
  | nil => intro acc; simp [runCalls]
  | cons k l ih =>
    intro acc
    rw [List.foldl_cons, List.map_cons]
    obtain ⟨h1, h2⟩ := ih (applySyncStepRaw cfg mod cwd acc k)
    rw [h1, h2, runCalls_create]
    simp [applySyncStepRaw, ApplyLine.err]

theorem applyRemoveRaw_runs (cfg : Config) (mod : Module) (cwd : Path) (l : List String) :
    ∀ (acc : FS × List ApplyLine),
      (l.foldl (applyRemoveStepRaw cfg mod cwd) acc).1 =
          (runCalls acc.1 (l.map (fun k =>
            LinkCall.remove (rawTargetPath mod k (platformAt cfg cwd k)).clean))).1 ∧
        (l.foldl (applyRemoveStepRaw cfg mod cwd) acc).2.map ApplyLine.err =
          acc.2.map ApplyLine.err ++
            (runCalls acc.1 (l.map (fun k =>
              LinkCall.remove (rawTargetPath mod k (platformAt cfg cwd k)).clean))).2 := by
  induction l with
  | nil => intro acc; simp [runCalls]
  | cons k l ih =>
    intro acc
    rw [List.foldl_cons, List.map_cons]
    obtain ⟨h1, h2⟩ := ih (applyRemoveStepRaw cfg mod cwd acc k)
    rw [h1, h2, runCalls_remove]
    simp [applyRemoveStepRaw, ApplyLine.err]

/-- The apply step is the sequence of its calls: one `CreateSymlink` per key
of `toSync`, then one `RemoveSymlink` per key of `toRemove`. -/
theorem applyDiffRaw_runs (cfg : Config) (mod : Module) (cwd : Path) (fs : FS)
    (toSync toRemove : List String) :
    (applyDiffRaw cfg mod cwd fs toSync toRemove).1 =
        (runCalls fs
          (toSync.map (fun k =>
              LinkCall.create mod.Path (rawTargetPath mod k (platformAt cfg cwd k)).clean) ++
            toRemove.map (fun k =>
              LinkCall.remove (rawTargetPath mod k (platformAt cfg cwd k)).clean))).1 ∧
      (applyDiffRaw cfg mod cwd fs toSync toRemove).2.map ApplyLine.err =
        (runCalls fs
          (toSync.map (fun k =>
              LinkCall.create mod.Path (rawTargetPath mod k (platformAt cfg cwd k)).clean) ++
            toRemove.map (fun k =>
              LinkCall.remove (rawTargetPath mod k (platformAt cfg cwd k)).clean))).2 := by
  unfold applyDiffRaw
  rw [runCalls_append]
  obtain ⟨a1, a2⟩ := applySyncRaw_runs cfg mod cwd toSync (fs, [])
  obtain ⟨b1, b2⟩ := applyRemoveRaw_runs cfg mod cwd toRemove
    (toSync.foldl (applySyncStepRaw cfg mod cwd) (fs, []))
  rw [b1, b2, a1, a2]
  simp

/-! ### Trimming and the first plain line -/

theorem dropBlanks_spec (s : List Char) :
    ∃ pre, s = pre ++ dropBlanks s ∧ (∀ c ∈ pre, c = ' ' ∨ c = '\t') ∧
      ∀ c, (dropBlanks s).head? = some c → ¬ (c = ' ' ∨ c = '\t') := by
  induction s with
  | nil => exact ⟨[], rfl, fun c hc => absurd hc (List.not_mem_nil c), fun c hc => by cases hc⟩
  | cons a s ih =>
    by_cases ha : a = ' ' ∨ a = '\t'
    · obtain ⟨pre, h1, h2, h3⟩ := ih
      have hd : dropBlanks (a :: s) = dropBlanks s := by
        rw [dropBlanks, if_pos ha]
      refine ⟨a :: pre, ?_, ?_, ?_⟩
      · rw [hd, List.cons_append, ← h1]
      · intro c hc
        rcases List.mem_cons.mp hc with h | h
        · rw [h]; exact ha
        · exact h2 c h
      · rw [hd]
        exact h3
    · have hd : dropBlanks (a :: s) = a :: s := by
        rw [dropBlanks, if_neg ha]
      refine ⟨[], ?_, fun c hc => absurd hc (List.not_mem_nil c), ?_⟩
      · rw [hd]
        rfl
      · intro c hc
        rw [hd] at hc
        cases hc
        exact ha

/-- The function `trimSpace` removes blanks and tabs, and nothing else, from
both ends. -/
theorem trimSpace_spec (s : List Char) :
    ∃ pre post, s = pre ++ trimSpace s ++ post ∧ (∀ c ∈ pre, c = ' ' ∨ c = '\t') ∧
      (∀ c ∈ post, c = ' ' ∨ c = '\t') ∧
      (∀ c, (trimSpace s).head? = some c → ¬ (c = ' ' ∨ c = '\t')) ∧
      (∀ c, (trimSpace s).getLast? = some c → ¬ (c = ' ' ∨ c = '\t')) := by
  obtain ⟨pre, h1, h2, h3⟩ := dropBlanks_spec s
  obtain ⟨post, g1, g2, g3⟩ := dropBlanks_spec (dropBlanks s).reverse
  have ha : dropBlanks s = trimSpace s ++ post.reverse := by
    have := congrArg List.reverse g1
    rw [List.reverse_reverse, List.reverse_append] at this
    exact this
  refine ⟨pre, post.reverse, ?_, h2, ?_, ?_, ?_⟩
  · rw [List.append_assoc, ← ha]
    exact h1
  · intro c hc
    exact g2 c (List.mem_reverse.mp hc)
  · intro c hc
    apply h3 c
    rw [ha]
    cases ht : trimSpace s with
    | nil => rw [ht] at hc; cases hc
    | cons x t =>
      rw [ht] at hc
      simpa using hc
  · intro c hc
    apply g3 c
    unfold trimSpace at hc
    rw [List.getLast?_reverse] at hc
    exact hc

/-- The function `trimQuotes` removes one pair of equal quote characters that
surrounds the trimmed string. -/
theorem trimQuotes_quoted (s : List Char) (q : Char) (mid : List Char)
    (hq : q = '"' ∨ q = '\'') (h : trimSpace s = q :: (mid ++ [q])) : trimQuotes s = mid := by
  unfold trimQuotes
  simp only [h]
  have hl : (q :: (mid ++ [q])).getLast? = some q := by
    rw [← List.cons_append, List.getLast?_append]
    rfl
  rw [if_pos]
  · simp
  · refine ⟨by simp, ?_⟩
    rcases hq with hq | hq
    · left
      rw [hl, hq]
      exact ⟨rfl, rfl⟩
    · right
      rw [hl, hq]
      exact ⟨rfl, rfl⟩

theorem trimQuotes_unquoted (s : List Char)
    (h : ∀ (q : Char) (mid : List Char), (q = '"' ∨ q = '\'') → trimSpace s ≠ q :: (mid ++ [q])) :
    trimQuotes s = trimSpace s := by
  unfold trimQuotes
  simp only
  rw [if_neg]
  rintro ⟨hlen, hc⟩
  have hdec : ∀ q, (trimSpace s).head? = some q → (trimSpace s).getLast? = some q →
      ∃ mid, trimSpace s = q :: (mid ++ [q]) := by
    intro q hh hl
    cases ht : trimSpace s with
    | nil => rw [ht] at hh; cases hh
    | cons x t =>
      rw [ht] at hh hl hlen
      simp only [List.head?_cons, Option.some.injEq] at hh
      subst hh
      rcases List.eq_nil_or_concat t with h0 | ⟨t2, y, h0⟩
      · subst h0
        simp at hlen
      · subst h0
        rw [List.concat_eq_append, ← List.cons_append, List.getLast?_append] at hl
        have hy : y = x := by
          have h2 : some y = some x := hl
          exact Option.some.inj h2
        subst hy
        exact ⟨t2, by simp⟩
  rcases hc with ⟨h1, h2⟩ | ⟨h1, h2⟩
  · obtain ⟨mid, hm⟩ := hdec _ h1 h2
    exact h _ mid (Or.inl rfl) hm
  · obtain ⟨mid, hm⟩ := hdec _ h1 h2
    exact h _ mid (Or.inr rfl) hm

/-- The second loop returns the first line that is not empty, not a heading
and not a delimiter. -/
theorem firstPlainLine_found (pre : List String) (l : String) (post : List String)
    (hpre : ∀ x ∈ pre, x = "" ∨ x.data.head? = some '#' ∨ x = "---")
    (hl : ¬ (l = "" ∨ l.data.head? = some '#' ∨ l = "---")) :
    firstPlainLine (pre ++ l :: post) = l := by
  induction pre with
  | nil =>
    rw [List.nil_append]
    unfold firstPlainLine
    rw [if_neg hl]
  | cons x pre ih =>
    rw [List.cons_append]
    unfold firstPlainLine
    rw [if_pos (hpre x (List.mem_cons_self _ _))]
    exact ih (fun y hy => hpre y (List.mem_cons_of_mem _ hy))

theorem firstPlainLine_none (lines : List String)
    (h : ∀ x ∈ lines, x = "" ∨ x.data.head? = some '#' ∨ x = "---") :
    firstPlainLine lines = "" := by
  induction lines with
  | nil => rfl
  | cons x lines ih =>
    unfold firstPlainLine
    rw [if_pos (h x (List.mem_cons_self _ _))]
    exact ih (fun y hy => h y (List.mem_cons_of_mem _ hy))

/-- A line lies inside a block when the number of `---` lines before it has
the other parity than at the start. -/
theorem insideBlock_count (pre : List String) :
    ∀ b : Bool, insideBlock b pre = xor b (decide (pre.count "---" % 2 = 1)) := by
  induction pre with
  | nil => intro b; simp [insideBlock]
  | cons line pre ih =>
    intro b
    unfold insideBlock
    rw [ih]
    by_cases hl : line = "---"
    · subst hl
      rw [if_pos rfl, List.count_cons_self]
      have h2 : (List.count "---" pre + 1) % 2 = 1 ↔ ¬ (List.count "---" pre % 2 = 1) := by omega
      cases b <;> by_cases hc : List.count "---" pre % 2 = 1 <;> simp [hc, h2]
    · rw [if_neg hl, List.count_cons_of_ne (Ne.symm hl)]

theorem insideBlock_odd (pre : List String) :
    insideBlock false pre = true ↔ pre.count "---" % 2 = 1 := by
  rw [insideBlock_count]
  simp

/-! ## Theorems -/

/-- Claim C1: when the source exists and a real file or a real directory
occupies the target, `CreateSymlink` returns the real-directory error for a
directory and the real-file error otherwise, and the filesystem after the call
is the filesystem before it. -/
theorem CreateSymlink_blocked_by_real_entry (fs : FS) (source target : Path) (isProject : Bool)
    (node : Node) (hsrc : errOf (Stat fs source) = none)
    (hreal : Lstat fs target = .ok node) (hnot : node.isSymlink = false) :
    CreateSymlink fs source target isProject =
      (fs, some (if node.isDir then .targetIsRealDirectory target
        else .targetIsRealFile target)) := by
  unfold CreateSymlink
  simp only [ResolvePath, List.foldl_nil, hsrc, IsNotExist]
  rw [MkdirAll_Dir_of_Lstat fs target node hreal]
  simp only [hreal, hnot]
  cases node.isDir <;> simp

/-- The run of `TestCreateSymlinkProtectsRealFiles`: the real file blocks the link. -/
theorem CreateSymlink_blocked_by_real_entry_witness :
    errOf (Stat demoFS ["tmp", "source"]) = none ∧
      Lstat demoFS ["tmp", "realfile"] = .ok (.file "test") ∧
      CreateSymlink demoFS ["tmp", "source"] ["tmp", "realfile"] false =
        (demoFS, some (.targetIsRealFile ["tmp", "realfile"])) :=
  ⟨by decide, by decide,
    CreateSymlink_blocked_by_real_entry demoFS ["tmp", "source"] ["tmp", "realfile"] false
      (.file "test") (by decide) (by decide) (by decide)⟩

/-- Claim C2: when the target exists and is not a symbolic link,
`RemoveSymlink` returns the not-a-symlink error and leaves the filesystem as it
was; and on any filesystem and target, an entry that `RemoveSymlink` changes was
a symbolic link and is gone afterwards. -/
theorem RemoveSymlink_protects_real_entries (fs : FS) (target : Path) (node : Node)
    (hreal : Lstat fs target = .ok node) (hnot : node.isSymlink = false) :
    RemoveSymlink fs target = (fs, some (.targetIsNotASymlink target)) ∧
      ∀ (fs2 : FS) (target2 q : Path),
        entryAt (RemoveSymlink fs2 target2).1 q ≠ entryAt fs2 q →
          (∃ d, entryAt fs2 q = some (.symlink d)) ∧
            entryAt (RemoveSymlink fs2 target2).1 q = none := by
  refine ⟨?_, RemoveSymlink_changes_only_links⟩
  unfold RemoveSymlink
  simp [ResolvePath, hreal, hnot, errOf, IsNotExist]

/-- The run of `TestRemoveSymlinkProtectsRealFiles`. -/
theorem RemoveSymlink_protects_real_entries_witness :
    Lstat demoFS ["tmp", "realfile"] = .ok (.file "test") ∧
      RemoveSymlink demoFS ["tmp", "realfile"] =
        (demoFS, some (.targetIsNotASymlink ["tmp", "realfile"])) :=
  ⟨by decide,
    (RemoveSymlink_protects_real_entries demoFS ["tmp", "realfile"] (.file "test")
      (by decide) (by decide)).1⟩

/-- Claim C3, as stated, fails: nothing exists at `/f/x` when `/f` is a regular
file, yet `RemoveSymlink` returns the error of `lstat` (`ENOTDIR`), not `nil`. -/
theorem RemoveSymlink_under_file_returns_error :
    existsAt fileFS ["f", "x"] = false ∧
      Lstat fileFS ["f", "x"] = .error .ENOTDIR ∧
      RemoveSymlink fileFS ["f", "x"] = (fileFS, some (.os .ENOTDIR)) := by
  decide

/-- Claim C3, amended: when `lstat` on the target reports `ENOENT`,
`RemoveSymlink` returns `nil`; when `lstat` fails with another error, that error
is returned; in both cases the filesystem is unchanged. -/
theorem RemoveSymlink_absent (fs : FS) (target : Path) (e : Errno)
    (h : Lstat fs target = .error e) :
    RemoveSymlink fs target = (fs, if e = .ENOENT then none else some (.os e)) := by
  unfold RemoveSymlink
  simp only [ResolvePath, List.foldl_nil, h, errOf]
  cases e <;> simp [IsNotExist]

/-- Removing `/tmp/nonexistent`, as in `TestIsSymlink`'s layout. -/
theorem RemoveSymlink_absent_witness :
    Lstat demoFS ["tmp", "nonexistent"] = .error .ENOENT ∧
      RemoveSymlink demoFS ["tmp", "nonexistent"] = (demoFS, none) :=
  ⟨by decide, RemoveSymlink_absent demoFS ["tmp", "nonexistent"] .ENOENT (by decide)⟩

/-- Claim C4: if `CreateSymlink(source, target)` succeeds, a second call with
the same arguments returns `nil` and leaves the state reached by the first call
as it is, and in that state the target is a symbolic link whose stored
destination is the resolved source. -/
theorem CreateSymlink_idempotent (fs fs1 : FS) (source target : Path) (isProject : Bool)
    (h : CreateSymlink fs source target isProject = (fs1, none)) :
    CreateSymlink fs1 source target isProject = (fs1, none) ∧
      IsSymlink fs1 target = true ∧
      ReadSymlink fs1 target = .ok (ResolvePath source []) := by
  obtain ⟨fsX, c, q, hc, hd, he, rfl, hagree, hs⟩ := CreateSymlink_ok fs fs1 source target _ h
  obtain ⟨hl, hrl, hcr⟩ := after_link_added fsX source target c q hc hd he
  refine ⟨hcr isProject ?_, ?_, hrl⟩
  · rw [IsNotExist_Stat] at hs ⊢
    refine resolve_relink fs _ (q ++ [c]) source ?_ (entryAt_cons_self _ _ _) _ hs
    intro p v hp hv
    rw [entryAt_cons_ne _ _ _ _ (Ne.symm hp)]
    exact hagree p v hp hv
  · unfold IsSymlink
    rw [hl]
    rfl

/-- Linking `/tmp/target/link` to `/tmp/source` twice. -/
theorem CreateSymlink_idempotent_witness :
    CreateSymlink demoFS ["tmp", "source"] ["tmp", "target", "link"] false
        = (demoLinkedFS, none) ∧
      CreateSymlink demoLinkedFS ["tmp", "source"] ["tmp", "target", "link"] false
        = (demoLinkedFS, none) ∧
      IsSymlink demoLinkedFS ["tmp", "target", "link"] = true ∧
      ReadSymlink demoLinkedFS ["tmp", "target", "link"] = .ok ["tmp", "source"] :=
  ⟨by decide,
    CreateSymlink_idempotent demoFS demoLinkedFS ["tmp", "source"] ["tmp", "target", "link"]
      false (by decide)⟩

/-- Claim C6 at its failing input: the source `/f/x` does not exist because
`/f` is a regular file; `Stat` fails with `ENOTDIR`, which `os.IsNotExist` does
not recognise, and `CreateSymlink` goes on to create `/t` and a dangling link
`/t/link`, returning `nil`. -/
theorem CreateSymlink_missing_source_under_file :
    existsAt fileFS ["f", "x"] = false ∧
      Stat fileFS ["f", "x"] = .error .ENOTDIR ∧
      CreateSymlink fileFS ["f", "x"] ["t", "link"] false =
        ([(["t", "link"], .symlink ["f", "x"]), (["t"], .dir), (["f"], .file "x")], none) := by
  decide

/-- Claim C7, divergence: the status loop hands the string
`targetDir + "/" + name` to `lstat` as it is, while `CreateSymlink` and
`RemoveSymlink` resolve it and `GetLinkStatus` joins it with `filepath.Join`,
so these work on the cleaned path.  The healthy branch is taken exactly when
`lstat` on the string as written finds a symbolic link whose stored destination
is the module path; the check mark of `GetLinkStatus` is set exactly when
`lstat` on the cleaned path does.  For a link name that is a plain file name
the two agree, and the claim holds.  For the link name `foo/` they differ: with
the link at `/r/skills/foo` storing the module path, `lstat` on
`/r/skills/foo/` follows the link and finds the module directory, the status
loop reports the pair as blocked by a real file or directory, and
`GetLinkStatus` marks it as linked. -/
theorem healthy_iff_link_to_module_path :
    (∀ (fs : FS) (mod : Module) (name : String) (p : Platform),
        (linkHealthRaw fs mod name p = .healthy ↔
            LstatRaw fs (rawTargetPath mod name p) = .ok (.symlink mod.Path)) ∧
          (linkMark fs mod name p = some (.ok name) ↔
            Lstat fs (rawTargetPath mod name p).clean = .ok (.symlink mod.Path)) ∧
          (plainName (mod.GetLinkName name) →
            (linkHealthRaw fs mod name p = .healthy ↔
              Lstat fs (rawTargetPath mod name p).clean = .ok (.symlink mod.Path)))) ∧
      slashAliasModule.GetLinkName "p1" = "foo/" ∧
      (rawTargetPath slashAliasModule "p1" demoPlatform).clean = ["r", "skills", "foo"] ∧
      Lstat demoRepoLinkedFS ["r", "skills", "foo"] = .ok (.symlink slashAliasModule.Path) ∧
      LstatRaw demoRepoLinkedFS (rawTargetPath slashAliasModule "p1" demoPlatform) = .ok .dir ∧
      linkHealthRaw demoRepoLinkedFS slashAliasModule "p1" demoPlatform = .blocked ∧
      linkMark demoRepoLinkedFS slashAliasModule "p1" demoPlatform = some (.ok "p1") := by
  refine ⟨?_, by decide, by decide, by decide, by decide, by decide, by decide⟩
  intro fs mod name p
  have hmark : linkMark fs mod name p = some (.ok name) ↔
      Lstat fs (rawTargetPath mod name p).clean = .ok (.symlink mod.Path) := by
    rw [linkMark_eq]
    cases hl : Lstat fs (rawTargetPath mod name p).clean with
    | error e => simp
    | ok v =>
      cases v with
      | dir => simp
      | file s => simp
      | symlink d =>
        by_cases hd : d = mod.Path
        · simp [hd]
        · simp [hd]
  refine ⟨linkHealthRaw_healthy_iff fs mod name p, hmark, ?_⟩
  intro hplain
  rw [linkHealthRaw_healthy_iff, (rawTargetPath_reads fs mod name p hplain).1]

/-- Claim C8, divergence: `CreateSymlink` resolves the string it is given and
creates the link at the cleaned path, while the status loop computed right
afterwards hands the string to `lstat` as it is.  For a link name that is a
plain file name the claim holds: after a successful `CreateSymlink` the string
reads back as a symbolic link to the module path and the status is healthy, as
in scenario A of the specification.  For the link name `foo/` the link is
created at `/r/skills/foo` without an error, but `IsSymlink` on
`/r/skills/foo/` is false, `ReadSymlink` fails, and the status of the pair is
blocked by a real file or directory. -/
theorem create_then_status_healthy :
    (∀ (fs fs1 : FS) (mod : Module) (name : String) (p : Platform) (isProject : Bool),
        plainName (mod.GetLinkName name) →
        CreateSymlink fs mod.Path (rawTargetPath mod name p).clean isProject = (fs1, none) →
          IsSymlinkRaw fs1 (rawTargetPath mod name p) = true ∧
            ReadSymlinkRaw fs1 (rawTargetPath mod name p) = .ok mod.Path ∧
            linkHealthRaw fs1 mod name p = .healthy) ∧
      (rawTargetPath demoModule "p1" demoPlatform).clean = ["r", "skills", "foo"] ∧
      CreateSymlink demoRepoFS demoModule.Path (rawTargetPath demoModule "p1" demoPlatform).clean
        false = (demoRepoLinkedFS, none) ∧
      ReadSymlinkRaw demoRepoLinkedFS (rawTargetPath demoModule "p1" demoPlatform) =
        .ok demoModule.Path ∧
      linkHealthRaw demoRepoLinkedFS demoModule "p1" demoPlatform = .healthy ∧
      slashAliasModule.GetLinkName "p1" = "foo/" ∧
      CreateSymlink demoRepoFS slashAliasModule.Path
        (rawTargetPath slashAliasModule "p1" demoPlatform).clean false = (demoRepoLinkedFS, none) ∧
      Lstat demoRepoLinkedFS ["r", "skills", "foo"] = .ok (.symlink slashAliasModule.Path) ∧
      IsSymlinkRaw demoRepoLinkedFS (rawTargetPath slashAliasModule "p1" demoPlatform) = false ∧
      ReadSymlinkRaw demoRepoLinkedFS (rawTargetPath slashAliasModule "p1" demoPlatform) =
        .error .EINVAL ∧
      linkHealthRaw demoRepoLinkedFS slashAliasModule "p1" demoPlatform = .blocked := by
  refine ⟨?_, by decide, by decide, by decide, by decide, by decide, by decide, by decide,
    by decide, by decide, by decide⟩
  intro fs fs1 mod name p isProject hplain h
  obtain ⟨fsX, c, q, hc, hd, he, rfl, _, _⟩ := CreateSymlink_ok fs fs1 _ _ _ h
  obtain ⟨hl, hrl, _⟩ := after_link_added fsX mod.Path _ c q hc hd he
  obtain ⟨r1, _, r3, r4⟩ := rawTargetPath_reads ((q ++ [c], Node.symlink mod.Path) :: fsX) mod name
    p hplain
  refine ⟨?_, ?_, ?_⟩
  · rw [r3, IsSymlink_eq, hl]
  · rw [r4]
    exact hrl
  · rw [linkHealthRaw_healthy_iff, r1]
    exact hl

/-- Claim C10: whatever keys were pressed on the detail page, when it returns
the lists `ToSync` and `ToRemove` have no platform key in common. -/
theorem detail_toSync_toRemove_disjoint (fs : FS) (cfg : Config) (mod : Module)
    (keys : List String) (r : ModuleDetailResult)
    (h : ModuleDetailMenu fs cfg mod keys = .returned r) :
    List.Disjoint r.ToSync r.ToRemove := by
  refine detailLoop_disjoint keys _ 0 r ?_ h
  rw [detailPlatforms_keys]
  exact cfg.Platforms.keys_nodup

/-- With `foo` linked on `p1`: turning `p2` on and `p1` off, then leaving. -/
theorem detail_toSync_toRemove_disjoint_witness :
    ModuleDetailMenu demoRepoLinkedFS demoConfig demoModule ["SPACE", "DOWN", "SPACE", "LEFT"]
        = .returned { Action := "apply", ToSync := ["p2"], ToRemove := ["p1"] } ∧
      List.Disjoint ["p2"] ["p1"] :=
  ⟨by decide,
    detail_toSync_toRemove_disjoint demoRepoLinkedFS demoConfig demoModule
      ["SPACE", "DOWN", "SPACE", "LEFT"]
      { Action := "apply", ToSync := ["p2"], ToRemove := ["p1"] } (by decide)⟩

/-- Claim C12, divergence: the synced flag of the detail page is `IsSymlink` on
the string `targetDir + "/" + name` as it is, while links are created and
removed at the cleaned path.  Every diff the page returns with the action
`apply` is the diff of some desired set of keys (the toggles shown on leaving),
and every desired set is shown after suitable key presses.  For every desired
set and configured key `k`: `k` is in `toSync` exactly when `k` is desired and
`IsSymlink` on the string is false, `k` is in `toRemove` exactly when `k` is
not desired and `IsSymlink` on the string is true, and only configured keys
occur in either list.  For a link name that is a plain file name this is the
reference definition of the claim: `k` is in `toSync` exactly when `k` is
desired and no symbolic link occupies the link target, and in `toRemove`
exactly when `k` is not desired and a symbolic link, whatever its destination,
occupies it.  For the link name `foo/` it is not: with a symbolic link at the
link target `/r/skills/foo`, a desired `p1` is in `toSync`, and a `p1` that is
not desired is not in `toRemove`. -/
theorem detail_diff_reference :
    (∀ (fs : FS) (cfg : Config) (mod : Module),
      (∀ (keys : List String) (r : ModuleDetailResult),
        ModuleDetailMenuRaw fs cfg mod keys = .returned r → r.Action = "apply" →
          ∃ desired : String → Bool,
            r.ToSync = (desiredDiffRaw fs cfg mod desired).1 ∧
              r.ToRemove = (desiredDiffRaw fs cfg mod desired).2) ∧
      (∀ desired : String → Bool,
        ModuleDetailMenuRaw fs cfg mod (keysTo desired (detailPlatformsRaw fs cfg mod)) =
          .returned { Action := "apply", ToSync := (desiredDiffRaw fs cfg mod desired).1,
                      ToRemove := (desiredDiffRaw fs cfg mod desired).2 }) ∧
      (∀ (desired : String → Bool) (k : String) (p : Platform),
        cfg.Platforms.lookup k = some p →
          (k ∈ (desiredDiffRaw fs cfg mod desired).1 ↔
              desired k = true ∧ IsSymlinkRaw fs (rawTargetPath mod k p) = false) ∧
            (k ∈ (desiredDiffRaw fs cfg mod desired).2 ↔
              desired k = false ∧ IsSymlinkRaw fs (rawTargetPath mod k p) = true)) ∧
      (∀ (desired : String → Bool) (k : String),
        k ∈ (desiredDiffRaw fs cfg mod desired).1 ∨ k ∈ (desiredDiffRaw fs cfg mod desired).2 →
          k ∈ cfg.Platforms.keys) ∧
      (∀ (desired : String → Bool) (k : String) (p : Platform),
        cfg.Platforms.lookup k = some p → plainName (mod.GetLinkName k) →
          (k ∈ (desiredDiffRaw fs cfg mod desired).1 ↔
              desired k = true ∧
                ¬ ∃ d, Lstat fs (rawTargetPath mod k p).clean = .ok (.symlink d)) ∧
            (k ∈ (desiredDiffRaw fs cfg mod desired).2 ↔
              desired k = false ∧
                ∃ d, Lstat fs (rawTargetPath mod k p).clean = .ok (.symlink d)))) ∧
      slashAliasModule.GetLinkName "p1" = "foo/" ∧
      demoConfig.Platforms.lookup "p1" = some demoPlatform ∧
      Lstat demoRepoLinkedFS (rawTargetPath slashAliasModule "p1" demoPlatform).clean =
        .ok (.symlink ["repo", "skill", "foo"]) ∧
      desiredDiffRaw demoRepoLinkedFS demoConfig slashAliasModule (fun k => decide (k = "p1")) =
        (["p1"], []) ∧
      desiredDiffRaw demoRepoLinkedFS demoConfig slashAliasModule (fun _ => false) = ([], []) ∧
      desiredDiffRaw demoRepoLinkedFS demoConfig demoModule (fun _ => false) = ([], ["p1"]) := by
  refine ⟨?_, by decide, by decide, by decide, by decide, by decide, by decide⟩
  intro fs cfg mod
  refine ⟨?_, ModuleDetailMenuRaw_reaches fs cfg mod, ?_, ?_, ?_⟩
  · intro keys r h ha
    have hb : ((detailPlatformsRaw fs cfg mod).map (fun p => p.key)).Nodup := by
      rw [detailPlatformsRaw_keys]; exact cfg.Platforms.keys_nodup
    exact detailLoop_desired _ hb keys _ 0 r rfl h ha
  · intro desired k p h
    exact ⟨mem_desiredDiffRaw_fst fs cfg mod desired k p h,
      mem_desiredDiffRaw_snd fs cfg mod desired k p h⟩
  · intro desired k h
    exact mem_desiredDiffRaw_keys fs cfg mod desired k h
  · intro desired k p h hplain
    rw [mem_desiredDiffRaw_fst fs cfg mod desired k p h,
      mem_desiredDiffRaw_snd fs cfg mod desired k p h,
      (rawTargetPath_reads fs mod k p hplain).2.2.1, IsSymlink_eq]
    cases hl : Lstat fs (rawTargetPath mod k p).clean with
    | error e => simp
    | ok v => cases v <;> simp

/-- Claim C14: for every configuration, `GetOrderedPlatformKeys` returns first
the keys of `PlatformOrder` that are configured platform keys, each at its
first occurrence and in the persisted order, and then the configured keys that
do not occur in `PlatformOrder`, in the order of the platform map.  The list
has no duplicates and its members are exactly the configured platform keys, so
a stale key never appears. -/
theorem GetOrderedPlatformKeys_spec (cfg : Config) :
    cfg.GetOrderedPlatformKeys =
        firstOccurrences (cfg.PlatformOrder.filter (fun k => (cfg.Platforms.lookup k).isSome)) ++
          cfg.Platforms.keys.filter (fun k => decide (k ∉ cfg.PlatformOrder)) ∧
      cfg.GetOrderedPlatformKeys.Nodup ∧
      ∀ k, k ∈ cfg.GetOrderedPlatformKeys ↔ k ∈ cfg.Platforms.keys := by
  refine ⟨GetOrderedPlatformKeys_eq cfg, ?_, ?_⟩
  · rw [GetOrderedPlatformKeys_eq, List.nodup_append]
    refine ⟨firstOccurrences_nodup _, cfg.Platforms.keys_nodup.filter _, ?_⟩
    intro k h1 h2
    rw [mem_firstOccurrences, List.mem_filter] at h1
    rw [List.mem_filter] at h2
    simp only [decide_eq_true_eq] at h2
    exact h2.2 h1.1
  · intro k
    rw [GetOrderedPlatformKeys_eq, List.mem_append, mem_firstOccurrences, List.mem_filter,
      List.mem_filter, AList.lookup_isSome]
    simp only [decide_eq_true_eq]
    constructor
    · rintro (h | h)
      · exact h.2
      · exact h.1
    · intro h
      by_cases ho : k ∈ cfg.PlatformOrder
      · exact Or.inl ⟨ho, h⟩
      · exact Or.inr ⟨h, ho⟩

/-- Claim C15: when `DefaultPlatforms` is empty, `getTargetPlatforms` returns
the platform map itself, so with the same number of entries; when it is not
empty, the returned map holds, for every key, the configured platform if the key
is in `DefaultPlatforms` and nothing otherwise, so a default key that names no
platform is skipped. -/
theorem getTargetPlatforms_spec (cfg : Config) :
    (cfg.DefaultPlatforms = [] →
        getTargetPlatforms cfg = cfg.Platforms ∧
          (getTargetPlatforms cfg).entries.length = cfg.Platforms.entries.length) ∧
      (cfg.DefaultPlatforms ≠ [] →
        ∀ k, (getTargetPlatforms cfg).lookup k =
          if k ∈ cfg.DefaultPlatforms then cfg.Platforms.lookup k else none) := by
  constructor
  · intro h
    unfold getTargetPlatforms
    simp [h]
  · intro h k
    unfold getTargetPlatforms
    have hl : cfg.DefaultPlatforms.length > 0 := List.length_pos.mpr h
    simp only [hl, if_true]
    rw [defaultsLoop_lookup]
    by_cases hk : k ∈ cfg.DefaultPlatforms
    · simp only [hk, if_true]
      cases cfg.Platforms.lookup k <;> simp
    · simp [hk]

/-- Without defaults both example platforms are targets; with the defaults
`p1` and `gone`, `p1` is a target and `gone` is skipped. -/
theorem getTargetPlatforms_spec_witness :
    demoConfig.DefaultPlatforms = [] ∧ demoDefaultsConfig.DefaultPlatforms ≠ [] ∧
      (getTargetPlatforms demoConfig).entries.length = 2 ∧
      (getTargetPlatforms demoDefaultsConfig).lookup "p1" = some demoPlatform ∧
      (getTargetPlatforms demoDefaultsConfig).lookup "gone" = none ∧
      (getTargetPlatforms demoDefaultsConfig).lookup "p2" = none :=
  ⟨rfl, by decide,
    ((getTargetPlatforms_spec demoConfig).1 rfl).2.trans (by decide),
    ((getTargetPlatforms_spec demoDefaultsConfig).2 (by decide) "p1").trans (by decide),
    ((getTargetPlatforms_spec demoDefaultsConfig).2 (by decide) "gone").trans (by decide),
    ((getTargetPlatforms_spec demoDefaultsConfig).2 (by decide) "p2").trans (by decide)⟩

/-- Claim C16: `GetLinkName` returns the alias of the module for the platform
key when the alias map has an entry for the key, and the name of the module
when it has none. -/
theorem GetLinkName_spec (m : Module) (platform : String) :
    (∀ a, m.Aliases.lookup platform = some a → m.GetLinkName platform = a) ∧
      (m.Aliases.lookup platform = none → m.GetLinkName platform = m.Name) := by
  unfold Module.GetLinkName
  constructor
  · intro a h; rw [h]
  · intro h; rw [h]

/-- The module aliased `bar` on `p1` is linked as `bar` there and as `foo` on `p2`. -/
theorem GetLinkName_spec_witness :
    demoAliasModule.GetLinkName "p1" = "bar" ∧ demoAliasModule.GetLinkName "p2" = "foo" :=
  ⟨(GetLinkName_spec demoAliasModule "p1").1 "bar" (by decide),
    (GetLinkName_spec demoAliasModule "p2").2 (by decide)⟩

/-- Claim C17, counterexample: a platform whose two directory fields are empty,
as the zero value of `Platform` or a configuration entry without `skill_dir`
and `agent_dir`, gets the empty string from `GetCategoryDir` for both
categories. -/
theorem GetCategoryDir_empty_for_zero_platform :
    (Platform.zero []).GetCategoryDir "skill" = "" ∧
      (Platform.zero []).GetCategoryDir "agent" = "" := by
  decide

/-- Claim C17, amended: `GetCategoryDir` returns the field `AgentDir` for the
category `agent` and the field `SkillDir` for every other category, without a
default; so its result for `skill` is non-empty exactly when `SkillDir` is, and
its result for `agent` exactly when `AgentDir` is. -/
theorem GetCategoryDir_nonempty_iff (p : Platform) :
    p.GetCategoryDir "agent" = p.AgentDir ∧
      (∀ category, category ≠ "agent" → p.GetCategoryDir category = p.SkillDir) ∧
      (p.GetCategoryDir "skill" ≠ "" ↔ p.SkillDir ≠ "") ∧
      (p.GetCategoryDir "agent" ≠ "" ↔ p.AgentDir ≠ "") := by
  have h1 : p.GetCategoryDir "agent" = p.AgentDir := by simp [Platform.GetCategoryDir]
  have h2 : ∀ category, category ≠ "agent" → p.GetCategoryDir category = p.SkillDir := by
    intro c hc; simp [Platform.GetCategoryDir, hc]
  refine ⟨h1, h2, ?_, ?_⟩
  · rw [h2 "skill" (by decide)]
  · rw [h1]

/-- The example platform names both directories, so both results are non-empty. -/
theorem GetCategoryDir_nonempty_iff_witness :
    demoPlatform.GetCategoryDir "skill" ≠ "" ∧ demoPlatform.GetCategoryDir "agent" ≠ "" :=
  ⟨(GetCategoryDir_nonempty_iff demoPlatform).2.2.1.mpr (by decide),
    (GetCategoryDir_nonempty_iff demoPlatform).2.2.2.mpr (by decide)⟩

/-- Claim C18, divergence: the scope chosen on the command line of `use`
reaches only the unused third argument of `CreateSymlink`, so one iteration of
the creating loop does the same whatever the scope, and its target lies under
the global root of the platform.  On the example repository,
`use foo p1 --project` creates the link at `/r/skills/foo`, under the global
root `/r`, exactly as `use foo p1 --global` does, and nothing appears under the
project root `/proj`. -/
theorem handleUse_project_links_under_global :
    (∀ (mod : Module) (f : UseFlags) (scope : String) (acc : FS × List LinkLine)
        (e : (_ : String) × Platform),
        useStep mod { f with scope := scope } acc e = useStep mod f acc e ∧
          useTargetPath mod f.linkName e.1 e.2 =
            ResolvePath e.2.Global [e.2.GetCategoryDir mod.Category] ++
              [if f.linkName = "" then mod.GetLinkName e.1 else f.linkName]) ∧
      demoPlatform.Project = ["proj"] ∧ demoPlatform.Global = ["r"] ∧
      handleUse (fun _ => none) demoRepoFS demoConfig ["foo", "p1", "--project"] =
        .linked demoRepoLinkedFS
          [{ modName := "foo", platform := "p1", target := ["r", "skills", "foo"], err := none }] ∧
      Lstat demoRepoLinkedFS ["proj", "skills", "foo"] = .error .ENOENT ∧
      handleUse (fun _ => none) demoRepoFS demoConfig ["foo", "p1", "--global"] =
        handleUse (fun _ => none) demoRepoFS demoConfig ["foo", "p1", "--project"] := by
  refine ⟨fun mod f scope acc e => ⟨rfl, rfl⟩, ?_⟩
  decide

/-- Claim C19: the sync loop shared by `handleSync` and
`syncAllModulesToDefaultPlatforms` never stops on an error.  For every list of
modules and every platform map it calls `CreateSymlink(mod.Path, target)` once
for every pair of the cartesian product, module by module and platform by
platform, each call on the filesystem the call before it left, whatever that
call returned: the filesystem it leaves and the errors of its lines are those
of this sequence of calls.  The counters satisfy
`success + failed = |modules| * |platforms|`, `failed` is the number of calls
that returned an error and `success` the number that returned none. -/
theorem sync_attempts_every_pair (platforms : GoMap Platform) (fs : FS) (modules : List Module) :
    (syncLoop platforms fs modules).1 =
        (runCalls fs (modules.flatMap (fun m => platforms.entries.map (fun e =>
          LinkCall.create m.Path (rawTargetPath m e.1 e.2).clean)))).1 ∧
      (syncLoop platforms fs modules).2.lines.map (fun l => l.err) =
        (runCalls fs (modules.flatMap (fun m => platforms.entries.map (fun e =>
          LinkCall.create m.Path (rawTargetPath m e.1 e.2).clean)))).2 ∧
      (syncLoop platforms fs modules).2.lines.map (fun l => (l.modName, l.platform)) =
        modules.flatMap (fun m => platforms.entries.map (fun e => (m.Name, e.1))) ∧
      (syncLoop platforms fs modules).2.success + (syncLoop platforms fs modules).2.failed =
        modules.length * platforms.entries.length ∧
      (syncLoop platforms fs modules).2.failed =
        ((runCalls fs (modules.flatMap (fun m => platforms.entries.map (fun e =>
          LinkCall.create m.Path (rawTargetPath m e.1 e.2).clean)))).2.filter
            (fun err => err.isSome)).length ∧
      (syncLoop platforms fs modules).2.success =
        ((runCalls fs (modules.flatMap (fun m => platforms.entries.map (fun e =>
          LinkCall.create m.Path (rawTargetPath m e.1 e.2).clean)))).2.filter
            (fun err => err.isNone)).length ∧
      (∀ (cfg : Config) (args : List String), modules.length ≠ 0 →
        args.any (fun arg => decide (arg = "--dry-run")) = false →
          handleSync fs cfg modules args =
            .synced (syncLoop cfg.Platforms fs modules).1 (syncLoop cfg.Platforms fs modules).2) ∧
      (∀ (cfg : Config), (getTargetPlatforms cfg).entries.length ≠ 0 →
        syncAllModulesToDefaultPlatforms fs cfg modules true =
          (true, syncLoop (getTargetPlatforms cfg) fs modules)) := by
  have h0 : tallyOK ({ success := 0, failed := 0, lines := [] } : SyncTally) := by
    simp [tallyOK]
  obtain ⟨⟨hs, hf⟩, hl⟩ := syncOuter platforms modules (fs, _) h0
  obtain ⟨hfs, herr⟩ := syncOuter_calls platforms modules
    (fs, ({ success := 0, failed := 0, lines := [] } : SyncTally))
  simp only [List.map_nil, List.nil_append] at hl herr
  have hlen : (syncLoop platforms fs modules).2.lines.length =
      modules.length * platforms.entries.length := by
    have := congrArg List.length hl
    rw [List.length_map] at this
    rw [show (syncLoop platforms fs modules).2.lines.length = _ from this]
    clear this hl hs hf hfs herr
    induction modules with
    | nil => simp
    | cons m ms ih => simp [List.flatMap_cons, ih, Nat.succ_mul, Nat.add_comm]
  have hcount : ∀ (p : Option LinkError → Bool) (ls : List LinkLine),
      (ls.filter (fun l => p l.err)).length = ((ls.map (fun l => l.err)).filter p).length := by
    intro p ls
    induction ls with
    | nil => rfl
    | cons l ls ih =>
      cases hp : p l.err <;> simp [List.filter_cons, hp, ih]
  have hcmd : (∀ (cfg : Config) (args : List String), modules.length ≠ 0 →
        args.any (fun arg => decide (arg = "--dry-run")) = false →
          handleSync fs cfg modules args =
            .synced (syncLoop cfg.Platforms fs modules).1 (syncLoop cfg.Platforms fs modules).2) ∧
      (∀ (cfg : Config), (getTargetPlatforms cfg).entries.length ≠ 0 →
        syncAllModulesToDefaultPlatforms fs cfg modules true =
          (true, syncLoop (getTargetPlatforms cfg) fs modules)) := by
    constructor
    · intro cfg args hm hd
      unfold handleSync
      rw [if_neg hm, hd]
      rfl
    · intro cfg hp
      unfold syncAllModulesToDefaultPlatforms
      simp only [hp, if_false]
      rfl
  have hf2 : (syncLoop platforms fs modules).2.failed =
      (((syncLoop platforms fs modules).2.lines.map (fun l => l.err)).filter
        (fun err => err.isSome)).length := by
    rw [← hcount (fun err => err.isSome)]
    exact hf
  have hs2 : (syncLoop platforms fs modules).2.success =
      (((syncLoop platforms fs modules).2.lines.map (fun l => l.err)).filter
        (fun err => err.isNone)).length := by
    rw [← hcount (fun err => err.isNone)]
    exact hs
  have herr2 : (syncLoop platforms fs modules).2.lines.map (fun l => l.err) =
      (runCalls fs (modules.flatMap (fun m => platforms.entries.map (fun e =>
        LinkCall.create m.Path (rawTargetPath m e.1 e.2).clean)))).2 := herr
  refine ⟨hfs, herr2, hl, ?_, ?_, ?_, hcmd⟩
  · have hs3 : (syncLoop platforms fs modules).2.success =
        ((syncLoop platforms fs modules).2.lines.filter (fun l => l.err.isNone)).length := hs
    have hf3 : (syncLoop platforms fs modules).2.failed =
        ((syncLoop platforms fs modules).2.lines.filter (fun l => l.err.isSome)).length := hf
    rw [hs3, hf3, ← hlen]
    generalize (syncLoop platforms fs modules).2.lines = ls
    induction ls with
    | nil => rfl
    | cons l ls ih =>
      cases he : l.err with
      | none => simp [List.filter_cons, he]; omega
      | some err => simp [List.filter_cons, he]; omega
  · rw [← herr2]
    exact hf2
  · rw [← herr2]
    exact hs2

/-- The module `foo` synced to the two example platforms while the link target
on `p1` is occupied by a regular file: both calls are made, the one for `p2`
creates the link and the one for `p1` fails, and the loop counts one success
and one failure. -/
theorem sync_attempts_every_pair_witness :
    [demoModule].length ≠ 0 ∧
      handleSync blockedRepoFS demoConfig [demoModule] [] =
        .synced
          ((["r2", "skills", "foo"], .symlink ["repo", "skill", "foo"]) ::
            (["r2", "skills"], .dir) :: (["r2"], .dir) :: blockedRepoFS)
          { success := 1, failed := 1,
            lines :=
              [{ modName := "foo", platform := "p2", target := ["r2", "skills", "foo"],
                 err := none },
               { modName := "foo", platform := "p1", target := ["r", "skills", "foo"],
                 err := some (.targetIsRealFile ["r", "skills", "foo"]) }] } :=
  ⟨by decide,
    ((sync_attempts_every_pair demoConfig.Platforms blockedRepoFS [demoModule]).2.2.2.2.2.2.1
      demoConfig [] (by decide) (by decide)).trans (by decide)⟩

/-- Claim C20: `FindModule` returns a module of category `skill`, located at
`skill/<name>`, whenever `skill/<name>` is a directory, whatever `agent/<name>`
is; a module of category `agent` when `skill/<name>` is not a directory and
`agent/<name>` is; and otherwise no module but an error for which
`IsModuleNotFound` is true. -/
theorem FindModule_spec (unmarshal : String → Option ModuleConfig) (fs : FS) (cfg : Config)
    (name : String) :
    (Stat fs (filepathJoin cfg.RepoPath ["skill", name]) = .ok .dir →
        ∃ m, FindModule unmarshal fs cfg name = .ok m ∧ m.Category = "skill" ∧
          m.Path = filepathJoin cfg.RepoPath ["skill", name]) ∧
      (Stat fs (filepathJoin cfg.RepoPath ["skill", name]) ≠ .ok .dir →
        Stat fs (filepathJoin cfg.RepoPath ["agent", name]) = .ok .dir →
          ∃ m, FindModule unmarshal fs cfg name = .ok m ∧ m.Category = "agent" ∧
            m.Path = filepathJoin cfg.RepoPath ["agent", name]) ∧
      (Stat fs (filepathJoin cfg.RepoPath ["skill", name]) ≠ .ok .dir →
        Stat fs (filepathJoin cfg.RepoPath ["agent", name]) ≠ .ok .dir →
          FindModule unmarshal fs cfg name = .error (.ModuleNotFoundError name) ∧
            IsModuleNotFound (some (.ModuleNotFoundError name)) = true) := by
  have hfalse : ∀ p, Stat fs p ≠ .ok .dir → statIsDir (Stat fs p) = false := by
    intro p hp
    rw [Bool.eq_false_iff]
    intro h
    exact hp ((statIsDir_eq_true _).mp h)
  refine ⟨?_, ?_, ?_⟩
  · intro h
    have hs := (statIsDir_eq_true _).mpr h
    refine ⟨loadModule unmarshal fs name "skill" (filepathJoin cfg.RepoPath ["skill", name]),
      ?_, rfl, rfl⟩
    unfold FindModule
    simp only [hs, if_true]
  · intro h1 h2
    have hs := (statIsDir_eq_true _).mpr h2
    refine ⟨loadModule unmarshal fs name "agent" (filepathJoin cfg.RepoPath ["agent", name]),
      ?_, rfl, rfl⟩
    unfold FindModule
    simp only [hfalse _ h1, hs, if_true, Bool.false_eq_true, if_false]
  · intro h1 h2
    refine ⟨?_, rfl⟩
    unfold FindModule
    simp only [hfalse _ h1, hfalse _ h2, Bool.false_eq_true, if_false]

/-- In the example repository `foo` is found as a skill, and `bar`, which is
in neither subtree, is reported as not found. -/
theorem FindModule_spec_witness :
    Stat demoRepoFS (filepathJoin demoConfig.RepoPath ["skill", "foo"]) = .ok .dir ∧
      (∃ m, FindModule (fun _ => none) demoRepoFS demoConfig "foo" = .ok m ∧
        m.Category = "skill" ∧ m.Path = filepathJoin demoConfig.RepoPath ["skill", "foo"]) ∧
      FindModule (fun _ => none) demoRepoFS demoConfig "bar" = .error (.ModuleNotFoundError "bar") :=
  ⟨by decide,
    (FindModule_spec (fun _ => none) demoRepoFS demoConfig "foo").1 (by decide),
    ((FindModule_spec (fun _ => none) demoRepoFS demoConfig "bar").2.2 (by decide) (by decide)).1⟩

/-- Claim C21: `ListModules` returns one module of category `skill` for every
real subdirectory of `skill/`, followed by one module of category `agent` for
every real subdirectory of `agent/`, each loaded from the path of its
subdirectory, in the order `os.ReadDir` lists the entries.  An entry that is
not a directory is skipped, every subdirectory is listed once, the length of the
result is the number of subdirectories of `skill/` plus that of `agent/`, and
every `skill` module stands before every `agent` module. -/
theorem ListModules_spec (unmarshal : String → Option ModuleConfig) (fs : FS) (cfg : Config) :
    ListModules unmarshal fs cfg =
        (subdirs fs (filepathJoin cfg.RepoPath ["skill"])).map
            (fun c => loadModule unmarshal fs c "skill"
              (filepathJoin (filepathJoin cfg.RepoPath ["skill"]) [c])) ++
          (subdirs fs (filepathJoin cfg.RepoPath ["agent"])).map
            (fun c => loadModule unmarshal fs c "agent"
              (filepathJoin (filepathJoin cfg.RepoPath ["agent"]) [c])) ∧
      (ListModules unmarshal fs cfg).map (fun m => (m.Category, m.Path)) =
        (subdirs fs (filepathJoin cfg.RepoPath ["skill"])).map
            (fun c => ("skill", filepathJoin (filepathJoin cfg.RepoPath ["skill"]) [c])) ++
          (subdirs fs (filepathJoin cfg.RepoPath ["agent"])).map
            (fun c => ("agent", filepathJoin (filepathJoin cfg.RepoPath ["agent"]) [c])) ∧
      (ListModules unmarshal fs cfg).length =
        (subdirs fs (filepathJoin cfg.RepoPath ["skill"])).length +
          (subdirs fs (filepathJoin cfg.RepoPath ["agent"])).length ∧
      (∀ d, (subdirs fs d).Nodup ∧
        ∀ c, c ∈ subdirs fs d ↔
          ∃ q, dirAt fs d = .ok q ∧ entryAt fs (q ++ [c]) = some .dir) ∧
      (∀ (i j : Nat) (m1 m2 : Module), (ListModules unmarshal fs cfg).get? i = some m1 →
        (ListModules unmarshal fs cfg).get? j = some m2 →
          m1.Category = "skill" → m2.Category = "agent" → i < j) := by
  refine ⟨ListModules_eq unmarshal fs cfg, ?_, ?_, subdirs_spec fs, ?_⟩
  · rw [ListModules_eq]
    simp [loadModule, Function.comp_def]
  · rw [ListModules_eq]
    simp
  · intro i j m1 m2 h1 h2 hc1 hc2
    rw [ListModules_eq] at h1 h2
    rcases Nat.lt_or_ge j ((subdirs fs (filepathJoin cfg.RepoPath ["skill"])).map
        (fun c => loadModule unmarshal fs c "skill"
          (filepathJoin (filepathJoin cfg.RepoPath ["skill"]) [c]))).length with hj | hj
    · exfalso
      rw [List.get?_eq_getElem?, List.getElem?_append_left hj] at h2
      have hm := List.getElem?_mem h2
      rw [List.mem_map] at hm
      obtain ⟨c, _, hc⟩ := hm
      rw [← hc] at hc2
      have hne : ("skill" : String) = "agent" := hc2
      exact absurd hne (by decide)
    · rcases Nat.lt_or_ge i ((subdirs fs (filepathJoin cfg.RepoPath ["skill"])).map
          (fun c => loadModule unmarshal fs c "skill"
            (filepathJoin (filepathJoin cfg.RepoPath ["skill"]) [c]))).length with hi | hi
      · omega
      · exfalso
        rw [List.get?_eq_getElem?, List.getElem?_append_right hi] at h1
        have hm := List.getElem?_mem h1
        rw [List.mem_map] at hm
        obtain ⟨c, _, hc⟩ := hm
        rw [← hc] at hc1
        have hne : ("agent" : String) = "skill" := hc1
        exact absurd hne (by decide)

/-- In the example repository the skills `bar` and `foo` are listed before the
agent `rev`; the regular file and the symbolic link in `skill/` are skipped. -/
theorem ListModules_spec_witness :
    subdirs catalogFS (filepathJoin demoConfig.RepoPath ["skill"]) = ["bar", "foo"] ∧
      subdirs catalogFS (filepathJoin demoConfig.RepoPath ["agent"]) = ["rev"] ∧
      (ListModules noToml catalogFS demoConfig).map (fun m => (m.Category, m.Path)) =
        [("skill", ["repo", "skill", "bar"]), ("skill", ["repo", "skill", "foo"]),
          ("agent", ["repo", "agent", "rev"])] :=
  ⟨by decide, by decide,
    (ListModules_spec noToml catalogFS demoConfig).2.1.trans (by decide)⟩

/-- Claim C22, divergence: every `---` line flips the state of the scan, so
the field is read from any delimited block, not only from the leading one.  In
the example descriptor the leading block, between the first two `---` lines,
has no `description:` line and the block between the third and the fourth
`---` line has one: its value `later` is returned.  In general: a missing or
unreadable descriptor gives the empty description.  Otherwise the first line
that is inside a block (an odd number of `---` lines before it), is longer than
`description:` and starts with it gives the result, namely what follows
`description:` after `trimQuotes`; a `description:` line outside every block is
never the one the field is read from; when no line qualifies the result is the
first plain line of the document; and the first `description:` line of the
leading block is returned.  `trimQuotes` trims the value with `trimSpace`,
which removes blanks and tabs and nothing else from both ends, and then removes
one surrounding pair of equal quote characters, if there is one.  The first
plain line is the first line that is not empty, does not start with `#` and is
not `---`; without such a line it is empty. -/
theorem loadModuleDescription_spec :
    (splitLines "---\nname: foo\n---\nA tool.\n---\ndescription: later\n---\n" =
        ["---", "name: foo", "---", "A tool.", "---", "description: later", "---"] ∧
      ReadFile lateDescriptionFS (descriptorPath ["repo", "skill", "foo"] "skill") =
        .ok "---\nname: foo\n---\nA tool.\n---\ndescription: later\n---\n" ∧
      loadModuleDescription lateDescriptionFS ["repo", "skill", "foo"] "skill" = "later") ∧
    (∀ (fs : FS) (path : Path) (category : String),
      (∀ e, ReadFile fs (descriptorPath path category) = .error e →
        loadModuleDescription fs path category = "") ∧
      (∀ content, ReadFile fs (descriptorPath path category) = .ok content →
        (∀ pre line post, splitLines content = pre ++ line :: post →
          isDescriptionLine line = true → insideBlock false pre = true →
          (∀ pre1 l post1, pre = pre1 ++ l :: post1 →
            ¬ (isDescriptionLine l = true ∧ insideBlock false pre1 = true)) →
          loadModuleDescription fs path category =
            String.mk (trimQuotes (line.data.drop 12))) ∧
        (∀ v, scanFrontmatter (splitLines content) false = some v →
          loadModuleDescription fs path category = v ∧
            ∃ pre line post, splitLines content = pre ++ line :: post ∧
              isDescriptionLine line = true ∧ insideBlock false pre = true ∧
              v = String.mk (trimQuotes (line.data.drop 12))) ∧
        ((∀ pre l post, splitLines content = pre ++ l :: post →
            ¬ (isDescriptionLine l = true ∧ insideBlock false pre = true)) →
          loadModuleDescription fs path category = firstPlainLine (splitLines content)) ∧
        (∀ head block line tail, splitLines content = head ++ "---" :: (block ++ line :: tail) →
          (∀ l ∈ head, l ≠ "---") →
          (∀ l ∈ block, l ≠ "---" ∧ isDescriptionLine l = false) →
          isDescriptionLine line = true →
          loadModuleDescription fs path category =
            String.mk (trimQuotes (line.data.drop 12))))) ∧
    (∀ line : String, isDescriptionLine line = true ↔
      line.data.length > 12 ∧ line.data.take 12 = "description:".data) ∧
    (∀ pre : List String, insideBlock false pre = true ↔ pre.count "---" % 2 = 1) ∧
    (∀ s : List Char, ∃ pre post, s = pre ++ trimSpace s ++ post ∧
      (∀ c ∈ pre, c = ' ' ∨ c = '\t') ∧ (∀ c ∈ post, c = ' ' ∨ c = '\t') ∧
      (∀ c, (trimSpace s).head? = some c → ¬ (c = ' ' ∨ c = '\t')) ∧
      (∀ c, (trimSpace s).getLast? = some c → ¬ (c = ' ' ∨ c = '\t'))) ∧
    (∀ (s : List Char) (q : Char) (mid : List Char), (q = '"' ∨ q = '\'') →
      trimSpace s = q :: (mid ++ [q]) → trimQuotes s = mid) ∧
    (∀ s : List Char,
      (∀ (q : Char) (mid : List Char), (q = '"' ∨ q = '\'') →
        trimSpace s ≠ q :: (mid ++ [q])) →
      trimQuotes s = trimSpace s) ∧
    (∀ (pre : List String) (l : String) (post : List String),
      (∀ x ∈ pre, x = "" ∨ x.data.head? = some '#' ∨ x = "---") →
      ¬ (l = "" ∨ l.data.head? = some '#' ∨ l = "---") →
      firstPlainLine (pre ++ l :: post) = l) ∧
    (∀ lines : List String, (∀ x ∈ lines, x = "" ∨ x.data.head? = some '#' ∨ x = "---") →
      firstPlainLine lines = "") ∧
    (ReadFile describedFS (descriptorPath ["repo", "skill", "foo"] "skill") =
        .ok "---\nname: foo\ndescription:  \"Formats code\" \n---\n# Foo\ndescription: body\n" ∧
      loadModuleDescription describedFS ["repo", "skill", "foo"] "skill" = "Formats code" ∧
      ReadFile demoRepoFS (descriptorPath ["repo", "skill", "foo"] "skill") = .error .ENOENT ∧
      loadModuleDescription demoRepoFS ["repo", "skill", "foo"] "skill" = "") := by
  refine ⟨by decide, ?_, ?_, insideBlock_odd, trimSpace_spec, trimQuotes_quoted,
    trimQuotes_unquoted, firstPlainLine_found, firstPlainLine_none, by decide⟩
  · intro fs path category
    constructor
    · intro e h
      rw [loadModuleDescription_eq, h]
    · intro content h
      have hfound : ∀ pre line post, splitLines content = pre ++ line :: post →
          isDescriptionLine line = true → insideBlock false pre = true →
          (∀ pre1 l post1, pre = pre1 ++ l :: post1 →
            ¬ (isDescriptionLine l = true ∧ insideBlock false pre1 = true)) →
          loadModuleDescription fs path category =
            String.mk (trimQuotes (line.data.drop 12)) := by
        intro pre line post hs hd hb hf
        rw [loadModuleDescription_eq, h]
        simp only
        rw [hs, scanFrontmatter_found pre false line post hd hb hf]
        rfl
      refine ⟨hfound, ?_, ?_, ?_⟩
      · intro v hv
        constructor
        · rw [loadModuleDescription_eq, h]
          simp only
          rw [hv]
        · obtain ⟨pre, line, post, hs, hd, hb, hval, _⟩ := scanFrontmatter_some _ _ v hv
          exact ⟨pre, line, post, hs, hd, hb, hval⟩
      · intro hno
        rw [loadModuleDescription_eq, h]
        simp only
        rw [scanFrontmatter_none _ _ hno]
      · intro head block line tail hs hhead hblock hd
        have hs2 : splitLines content = (head ++ "---" :: block) ++ line :: tail := by
          rw [hs]; simp
        refine hfound _ line tail hs2 hd ?_ ?_
        · rw [insideBlock_append, insideBlock_no_delimiter false head hhead]
          unfold insideBlock
          rw [if_pos rfl]
          exact insideBlock_no_delimiter _ block (fun l hl => (hblock l hl).1)
        · intro pre1 l post1 hsplit hc
          rcases List.append_eq_append_iff.mp hsplit with ⟨a, ha1, ha2⟩ | ⟨c, hc1, hc2⟩
          · cases a with
            | nil =>
              rw [List.nil_append] at ha2
              cases ha2
              exact isDescriptionLine_ne_delimiter _ hc.1 rfl
            | cons y a =>
              rw [List.cons_append] at ha2
              cases ha2
              have hnd := (hblock l (by simp)).2
              rw [hnd] at hc
              exact absurd hc.1 (by decide)
          · have hpre : ∀ x ∈ pre1, x ≠ "---" := by
              intro x hx
              apply hhead
              rw [hc1]
              simp [hx]
            rw [insideBlock_no_delimiter false pre1 hpre] at hc
            exact absurd hc.2 (by decide)
  · intro line
    unfold isDescriptionLine
    exact decide_eq_true_iff

/-- Claim C23: the commit of the detail page.  Let the page return the result
`r` with the keys `rest` unread.  Its action is `quit` or `apply`.  On `quit`
nothing is asked and nothing changes.  On `apply` (the back key) with both lists
empty, `handleModuleDetail` returns at once: no key is read for a confirmation
and the filesystem is unchanged.  With a non-empty list the confirmation is
asked (with no key left the function waits in the dialog); when it is accepted
the apply step runs: `CreateSymlink(mod.Path, target)` is called for every key
of `ToSync` in order and then `RemoveSymlink(target)` for every key of
`ToRemove`, each call on the filesystem the call before it left, and the
function returns the filesystem after the last call with one line per call
that carries the error of that call; when it is declined no call is made and
the filesystem is unchanged. -/
theorem detail_commit (cfg : Config) (mod : Module) (cwd : Path) (n : Nat) (fs : FS)
    (keys : List String) (r : ModuleDetailResult) (rest : List String)
    (h : ModuleDetailMenuKeys fs cfg mod keys = .done r rest) :
    (r.Action = "apply" ∨ (r.Action = "quit" ∧ r.ToSync = [] ∧ r.ToRemove = [])) ∧
      (r.Action = "quit" →
        handleModuleDetail cfg mod cwd (n + 1) fs keys = .done (false, fs, []) rest) ∧
      (r.Action = "apply" → r.ToSync = [] → r.ToRemove = [] →
        handleModuleDetail cfg mod cwd (n + 1) fs keys = .done (true, fs, []) rest) ∧
      (r.Action = "apply" → ¬ (r.ToSync = [] ∧ r.ToRemove = []) →
        (rest = [] → handleModuleDetail cfg mod cwd (n + 1) fs keys =
          .awaitingKey (.confirm (.applyChanges r.ToSync.length r.ToRemove.length))) ∧
        (∀ rest2, ConfirmDialog (.applyChanges r.ToSync.length r.ToRemove.length) rest =
            .done true rest2 →
          ∃ lines : List ApplyLine,
            handleModuleDetail cfg mod cwd (n + 1) fs keys =
              .done (true,
                (runCalls fs
                  (r.ToSync.map (fun k => LinkCall.create mod.Path
                      (rawTargetPath mod k (platformAt cfg cwd k)).clean) ++
                    r.ToRemove.map (fun k => LinkCall.remove
                      (rawTargetPath mod k (platformAt cfg cwd k)).clean))).1,
                lines) rest2 ∧
            lines.map ApplyLine.call =
              r.ToSync.map (fun k => (true, k)) ++ r.ToRemove.map (fun k => (false, k)) ∧
            lines.map ApplyLine.err =
              (runCalls fs
                (r.ToSync.map (fun k => LinkCall.create mod.Path
                    (rawTargetPath mod k (platformAt cfg cwd k)).clean) ++
                  r.ToRemove.map (fun k => LinkCall.remove
                    (rawTargetPath mod k (platformAt cfg cwd k)).clean))).2) ∧
        (∀ rest2, ConfirmDialog (.applyChanges r.ToSync.length r.ToRemove.length) rest =
            .done false rest2 →
          handleModuleDetail cfg mod cwd (n + 1) fs keys = .done (true, fs, []) rest2)) := by
  have hact := detailLoopKeys_action keys _ 0 r rest h
  have hstep := handleModuleDetail_succ cfg mod cwd n fs keys r rest h
  have hq : r.Action = "apply" → ¬ r.Action = "quit" := by
    intro ha hq
    rw [ha] at hq
    exact absurd hq (by decide)
  refine ⟨hact, ?_, ?_, ?_⟩
  · intro ha
    rw [hstep, if_pos ha]
  · intro ha hs hr
    rw [hstep, if_neg (hq ha), if_pos ha, hs, hr]
    rfl
  · intro ha hne
    have hlen : r.ToSync.length > 0 ∨ r.ToRemove.length > 0 := by
      by_contra hc
      rw [not_or] at hc
      apply hne
      constructor
      · exact List.length_eq_zero.mp (by omega)
      · exact List.length_eq_zero.mp (by omega)
    rw [hstep, if_neg (hq ha), if_pos ha, if_pos hlen]
    refine ⟨?_, ?_, ?_⟩
    · intro hr
      rw [hr]
      rfl
    · intro rest2 hc
      rw [hc]
      obtain ⟨h1, h2⟩ := applyDiffRaw_runs cfg mod cwd fs r.ToSync r.ToRemove
      refine ⟨(applyDiffRaw cfg mod cwd fs r.ToSync r.ToRemove).2, ?_,
        applyDiff_calls cfg mod cwd fs r.ToSync r.ToRemove, h2⟩
      rw [← h1]
      rfl
    · intro rest2 hc
      rw [hc]
      rfl

/-- With `foo` linked on `p1`: turning `p2` on and `p1` off and leaving asks
for the confirmation, and accepting it makes the `CreateSymlink` call for `p2`
and then the `RemoveSymlink` call for `p1`: the link of `p2` is there and the
link of `p1` is gone. -/
theorem detail_commit_witness :
    ModuleDetailMenuKeys demoRepoLinkedFS demoConfig demoModule
        ["SPACE", "DOWN", "SPACE", "LEFT", "ENTER"] =
        .done { Action := "apply", ToSync := ["p2"], ToRemove := ["p1"] } ["ENTER"] ∧
      (∃ lines : List ApplyLine,
        handleModuleDetail demoConfig demoModule [] 1 demoRepoLinkedFS
            ["SPACE", "DOWN", "SPACE", "LEFT", "ENTER"] =
          .done (true,
            (runCalls demoRepoLinkedFS
              [.create ["repo", "skill", "foo"] ["r2", "skills", "foo"],
                .remove ["r", "skills", "foo"]]).1, lines) [] ∧
        lines.map ApplyLine.call = [(true, "p2"), (false, "p1")] ∧
        lines.map ApplyLine.err =
          (runCalls demoRepoLinkedFS
            [.create ["repo", "skill", "foo"] ["r2", "skills", "foo"],
              .remove ["r", "skills", "foo"]]).2) ∧
      handleModuleDetail demoConfig demoModule [] 1 demoRepoLinkedFS
          ["SPACE", "DOWN", "SPACE", "LEFT", "ENTER"] =
        .done (true,
          [(["r2", "skills", "foo"], .symlink ["repo", "skill", "foo"]), (["r2", "skills"], .dir),
            (["r2"], .dir), (["r", "skills"], .dir), (["repo"], .dir), (["repo", "skill"], .dir),
            (["repo", "skill", "foo"], .dir), (["r"], .dir)],
          [.synced "p2" none, .removed "p1" none]) [] :=
  ⟨by decide,
    ((detail_commit demoConfig demoModule [] 0 demoRepoLinkedFS
      ["SPACE", "DOWN", "SPACE", "LEFT", "ENTER"]
      { Action := "apply", ToSync := ["p2"], ToRemove := ["p1"] } ["ENTER"] (by decide)).2.2.2
      rfl (by decide)).2.1 [] (by decide),
    by decide⟩

/-- Claim C24: a quick sync whose confirmation is declined changes nothing.
With the answer `false` of `ConfirmDialog`, `syncModuleToDefaultPlatforms` and
`syncAllModulesToDefaultPlatforms` return `false` with the filesystem as it was
and without a `CreateSymlink` call.  Read from the keys: when the dialog ends
declined, or is not reached because there is no target platform, the result is
the same; and whenever either function returns `false`, the filesystem is
unchanged and no call was made. -/
theorem declined_quick_sync_changes_nothing (fs : FS) (cfg : Config) (mod : Module)
    (modules : List Module) :
    syncModuleToDefaultPlatforms fs cfg mod false = (false, fs, []) ∧
      syncAllModulesToDefaultPlatforms fs cfg modules false =
        (false, fs, { success := 0, failed := 0, lines := [] }) ∧
      (∀ keys rest,
        ConfirmDialog (.syncOne mod.Name (getTargetPlatforms cfg).entries.length) keys =
            .done false rest →
          syncModuleToDefaultPlatformsKeys fs cfg mod keys =
            .done (false, fs, []) (if (getTargetPlatforms cfg).entries.length = 0 then keys
              else rest)) ∧
      (∀ keys rest,
        ConfirmDialog (.syncAll modules.length (getTargetPlatforms cfg).entries.length) keys =
            .done false rest →
          syncAllModulesToDefaultPlatformsKeys fs cfg modules keys =
            .done (false, fs, { success := 0, failed := 0, lines := [] })
              (if (getTargetPlatforms cfg).entries.length = 0 then keys else rest)) ∧
      (∀ (confirm : Bool), (syncModuleToDefaultPlatforms fs cfg mod confirm).1 = false →
        syncModuleToDefaultPlatforms fs cfg mod confirm = (false, fs, [])) ∧
      (∀ (confirm : Bool), (syncAllModulesToDefaultPlatforms fs cfg modules confirm).1 = false →
        syncAllModulesToDefaultPlatforms fs cfg modules confirm =
          (false, fs, { success := 0, failed := 0, lines := [] })) := by
  have h1 : syncModuleToDefaultPlatforms fs cfg mod false = (false, fs, []) := by
    unfold syncModuleToDefaultPlatforms
    simp
  have h2 : syncAllModulesToDefaultPlatforms fs cfg modules false =
      (false, fs, { success := 0, failed := 0, lines := [] }) := by
    unfold syncAllModulesToDefaultPlatforms
    simp
  refine ⟨h1, h2, ?_, ?_, ?_, ?_⟩
  · intro keys rest hc
    unfold syncModuleToDefaultPlatformsKeys
    by_cases h0 : (getTargetPlatforms cfg).entries.length = 0
    · simp only [h0, if_true]
    · simp only [h0, if_false, hc, Keyed.andThen, h1]
  · intro keys rest hc
    unfold syncAllModulesToDefaultPlatformsKeys
    by_cases h0 : (getTargetPlatforms cfg).entries.length = 0
    · simp only [h0, if_true]
    · simp only [h0, if_false, hc, Keyed.andThen, h2, if_true]
  · intro confirm hf
    cases confirm
    · exact h1
    · unfold syncModuleToDefaultPlatforms at hf ⊢
      by_cases h0 : (getTargetPlatforms cfg).entries.length = 0
      · simp [h0]
      · simp [h0] at hf
  · intro confirm hf
    cases confirm
    · exact h2
    · unfold syncAllModulesToDefaultPlatforms at hf ⊢
      by_cases h0 : (getTargetPlatforms cfg).entries.length = 0
      · simp [h0]
      · simp [h0] at hf

/-- In the example repository: pressing `ESC` in the dialog of the quick sync
of `foo` leaves the filesystem as it was. -/
theorem declined_quick_sync_changes_nothing_witness :
    ConfirmDialog (.syncOne demoModule.Name (getTargetPlatforms demoConfig).entries.length)
        ["ESC"] = .done false [] ∧
      syncModuleToDefaultPlatformsKeys demoRepoFS demoConfig demoModule ["ESC"] =
        .done (false, demoRepoFS, []) [] :=
  ⟨by decide,
    ((declined_quick_sync_changes_nothing demoRepoFS demoConfig demoModule []).2.2.1 ["ESC"] []
      (by decide)).trans (by decide)⟩

/-- Claim C25, divergence: `main` does not use the flag `handleInteractiveCommand`
returns, so whatever a command reports, the loop of `main` makes its next pass
and shows the main menu again.  In the example repository: the use flow reports
`false` when `Q` is pressed in the module list, and also when it is pressed on
the detail page after a toggle (the filesystem is unchanged, the toggle is not
applied); but a session in which `Use` is chosen and `Q` is pressed in the
module list or on the detail page is afterwards waiting on the main menu, and
it reads the next key there.  Only `Q` in the main menu itself ends the session. -/
theorem quit_in_submenu_returns_to_main_menu :
    (∀ (unmarshal : String → Option ModuleConfig) (cwd : Path)
        (other : String → FS → Config → List String → Keyed (Bool × FS × Config))
        (n : Nat) (fs : FS) (cfg : Config) (keys : List String) (cmd : String)
        (rest rest2 : List String) (flag : Bool) (fs2 : FS) (cfg2 : Config),
        InteractiveMenu keys = .done cmd rest → cmd ≠ "quit" →
        handleInteractiveCommand unmarshal cwd other (rest.length + 1) fs cfg cmd rest =
          .done (flag, fs2, cfg2) rest2 →
        mainLoop unmarshal cwd other (n + 1) fs cfg keys =
          mainLoop unmarshal cwd other n fs2 cfg2 rest2) ∧
      handleInteractiveUse noToml [] 2 catalogFS demoConfig ["QUIT"] =
        .done (false, catalogFS) [] ∧
      handleInteractiveUse noToml [] 2 catalogFS demoConfig ["RIGHT", "SPACE", "QUIT"] =
        .done (false, catalogFS) [] ∧
      interactiveSession noToml [] idleHandlers catalogFS demoConfig ["ENTER", "QUIT"] =
        .awaitingKey (.mainMenu 1) ∧
      interactiveSession noToml [] idleHandlers catalogFS demoConfig ["ENTER", "QUIT", "DOWN"] =
        .awaitingKey (.mainMenu 2) ∧
      interactiveSession noToml [] idleHandlers catalogFS demoConfig
          ["ENTER", "RIGHT", "SPACE", "QUIT"] = .awaitingKey (.mainMenu 1) ∧
      interactiveSession noToml [] idleHandlers catalogFS demoConfig ["QUIT"] =
        .done catalogFS [] := by
  refine ⟨?_, by decide, by decide, by decide, by decide, by decide, by decide⟩
  intro unmarshal cwd other n fs cfg keys cmd rest rest2 flag fs2 cfg2 hm hq hc
  rw [mainLoop_succ unmarshal cwd other n fs cfg keys cmd rest hm, if_neg hq, hc]
  rfl

/-- Claim C26, counterexample: in the example repository the cursor is moved
to the second module, `Enter` opens the confirmation of the quick sync, and
`ESC` declines it; the module list then comes back with the cursor on the first
module (index 0), not on the second (index 1). -/
theorem declined_quick_sync_resets_cursor :
    handleInteractiveUse noToml [] 3 catalogFS demoConfig ["DOWN"] =
        .awaitingKey (.moduleList 1 false) ∧
      handleInteractiveUse noToml [] 3 catalogFS demoConfig ["DOWN", "ENTER"] =
        .awaitingKey (.confirm (.syncOne "foo" 2)) ∧
      handleInteractiveUse noToml [] 3 catalogFS demoConfig ["DOWN", "ENTER", "ESC"] =
        .awaitingKey (.moduleList 0 false) := by
  decide

/-- Claim C26, amended: after a declined confirmation of a quick sync (of the
highlighted module, or of all modules) the use flow makes its next pass with
the filesystem unchanged, and that pass calls `ModuleListMenu` anew: the module
list is shown with the cursor on the first module (index 0) and the select-all
flag cleared, whatever the cursor was when `Enter` was pressed. -/
theorem declined_quick_sync_restarts_list (unmarshal : String → Option ModuleConfig)
    (cwd : Path) (n : Nat) (fs : FS) (cfg : Config) (keys rest rest2 : List String)
    (result : ModuleListResult)
    (hlist : ModuleListMenu unmarshal fs cfg keys = .done result rest)
    (htargets : (getTargetPlatforms cfg).entries.length ≠ 0)
    (hdecl :
      (result.Action = "sync_default" ∧ ∃ mod, result.Module = some mod ∧
        ConfirmDialog (.syncOne mod.Name (getTargetPlatforms cfg).entries.length) rest =
          .done false rest2) ∨
      (result.Action = "sync_all_default" ∧
        ConfirmDialog (.syncAll result.Modules.length (getTargetPlatforms cfg).entries.length)
          rest = .done false rest2)) :
    handleInteractiveUse unmarshal cwd (n + 1) fs cfg keys =
        handleInteractiveUse unmarshal cwd n fs cfg rest2 ∧
      (rest2 = [] → handleInteractiveUse unmarshal cwd (n + 2) fs cfg keys =
        .awaitingKey (.moduleList 0 false)) := by
  have hstep : ∀ m, handleInteractiveUse unmarshal cwd (m + 1) fs cfg keys =
      handleInteractiveUse unmarshal cwd m fs cfg rest2 := by
    intro m
    rw [handleInteractiveUse_succ unmarshal cwd m fs cfg keys result rest hlist]
    rcases hdecl with ⟨ha, mod, hm, hc⟩ | ⟨ha, hc⟩
    · rw [ha, if_neg (by decide), if_neg (by decide), if_pos rfl, hm]
      simp only
      unfold syncModuleToDefaultPlatformsKeys
      simp only [htargets, if_false, hc, Keyed.andThen]
      unfold syncModuleToDefaultPlatforms
      simp [htargets]
    · rw [ha, if_neg (by decide), if_neg (by decide), if_neg (by decide), if_pos rfl]
      unfold syncAllModulesToDefaultPlatformsKeys
      simp only [htargets, if_false, hc, Keyed.andThen, if_true]
      unfold syncAllModulesToDefaultPlatforms
      simp [htargets]
  refine ⟨hstep n, ?_⟩
  intro hr
  have hne : ListModules unmarshal fs cfg ≠ [] := by
    apply ListModules_ne_nil_of_action unmarshal fs cfg keys rest result hlist
    rcases hdecl with ⟨ha, _⟩ | ⟨ha, _⟩
    · rw [ha]; decide
    · rw [ha]; decide
  rw [hstep (n + 1), hr]
  exact handleInteractiveUse_no_keys unmarshal cwd n fs cfg hne

/-- In the example repository: `DOWN`, `ENTER`, `ESC` leaves the use flow
waiting on the module list with the cursor on the first module. -/
theorem declined_quick_sync_restarts_list_witness :
    ConfirmDialog (.syncOne "foo" (getTargetPlatforms demoConfig).entries.length) ["ESC"] =
        .done false [] ∧
      handleInteractiveUse noToml [] 2 catalogFS demoConfig ["DOWN", "ENTER", "ESC"] =
        .awaitingKey (.moduleList 0 false) :=
  ⟨by decide,
    (declined_quick_sync_restarts_list noToml [] 0 catalogFS demoConfig
      ["DOWN", "ENTER", "ESC"] ["ESC"] []
      { Module := some (loadModule noToml catalogFS "foo" "skill" ["repo", "skill", "foo"]),
        Modules := [], Action := "sync_default" }
      rfl (by decide)
      (Or.inl ⟨rfl, loadModule noToml catalogFS "foo" "skill" ["repo", "skill", "foo"], rfl,
        by decide⟩)).2 rfl⟩

/-- Claim C28: with an empty catalog the use flow returns to the main menu.
When `ListModules` returns no module, `ModuleListMenu` returns before its loop,
so no list is shown and no key is read; `handleInteractiveUse` returns with the
keys and the filesystem as they were; and since `main` does not look at the
flag returned, its loop goes on with the main menu on the keys left: with no key
left the session waits on the main menu. -/
theorem empty_catalog_returns_to_main_menu (unmarshal : String → Option ModuleConfig)
    (cwd : Path) (other : String → FS → Config → List String → Keyed (Bool × FS × Config))
    (fs : FS) (cfg : Config) (h : ListModules unmarshal fs cfg = []) :
    (∀ keys, ModuleListMenu unmarshal fs cfg keys =
        .done { Module := none, Modules := [], Action := "quit" } keys) ∧
      (∀ n keys, handleInteractiveUse unmarshal cwd (n + 1) fs cfg keys =
        .done (false, fs) keys) ∧
      (∀ n keys, handleInteractiveCommand unmarshal cwd other (n + 1) fs cfg "use" keys =
        .done (false, fs, cfg) keys) ∧
      (∀ n keys rest, InteractiveMenu keys = .done "use" rest →
        mainLoop unmarshal cwd other (n + 1) fs cfg keys =
          mainLoop unmarshal cwd other n fs cfg rest) ∧
      (∀ keys, InteractiveMenu keys = .done "use" [] →
        interactiveSession unmarshal cwd other fs cfg keys = .awaitingKey (.mainMenu 1)) := by
  have huse : ∀ n keys, handleInteractiveUse unmarshal cwd (n + 1) fs cfg keys =
      .done (false, fs) keys := by
    intro n keys
    rw [handleInteractiveUse_succ unmarshal cwd n fs cfg keys _ keys
      (ModuleListMenu_empty unmarshal fs cfg h keys)]
    rfl
  have hcmd : ∀ n keys, handleInteractiveCommand unmarshal cwd other (n + 1) fs cfg "use" keys =
      .done (false, fs, cfg) keys := by
    intro n keys
    unfold handleInteractiveCommand
    rw [if_pos rfl, huse]
    rfl
  refine ⟨ModuleListMenu_empty unmarshal fs cfg h, huse, hcmd, ?_, ?_⟩
  · intro n keys rest hm
    rw [mainLoop_succ unmarshal cwd other n fs cfg keys "use" rest hm, if_neg (by decide), hcmd]
    rfl
  · intro keys hm
    exact interactiveSession_after_use unmarshal cwd other fs cfg keys huse hm

/-- In a repository without modules, choosing `Use` in the main menu leaves
the session waiting on the main menu. -/
theorem empty_catalog_returns_to_main_menu_witness :
    ListModules noToml emptyCatalogFS demoConfig = [] ∧
      InteractiveMenu ["ENTER"] = .done "use" [] ∧
      interactiveSession noToml [] idleHandlers emptyCatalogFS demoConfig ["ENTER"] =
        .awaitingKey (.mainMenu 1) :=
  ⟨List.length_eq_zero.mp (by decide), by decide,
    (empty_catalog_returns_to_main_menu noToml [] idleHandlers emptyCatalogFS demoConfig
      (List.length_eq_zero.mp (by decide))).2.2.2.2 ["ENTER"] (by decide)⟩

/-- Claim C29, divergence: neither page guards against an empty platform
list.  With no platform configured the cursor is 0 and the list is empty, so
the first `SPACE` or `ENTER` on the detail page or on the defaults page indexes
`platforms[0]` out of range; the detail page of a module is reached in this
state from the module list.  With at least one platform the cursor stays a
valid index and no toggle goes out of range, whatever keys are pressed. -/
theorem toggle_on_empty_platform_list_crashes :
    (∀ (fs : FS) (cfg : Config) (mod : Module) (keys : List String),
        cfg.Platforms.entries = [] →
          ModuleDetailMenu fs cfg mod ("SPACE" :: keys) = .indexOutOfRange ∧
            ModuleDetailMenu fs cfg mod ("ENTER" :: keys) = .indexOutOfRange ∧
            DefaultsPlatformsMenu cfg ("SPACE" :: keys) = .crashed ∧
            DefaultsPlatformsMenu cfg ("ENTER" :: keys) = .crashed) ∧
      (∀ (fs : FS) (cfg : Config) (mod : Module) (keys : List String),
        cfg.Platforms.entries ≠ [] →
          ModuleDetailMenu fs cfg mod keys ≠ .indexOutOfRange ∧
            DefaultsPlatformsMenu cfg keys ≠ .crashed) ∧
      noPlatformsConfig.Platforms.entries = [] ∧
      ModuleDetailMenu catalogFS noPlatformsConfig demoModule ["SPACE"] = .indexOutOfRange ∧
      handleInteractiveUse noToml [] 2 catalogFS noPlatformsConfig ["RIGHT"] =
        .awaitingKey (.moduleDetail [] 0) ∧
      handleInteractiveUse noToml [] 2 catalogFS noPlatformsConfig ["RIGHT", "SPACE"] =
        .crashed := by
  refine ⟨?_, ?_, rfl, by decide, by decide, by decide⟩
  · intro fs cfg mod keys h
    refine ⟨?_, ?_, ?_, ?_⟩
    · unfold ModuleDetailMenu detailPlatforms
      rw [h]
      simp [detailLoop]
    · unfold ModuleDetailMenu detailPlatforms
      rw [h]
      simp [detailLoop]
    · unfold DefaultsPlatformsMenu defaultsPlatforms
      rw [h]
      simp [defaultsLoop]
    · unfold DefaultsPlatformsMenu defaultsPlatforms
      rw [h]
      simp [defaultsLoop]
  · intro fs cfg mod keys h
    have hlen : 0 < cfg.Platforms.entries.length := List.length_pos.mpr h
    constructor
    · apply detailLoop_in_range keys _ 0 (le_refl 0)
      unfold detailPlatforms
      rw [List.length_map]
      exact_mod_cast hlen
    · apply defaultsLoop_in_range cfg keys _ 0 (le_refl 0)
      unfold defaultsPlatforms
      rw [List.length_map]
      exact_mod_cast hlen

/-- Claim C30: reordering in the platform view of `ListMenu`.  After any keys
that leave the menu open, the working key list is a rearrangement of the list
`GetOrderedPlatformKeys` returned on entry, without duplicates; the cursor is
not negative and below the length of the list (0 on an empty list); and
`PlatformOrder` is the working list, unless no move was made yet.  The menu then
shows exactly this state.  An effective move up (platform view, cursor above 0)
exchanges the highlighted key with the one before it, leaves every other index
alone, moves the cursor with the key and assigns the new list to
`PlatformOrder`; an effective move down does the same with the key after it;
a move that is not effective changes nothing. -/
theorem platform_reorder_invariant (cfg : Config) :
    (∀ (keys : List String) (s : ListMenuState),
        listMenuAfter (listMenuStart cfg) keys = some s →
          s.platformKeys.Perm cfg.GetOrderedPlatformKeys ∧ s.platformKeys.Nodup ∧
            (∀ k, k ∈ s.platformKeys ↔ k ∈ cfg.Platforms.keys) ∧
            0 ≤ s.selected ∧
            (s.platformKeys ≠ [] → s.selected < (s.platformKeys.length : Int)) ∧
            (s.platformKeys = [] → s.selected = 0) ∧
            (s.cfg.PlatformOrder = s.platformKeys ∨
              (s.platformKeys = cfg.GetOrderedPlatformKeys ∧
                s.cfg.PlatformOrder = cfg.PlatformOrder)) ∧
            ListMenu cfg keys =
              .awaitingKey (.platformList s.mode s.selected s.platformKeys)) ∧
      (∀ s : ListMenuState, 0 ≤ s.selected → s.selected < (s.platformKeys.length : Int) →
        (s.mode = 1 ∧ s.selected > 0 →
          listMenuKey s "MOVEUP" = some (movedState s (s.selected - 1)) ∧
            (movedState s (s.selected - 1)).cfg.PlatformOrder =
              (movedState s (s.selected - 1)).platformKeys ∧
            (movedState s (s.selected - 1)).platformKeys.get?
                (movedState s (s.selected - 1)).selected.toNat =
              s.platformKeys.get? s.selected.toNat ∧
            (movedState s (s.selected - 1)).platformKeys.get? s.selected.toNat =
              s.platformKeys.get? (s.selected - 1).toNat ∧
            ∀ i, i ≠ s.selected.toNat → i ≠ (s.selected - 1).toNat →
              (movedState s (s.selected - 1)).platformKeys.get? i = s.platformKeys.get? i) ∧
        (s.mode = 1 ∧ s.selected < (s.platformKeys.length : Int) - 1 →
          listMenuKey s "MOVEDOWN" = some (movedState s (s.selected + 1)) ∧
            (movedState s (s.selected + 1)).cfg.PlatformOrder =
              (movedState s (s.selected + 1)).platformKeys ∧
            (movedState s (s.selected + 1)).platformKeys.get?
                (movedState s (s.selected + 1)).selected.toNat =
              s.platformKeys.get? s.selected.toNat ∧
            (movedState s (s.selected + 1)).platformKeys.get? s.selected.toNat =
              s.platformKeys.get? (s.selected + 1).toNat ∧
            ∀ i, i ≠ s.selected.toNat → i ≠ (s.selected + 1).toNat →
              (movedState s (s.selected + 1)).platformKeys.get? i = s.platformKeys.get? i) ∧
        (¬ (s.mode = 1 ∧ s.selected > 0) → listMenuKey s "MOVEUP" = some s) ∧
        (¬ (s.mode = 1 ∧ s.selected < (s.platformKeys.length : Int) - 1) →
          listMenuKey s "MOVEDOWN" = some s)) := by
  constructor
  · intro keys s h
    obtain ⟨hp, h0, h1, h2, h3⟩ := listMenuAfter_ok cfg keys _ s (listMenuOK_start cfg) h
    refine ⟨hp, hp.nodup_iff.mpr (GetOrderedPlatformKeys_nodup cfg), ?_, h0, h1, h2, h3,
      listMenuLoop_of_after keys _ s h⟩
    intro k
    rw [hp.mem_iff, GetOrderedPlatformKeys_eq, List.mem_append, mem_firstOccurrences,
      List.mem_filter, List.mem_filter, AList.lookup_isSome]
    simp only [decide_eq_true_eq]
    constructor
    · rintro (hk | hk)
      · exact hk.2
      · exact hk.1
    · intro hk
      by_cases ho : k ∈ cfg.PlatformOrder
      · exact Or.inl ⟨ho, hk⟩
      · exact Or.inr ⟨hk, ho⟩
  · intro s h0 h1
    have hlt : s.selected.toNat < s.platformKeys.length := by omega
    refine ⟨?_, ?_, listMenuKey_idle_moveup s, listMenuKey_idle_movedown s⟩
    · intro hc
      have hj : (s.selected - 1).toNat < s.platformKeys.length := by omega
      have hne : s.selected.toNat ≠ (s.selected - 1).toNat := by omega
      obtain ⟨g1, g2, g3⟩ := swapKeys_get s.platformKeys _ _ hlt hj hne
      exact ⟨listMenuKey_moveup s hc, rfl, g2, g1, g3⟩
    · intro hc
      have hj : (s.selected + 1).toNat < s.platformKeys.length := by omega
      have hne : s.selected.toNat ≠ (s.selected + 1).toNat := by omega
      obtain ⟨g1, g2, g3⟩ := swapKeys_get s.platformKeys _ _ hlt hj hne
      exact ⟨listMenuKey_movedown s hc, rfl, g2, g1, g3⟩

/-- With the platforms listed as `p2`, `p1`: in the platform view, moving the
first key down gives `p1`, `p2` with the cursor on `p2`, and this list is the
new `PlatformOrder`. -/
theorem platform_reorder_invariant_witness :
    demoConfig.GetOrderedPlatformKeys = ["p2", "p1"] ∧
      (∃ s, listMenuAfter (listMenuStart demoConfig) ["TAB", "MOVEDOWN"] = some s ∧
        s.platformKeys = ["p1", "p2"] ∧ s.selected = 1 ∧
        s.cfg.PlatformOrder = ["p1", "p2"]) ∧
      ListMenu demoConfig ["TAB", "MOVEDOWN"] =
        .awaitingKey (.platformList 1 1 ["p1", "p2"]) :=
  ⟨by decide, ⟨_, rfl, by decide, by decide, by decide⟩,
    ((platform_reorder_invariant demoConfig).1 ["TAB", "MOVEDOWN"] _ rfl).2.2.2.2.2.2.2⟩

end SkillKit
